import Mathlib

/-!
# Banksia match-play runtime: embedding and verified properties

Shallow embedding of `src/game/uciengine.cpp`, `src/game/game.cpp` and
`src/game/book.cpp`.

Conventions of the embedding.

* C++ objects become structures and member functions become functions that
  return the updated object (explicit state passing).
* Collaborators whose code is not part of the embedded files (the chess board
  rules, the time controller, move text conversion, the class `Option`) are
  the fields of `Env`, `BookEnv` and `OptionEnv`; every theorem quantifies
  over them.
* The generator behind `std::rand` is a sequence of values with a cursor
  (`Rng`); `std::srand` replaces the sequence.
* Machine integers are `Nat` or `Int`; where a shift or an assignment can
  leave the width of its type, the reduction modulo `2 ^ w` is written out.
* The numbers of the time controller that `timeControlString` computes with
  are `double` values in seconds; a `double` is the rational number it
  holds and a product is exact (the rounding of a result to the nearest
  `double` is left out).  `int(d)` and `std::to_string(d)` are `doubleToInt`
  and `doubleToString`.
* The two regular expressions of `parseOption` are matched by `regexSearch`,
  a backtracking matcher with the rules of the ECMAScript grammar: the first
  position with a match, greedy groups, alternatives in the order written.
* `assert` is compiled out (`NDEBUG`): a failing assertion does not stop the
  modelled code.  Behaviour the C++ standard leaves undefined (null player
  dereference, `back()` of an empty vector) and a thrown `std::out_of_range`
  are the result `none`.
* The lines an engine object hands to `write` are recorded in `written`; the
  player operations a game invokes are recorded in `calls`.  Both are ghost
  fields: no modelled code reads them.
-/

namespace Banksia

/-! ## Data model -/

/-- Side to move.  As array index (`static_cast<int>`): black is 0 (`B`), white is 1 (`W`).
The board of a running game always has one of these two sides to move. -/
inductive Side where
  | black
  | white
  deriving DecidableEq, Repr

/-- Index `1 - sd` of the opponent. -/
def Side.other : Side → Side
  | .black => .white
  | .white => .black

/-- Piece kinds in the order of the enumeration (`empty = 0`, ..., `pawn = 6`). -/
inductive PieceType where
  | empty
  | king
  | queen
  | rook
  | bishop
  | knight
  | pawn
  deriving DecidableEq, Repr

/-- Coordinate move: `from` (here `src`), `dest`, `promotion`.  `operator==` compares the
three fields. -/
structure Move where
  src : Int
  dest : Int
  promotion : PieceType
  deriving DecidableEq, Repr

/-- History entry: the move made, the side of the moving piece (`move.piece.side`)
and the thinking time.  Times are `double` seconds in the source; the embedded code only
stores and hands them on, so they are kept as opaque integers (milliseconds). -/
structure Hist where
  move : Move
  side : Side
  elapsed : Int
  deriving DecidableEq, Repr

/-- Outcome of a game, from white's perspective. -/
inductive ResultType where
  | noresult
  | win
  | draw
  | loss
  deriving DecidableEq, Repr

/-- Reason of a result. -/
inductive ReasonType where
  | noreason
  | mate
  | stalemate
  | repetition
  | fiftymoves
  | insufficientmaterial
  | adjudication
  | resign
  | aborted
  | illegalmove
  | timeout
  | crash
  deriving DecidableEq, Repr

/-- Result record; the default constructed value has no result and no reason. -/
structure Result where
  result : ResultType := ResultType.noresult
  reason : ReasonType := ReasonType.noreason
  deriving DecidableEq, Repr

/-- Board as far as the game and the engine adapter read it: side to move, history and
result.  `pos` stands for the rest (placement, castling rights, ...), owned by the rules. -/
structure Board (P : Type) where
  side : Side
  histList : List Hist
  result : Result
  pos : P

/-- Engine computing state. -/
inductive EngineComputingState where
  | idle
  | thinking
  | pondering
  deriving DecidableEq, Repr

/-- Player life cycle state. -/
inductive PlayerState where
  | none
  | starting
  | ready
  | playing
  | stopped
  deriving DecidableEq, Repr

/-- Game state. -/
inductive GameState where
  | begin
  | ready
  | playing
  | stopped
  deriving DecidableEq, Repr

/-- Time control modes. -/
inductive TimeControlMode where
  | infinite
  | depth
  | movetime
  | standard
  | none
  deriving DecidableEq, Repr

/-- Kinds of protocol options. -/
inductive OptionType where
  | check
  | spin
  | combo
  | button
  | string
  | none
  deriving DecidableEq, Repr

/-- Protocol option of an engine configuration. -/
structure EngineOption where
  name : String
  type : OptionType
  value : String
  defaultValue : String
  minInt : Int
  maxInt : Int
  choiceList : List String
  deriving DecidableEq, Repr

/-- Engine configuration as far as the adapter uses it. -/
structure Config where
  ponderable : Bool
  idName : String
  optionList : List EngineOption
  deriving DecidableEq, Repr

/-- Collaborators of the embedded files: declarations they use whose code lives elsewhere.
`P` is the board position owned by the rules, `T` the state of the time controller. -/
structure Env (P T : Type) where
  /-- The constant `Move::illegalMove`. -/
  illegalMove : Move
  /-- The constant `MoveFull::illegalMove` (its coordinate part). -/
  illegalMoveFull : Move
  /-- The test `Move::isValid`. -/
  isValid : Move → Bool
  /-- The conversion `ChessBoard::moveFromCoordiateString`. -/
  moveFromCoordiateString : String → Move
  /-- The conversion `Move::toCoordinateString`. -/
  toCoordinateString : Move → String
  /-- The helper `splitString(line, delimiter)`. -/
  splitString : String → Char → List String
  /-- The call `board.checkMake(from, dest, promotion)`: accepted or not, and the board after it. -/
  checkMake : Board P → Int → Int → PieceType → Bool × Board P
  /-- The call `board.rule()`. -/
  rule : Board P → Result
  /-- The call `board.newGame(fen)`. -/
  boardNewGame : Board P → String → Board P
  /-- The calls `board.createMove(from, dest, promotion)` and `board.make(fullMove)`. -/
  boardMake : Board P → Int → Int → PieceType → Board P
  /-- The test `board.fromOriginPosition()`. -/
  fromOriginPosition : Board P → Bool
  /-- The accessor `board.getStartingFen()`. -/
  getStartingFen : Board P → String
  /-- The test `timeController.isTimeOver(side)`. -/
  isTimeOver : T → Side → Bool
  /-- The call `timeController.setupClocksBeforeThinking(halfMoveCount)`. -/
  setupClocksBeforeThinking : T → Int → T
  /-- The call `timeController.udateClockAfterMove(elapsed, side, halfMoveCount)`. -/
  udateClockAfterMove : T → Int → Side → Int → T
  /-- The call `timeController.moveTimeConsumed()`. -/
  moveTimeConsumed : T → Int
  /-- The field `timeController.mode`. -/
  tcMode : T → TimeControlMode
  /-- The field `timeController.depth`. -/
  tcDepth : T → Int
  /-- The field `timeController.time`, in the unit of the controller, the second (comment of
  line 189). -/
  tcTime : T → ℚ
  /-- The call `timeController.getTimeLeft(side)`: the time left, in seconds. -/
  tcTimeLeft : T → Side → ℚ
  /-- The field `timeController.increment`, in seconds. -/
  tcIncrement : T → ℚ
  /-- The field `timeController.moves`. -/
  tcMoves : T → Int
  /-- The call `ConfigMng::instance->checkOverrideOption(option)`. -/
  checkOverrideOption : EngineOption → EngineOption
  /-- The test `option.isDefaultValue()`. -/
  isDefaultValue : EngineOption → Bool
  /-- The text `option.getValueAsString()`. -/
  getValueAsString : EngineOption → String
  /-- The effect of `UciEngine::parseOption(line)` on the configuration, and its result. -/
  parseOption : String → Config → Bool × Config

/-! ## UciEngine (`src/game/uciengine.cpp`) -/

/-- Commands an engine line may start with (`UciEngine::UciEngineCmd`). -/
inductive UciEngineCmd where
  | uciok
  | readyok
  | option
  | info
  | bestmove
  | theId
  | copyprotection
  | registration
  deriving DecidableEq, Repr

/-- The table `UciEngine::uciEngineCmd` (lines 33-42): first token of a line to command. -/
def uciEngineCmd (token : String) : Option UciEngineCmd :=
  if token = "uciok" then some UciEngineCmd.uciok
  else if token = "readyok" then some UciEngineCmd.readyok
  else if token = "option" then some UciEngineCmd.option
  else if token = "info" then some UciEngineCmd.info
  else if token = "bestmove" then some UciEngineCmd.bestmove
  else if token = "id" then some UciEngineCmd.theId
  else if token = "copyprotection" then some UciEngineCmd.copyprotection
  else if token = "registration" then some UciEngineCmd.registration
  else none

/-- State of a `UciEngine` object.  `hasTimeController`, `hasMoveReceiver` and `hasBoard` say
whether the pointers `timeController`, `moveReceiver` and `board` are set (the functions that
take the board as an argument are read with the pointer set); `writable` is the answer of
`isWritable()` and of `write`; `written` lists the strings handed to `write`, oldest first. -/
structure UciEngine where
  state : PlayerState
  expectingBestmove : Bool
  computingState : EngineComputingState
  ponderingMove : Move
  config : Config
  hasTimeController : Bool
  hasMoveReceiver : Bool
  hasBoard : Bool
  depth : Int
  nodes : Int
  score : Int
  writable : Bool
  written : List String
  deriving DecidableEq, Repr

/-- Arguments of the call `(moveRecv)(move, moveString, ponderMove, period, oldComputingState)`
(line 276), in that order. -/
structure BestmoveEvent where
  move : Move
  moveString : String
  ponderMove : Move
  timeConsumed : Int
  oldState : EngineComputingState
  deriving DecidableEq, Repr

/-- One argument of a call of the move receiver: a move, a text, a time or a computing state. -/
inductive ReceiverArg where
  | move (m : Move)
  | text (s : String)
  | time (t : Int)
  | state (s : EngineComputingState)
  deriving DecidableEq, Repr

/-- The argument list of the call of line 276. -/
def BestmoveEvent.arguments (b : BestmoveEvent) : List ReceiverArg :=
  [ReceiverArg.move b.move, ReceiverArg.text b.moveString, ReceiverArg.move b.ponderMove,
    ReceiverArg.time b.timeConsumed, ReceiverArg.state b.oldState]

/-- The local `ponderMoveString` of `UciEngine::parseLine` (lines 268-271) for the words `vec`
of a `bestmove` line. -/
def bestmovePonderString (vec : List String) : String :=
  if vec.length ≥ 4 && vec.getD 2 "" == "ponder" then vec.getD 3 "" else ""

/-- Modelled from the spec: `Engine::write` is not among the embedded files.  Following
`writeLine(s)` of the spec it hands one string to the engine process; the string is recorded
and the answer is whether the pipe is writable. -/
def UciEngine.write (s : String) (e : UciEngine) : Bool × UciEngine :=
  (e.writable, { e with written := e.written ++ [s] })

/-- The loop of `UciEngine::sendOptions` (lines 56-68) over the remaining options. -/
def UciEngine.sendOptionsLoop {P T : Type} (x : Env P T) : List EngineOption → UciEngine → Bool × UciEngine
  | [], e => (true, e)
  | option :: rest, e =>
    if !e.writable then (false, e)
    else
      let o := x.checkOverrideOption option
      if x.isDefaultValue o then UciEngine.sendOptionsLoop x rest e
      else
        let str := "setoption name " ++ o.name ++ " value " ++ x.getValueAsString o
        UciEngine.sendOptionsLoop x rest (e.write str).2

/-- The function `UciEngine::sendOptions` (lines 54-70). -/
def UciEngine.sendOptions {P T : Type} (x : Env P T) (e : UciEngine) : Bool × UciEngine :=
  UciEngine.sendOptionsLoop x e.config.optionList e

/-- The function `UciEngine::newGame` (lines 72-81). -/
def UciEngine.newGame {P T : Type} (x : Env P T) (e : UciEngine) : UciEngine :=
  let e := { e with ponderingMove := x.illegalMoveFull }
  let e := { e with expectingBestmove := false }
  let e := { e with computingState := EngineComputingState.idle }
  let r := e.write "ucinewgame"
  if r.1 then { r.2 with state := PlayerState.playing } else r.2

/-- The function `UciEngine::stop` (lines 90-97). -/
def UciEngine.stop (e : UciEngine) : Bool × UciEngine :=
  if e.expectingBestmove then
    let str := "stop"
    e.write str
  else (false, e)

/-- The least value of an `int`. -/
def intMin : Int := -2147483648

/-- The greatest value of an `int`. -/
def intMax : Int := 2147483647

/-- The conversion `int(d)` of a `double`: the fraction is dropped.  Outside the range of `int`
the conversion is undefined; the value is then the one the conversion instruction of x86-64
gives, the least `int`. -/
def doubleToInt (d : ℚ) : Int :=
  let v : Int := if 0 ≤ d then ⌊d⌋ else ⌈d⌉
  if intMin ≤ v ∧ v ≤ intMax then v else intMin

/-- Rounding of a number that is not negative to the nearest whole number, a tie to the even
one. -/
def roundHalfEven (q : ℚ) : Nat :=
  let f := ⌊q⌋₊
  let r := q - f
  if r < 1 / 2 then f
  else if 1 / 2 < r then f + 1
  else if f % 2 = 0 then f else f + 1

/-- The text `std::to_string(d)` of a `double` (format `%f`): sign, whole part, a point and six
decimals. -/
def doubleToString (d : ℚ) : String :=
  let n := roundHalfEven (|d| * 1000000)
  let frac := toString (n % 1000000)
  (if d < 0 then "-" else "") ++ toString (n / 1000000) ++ "."
    ++ String.mk (List.replicate (6 - frac.length) '0') ++ frac

/-- The value `int(timeController->getTimeLeft(side) * 1000)` of lines 190-191. -/
def Env.tcTimeLeftMs {P T : Type} (x : Env P T) (tc : T) (side : Side) : Int :=
  doubleToInt (x.tcTimeLeft tc side * 1000)

/-- The value `int(timeController->increment * 1000)` of line 193. -/
def Env.tcIncrementMs {P T : Type} (x : Env P T) (tc : T) : Int :=
  doubleToInt (x.tcIncrement tc * 1000)

/-- The function `UciEngine::getPositionString` (lines 142-162). -/
def getPositionString {P T : Type} (x : Env P T) (board : Board P) (pondermove : Move) : String :=
  let str := "position " ++
    (if x.fromOriginPosition board then "startpos" else "fen " ++ x.getStartingFen board)
  let str :=
    if !board.histList.isEmpty then
      board.histList.foldl (fun s hist => s ++ (" " ++ x.toCoordinateString hist.move)) (str ++ " moves")
    else str
  if x.isValid pondermove then
    let str := if board.histList.isEmpty then str ++ " moves" else str
    str ++ (" " ++ x.toCoordinateString pondermove)
  else str

/-- The function `UciEngine::timeControlString` (lines 175-215). -/
def timeControlString {P T : Type} (x : Env P T) (board : Board P) (tc : T) : String :=
  match x.tcMode tc with
  | TimeControlMode.infinite => "infinite"
  | TimeControlMode.depth => "depth " ++ toString (x.tcDepth tc)
  | TimeControlMode.movetime => "movetime " ++ doubleToString (x.tcTime tc)
  | TimeControlMode.standard =>
    let wtime := doubleToInt (x.tcTimeLeft tc Side.white * 1000)
    let btime := doubleToInt (x.tcTimeLeft tc Side.black * 1000)
    let inc := doubleToInt (x.tcIncrement tc * 1000)
    let str := "wtime " ++ toString wtime ++ " btime " ++ toString btime
      ++ " winc " ++ toString inc ++ " binc " ++ toString inc
    let n := x.tcMoves tc
    let movestogo : Int :=
      if n > 0 then
        let halfCnt : Int := board.histList.length
        let fullCnt := halfCnt / 2
        let curMoveCnt := fullCnt % n
        n - curMoveCnt
      else 0
    if movestogo > 0 then str ++ (" movestogo " ++ toString movestogo) else str
  | TimeControlMode.none => ""

/-- The function `UciEngine::getGoString` (lines 164-173). -/
def getGoString {P T : Type} (x : Env P T) (board : Board P) (tc : T) (pondermove : Move) : String :=
  let str := getPositionString x board pondermove ++ "\ngo "
  let str := if x.isValid pondermove then str ++ "ponder " else str
  str ++ timeControlString x board tc

/-- The function `UciEngine::goPonder` (lines 99-117).  The base call `Engine::go()` (line 103,
"just for setting flags") is outside the embedded files; the tests and assertions that follow
such a call read `expectingBestmove` and `computingState` as the caller left them, so the
call does not write these fields, and its other bookkeeping is not modelled. -/
def UciEngine.goPonder {P T : Type} (x : Env P T) (board : Board P) (tc : T) (pondermove : Move)
    (e : UciEngine) : Bool × UciEngine :=
  let e := { e with ponderingMove := x.illegalMoveFull }
  if e.config.ponderable && x.isValid pondermove then
    let e := { e with ponderingMove := pondermove }
    let e := { e with expectingBestmove := true }
    let e := { e with computingState := EngineComputingState.pondering }
    let goString := getGoString x board tc pondermove
    e.write goString
  else (false, e)

/-- The function `UciEngine::go` (lines 119-140).  The base call `Engine::go()` (line 121) is
treated as in `goPonder`; line 122 then resets `ponderingMove`, before the test of line 127
reads it. -/
def UciEngine.go {P T : Type} (x : Env P T) (board : Board P) (tc : T) (e : UciEngine) :
    Bool × UciEngine :=
  let e := { e with ponderingMove := x.illegalMoveFull }
  if e.computingState = EngineComputingState.pondering then
    if !board.histList.isEmpty
        && (board.histList.getLast?.map (fun h => h.move)) == some e.ponderingMove then
      let e := { e with computingState := EngineComputingState.thinking }
      (true, (e.write "ponderhit").2)
    else e.stop
  else
    let e := { e with expectingBestmove := true }
    let e := { e with computingState := EngineComputingState.thinking }
    let goString := getGoString x board tc x.illegalMoveFull
    e.write goString

/-- The C library function `atoi` on the digits that follow the sign. -/
def atoiDigits : List Char → Int → Int
  | [], acc => acc
  | c :: cs, acc => if c.isDigit then atoiDigits cs (acc * 10 + ((c.toNat : Int) - 48)) else acc

/-- White space as `isspace` sees it. -/
def isSpaceChar (c : Char) : Bool :=
  c = ' ' || c = '\t' || c = '\n' || c = '\r' || c.toNat = 11 || c.toNat = 12

/-- The number a text starts with: white space, an optional sign and decimal digits. -/
def atoiValue (s : String) : Int :=
  match s.toList.dropWhile isSpaceChar with
  | '-' :: r => - atoiDigits r 0
  | '+' :: r => atoiDigits r 0
  | r => atoiDigits r 0

/-- The assignment of a value to an `int`: the value modulo `2 ^ 32`, in the range of `int`. -/
def wrapInt (v : Int) : Int :=
  (v - intMin) % 4294967296 + intMin

/-- The C library function `atoi`.  A number outside the range of `int` has no defined result;
the value is then the one of the C library of the platform, `(int) strtol(s, NULL, 10)`: the
number is held to the range of `long` and its low 32 bits are kept. -/
def atoi (s : String) : Int :=
  wrapInt (max (-9223372036854775808) (min 9223372036854775807 (atoiValue s)))

/-- The call `s.find(pat)` of `std::string`, searching from index `i` of the original string. -/
def strFindFrom (pat : List Char) : List Char → Nat → Option Nat
  | [], i => if pat.isEmpty then some i else none
  | c :: cs, i => if pat.isPrefixOf (c :: cs) then some i else strFindFrom pat cs (i + 1)

/-- The call `s.substr(pos, count)` of `std::string`; `none` is `std::out_of_range`. -/
def strSubstr (s : List Char) (pos : Nat) (count : Option Nat) : Option (List Char) :=
  if pos > s.length then none
  else
    match count with
    | some n => some ((s.drop pos).take n)
    | none => some (s.drop pos)

/-- The loop of `UciEngine::parseInfo` (lines 442-473) from index `i` on; `bound` is the
unsigned value `vec.size() - 1`, `vec.at(i)` out of range is `none`.  Every round advances
`i`, so `vec.length + 1` rounds are enough. -/
def parseInfoLoop (vec : List String) (bound : Nat) : Nat → Nat → UciEngine → Option UciEngine
  | 0, _, e => some e
  | fuel + 1, i, e =>
    if i < bound then
      match vec.get? i with
      | none => none
      | some name =>
        if name = "depth" then
          match vec.get? (i + 1) with
          | none => none
          | some s => parseInfoLoop vec bound fuel (i + 2) { e with depth := atoi s }
        else if name = "nodes" then
          match vec.get? (i + 1) with
          | none => none
          | some s => parseInfoLoop vec bound fuel (i + 2) { e with nodes := atoi s }
        else if name = "score" then
          match vec.get? (i + 1) with
          | none => none
          | some s =>
            if s = "cp" then
              match vec.get? (i + 2) with
              | none => none
              | some s2 => parseInfoLoop vec bound fuel (i + 3) { e with score := atoi s2 }
            else parseInfoLoop vec bound fuel (i + 2) { e with score := wrapInt (atoi s * 100) }
        else parseInfoLoop vec bound fuel (i + 1) e
    else some e

/-- The function `UciEngine::parseInfo` (lines 428-476); `none` when an access is out of range. -/
def UciEngine.parseInfo {P T : Type} (x : Env P T) (line : String) (e : UciEngine) :
    Option UciEngine :=
  let p := strFindFrom " pv ".toList line.toList 0
  match strSubstr line.toList 5 p with
  | none => none
  | some str =>
    let vec := x.splitString (String.mk str) ' '
    let bound := if vec.length = 0 then 2 ^ 64 - 1 else vec.length - 1
    parseInfoLoop vec bound (vec.length + 1) 0 e

/-- The function `UciEngine::parseLine` (lines 227-313).  `cmd` is `none` when `cmdInt < 0`.
The answer is the engine after the line and, when the move receiver is invoked, the arguments
of that call; `none` when `parseInfo` fails or when line 274 goes through a `board` pointer
that is not set. -/
def UciEngine.parseLine {P T : Type} (x : Env P T) (tc : T) (cmd : Option UciEngineCmd)
    (line : String) (e : UciEngine) : Option (UciEngine × Option BestmoveEvent) :=
  match cmd with
  | none => some (e, none)
  | some UciEngineCmd.option =>
    let r := x.parseOption line e.config
    let e := { e with config := r.2 }
    if !r.1 then some ((e.write ("Unknown option " ++ line)).2, none) else some (e, none)
  | some UciEngineCmd.info =>
    if e.computingState = EngineComputingState.thinking then
      (e.parseInfo x line).map (fun e1 => (e1, none))
    else some (e, none)
  | some UciEngineCmd.bestmove =>
    if !e.hasTimeController || !e.hasMoveReceiver then some (e, none)
    else
      let e1 := { e with expectingBestmove := false }
      let oldComputingState := e1.computingState
      let e2 := { e1 with computingState := EngineComputingState.idle }
      let period := x.moveTimeConsumed tc
      let vec := x.splitString line ' '
      if vec.length < 2 then some (e2, none)
      else
        let moveString := vec.getD 1 ""
        let ponderMoveString := bestmovePonderString vec
        if !moveString.isEmpty && e2.hasMoveReceiver then
          if !e2.hasBoard then none
          else
            let move := x.moveFromCoordiateString moveString
            let ponderMove := x.moveFromCoordiateString ponderMoveString
            some (e2, some ⟨move, moveString, ponderMove, period, oldComputingState⟩)
        else some (e2, none)
  | some UciEngineCmd.uciok =>
    let e := { e with state := PlayerState.ready }
    let e := { e with expectingBestmove := false }
    let e := (e.sendOptions x).2
    some ((e.write "isready").2, none)
  | some UciEngineCmd.theId =>
    let vec := x.splitString line ' '
    if vec.length ≤ 2 then some (e, none)
    else
      let str := (vec.drop 2).foldl
        (fun str v => (if !str.isEmpty then str ++ " " else str) ++ v) ""
      if vec.getD 1 "" = "name" then
        some ({ e with config := { e.config with idName := str } }, none)
      else some (e, none)
  | some UciEngineCmd.readyok => some (e, none)
  | some UciEngineCmd.copyprotection => some (e, none)
  | some UciEngineCmd.registration => some (e, none)

/-! ## Game (`src/game/game.cpp`) -/

/-- The virtual interface of `Player` the game calls, for a player type `Pl`.  The engine
operations read the board and the time controller of the game through the pointers given to
`Player::setup`. -/
structure PlayerOps (Pl P T : Type) where
  /-- The test `isHuman()`. -/
  isHuman : Pl → Bool
  /-- The accessor `getState()`. -/
  getState : Pl → PlayerState
  /-- The field `computingState` read after the cast to `Engine*`. -/
  computingState : Pl → EngineComputingState
  /-- The call `newGame()`. -/
  newGame : Pl → Pl
  /-- The call `go()`. -/
  go : Board P → T → Pl → Pl
  /-- The call `goPonder(pondermove)`. -/
  goPonder : Board P → T → Move → Pl → Pl
  /-- The call `stopThinking()`. -/
  stopThinking : Pl → Pl

/-- Player operations a game invokes. -/
inductive PlayerCall where
  | newGame
  | go
  | goPonder (pondermove : Move)
  | stopThinking
  deriving DecidableEq, Repr

/-- State of a `Game` object.  `playerB` and `playerW` are `players[0]` and `players[1]`
(`none` is the null pointer); `calls` lists the player operations invoked, oldest first. -/
structure Game (Pl P T : Type) where
  state : GameState
  playerB : Option Pl
  playerW : Option Pl
  board : Board P
  timeController : T
  ponderMode : Bool
  idx : Int
  startFen : String
  startMoves : List Move
  calls : List (Side × PlayerCall)

/-- The pointer `players[sd]`. -/
def Game.player {Pl P T : Type} (g : Game Pl P T) : Side → Option Pl
  | Side.black => g.playerB
  | Side.white => g.playerW

/-- The object behind `players[sd]` replaced by its state after a call. -/
def Game.setPlayer {Pl P T : Type} (g : Game Pl P T) (sd : Side) (p : Pl) : Game Pl P T :=
  match sd with
  | Side.black => { g with playerB := some p }
  | Side.white => { g with playerW := some p }

/-- The call `players[sd]->op()` without a null test: `none` when the pointer is null. -/
def Game.callPlayer {Pl P T : Type} (g : Game Pl P T) (sd : Side) (c : PlayerCall)
    (op : Pl → Pl) : Option (Game Pl P T) :=
  match g.player sd with
  | none => none
  | some p => some { (g.setPlayer sd (op p)) with calls := g.calls ++ [(sd, c)] }

/-- The guarded call `if (players[sd]) players[sd]->op()`. -/
def Game.callPlayerIfPresent {Pl P T : Type} (g : Game Pl P T) (sd : Side) (c : PlayerCall)
    (op : Pl → Pl) : Game Pl P T :=
  match g.player sd with
  | none => g
  | some p => { (g.setPlayer sd (op p)) with calls := g.calls ++ [(sd, c)] }

/-- The function `Game::newGame` (lines 108-126). -/
def Game.newGame {Pl P T : Type} (x : Env P T) (ops : PlayerOps Pl P T) (g : Game Pl P T) :
    Game Pl P T :=
  let b := x.boardNewGame g.board g.startFen
  let b := g.startMoves.foldl
    (fun b m => if x.isValid m then x.boardMake b m.src m.dest m.promotion else b) b
  let g := { g with board := b }
  let g := g.callPlayerIfPresent Side.black PlayerCall.newGame ops.newGame
  let g := g.callPlayerIfPresent Side.white PlayerCall.newGame ops.newGame
  { g with state := GameState.begin }

/-- The function `Game::startThinking` (lines 138-148). -/
def Game.startThinking {Pl P T : Type} (x : Env P T) (ops : PlayerOps Pl P T) (pondermove : Move)
    (g : Game Pl P T) : Option (Game Pl P T) :=
  let g := { g with timeController :=
    x.setupClocksBeforeThinking g.timeController (g.board.histList.length : Int) }
  let sd := g.board.side
  match g.callPlayer sd.other (PlayerCall.goPonder pondermove)
      (ops.goPonder g.board g.timeController pondermove) with
  | none => none
  | some g1 => g1.callPlayer sd PlayerCall.go (ops.go g1.board g1.timeController)

/-- The function `Game::startPlaying` (lines 128-136); the default argument of
`startThinking` is `Move::illegalMove`. -/
def Game.startPlaying {Pl P T : Type} (x : Env P T) (ops : PlayerOps Pl P T) (g : Game Pl P T) :
    Option (Game Pl P T) :=
  let g := g.newGame x ops
  let g := { g with state := GameState.playing }
  g.startThinking x ops x.illegalMove

/-- The function `Game::gameOver` (lines 214-224). -/
def Game.gameOver {Pl P T : Type} (ops : PlayerOps Pl P T) (result : Result) (g : Game Pl P T) :
    Game Pl P T :=
  let g := g.callPlayerIfPresent Side.black PlayerCall.stopThinking ops.stopThinking
  let g := g.callPlayerIfPresent Side.white PlayerCall.stopThinking ops.stopThinking
  let g := { g with board := { g.board with result := result } }
  { g with state := GameState.stopped }

/-- The function `Game::checkTimeOver` (lines 232-242). -/
def Game.checkTimeOver {Pl P T : Type} (x : Env P T) (ops : PlayerOps Pl P T) (g : Game Pl P T) :
    Bool × Game Pl P T :=
  if x.isTimeOver g.timeController g.board.side then
    let result : Result :=
      { result := if g.board.side = Side.white then ResultType.loss else ResultType.win,
        reason := ReasonType.timeout }
    (true, g.gameOver ops result)
  else (false, g)

/-- The function `Game::make` (lines 195-212). -/
def Game.make {Pl P T : Type} (x : Env P T) (ops : PlayerOps Pl P T) (move : Move)
    (g : Game Pl P T) : Bool × Game Pl P T :=
  let r := x.checkMake g.board move.src move.dest move.promotion
  let g := { g with board := r.2 }
  if r.1 then
    let result := x.rule g.board
    if result.result ≠ ResultType.noresult then (false, g.gameOver ops result)
    else (true, g)
  else
    let result : Result :=
      { result := if g.board.side = Side.white then ResultType.loss else ResultType.win,
        reason := ReasonType.illegalmove }
    (false, g.gameOver ops result)

/-- The function `Game::moveFromPlayer` (lines 165-193).  `lastHist` is a copy of the last
history entry, so the assignment to `lastHist.elapsed` does not reach the board. -/
def Game.moveFromPlayer {Pl P T : Type} (x : Env P T) (ops : PlayerOps Pl P T)
    (moveString ponderMoveString : String) (timeConsumed : Int) (side : Side)
    (oldState : EngineComputingState) (g : Game Pl P T) : Option (Game Pl P T) :=
  if g.state ≠ GameState.playing then some g
  else
    let r := g.checkTimeOver x ops
    if r.1 then some r.2
    else
      let g := r.2
      if g.board.side ≠ side then some g
      else
        let move := x.moveFromCoordiateString moveString
        let pondermove :=
          if g.ponderMode then x.moveFromCoordiateString ponderMoveString else x.illegalMove
        if oldState = EngineComputingState.thinking then
          let r := g.make x ops move
          if r.1 then
            let g := r.2
            match g.board.histList.getLast? with
            | none => none
            | some lastHist =>
              let n : Int := g.board.histList.length
              let tc := x.udateClockAfterMove g.timeController timeConsumed lastHist.side n
              let g := { g with timeController := tc }
              g.startThinking x ops pondermove
          else some r.2
        else if oldState = EngineComputingState.pondering then
          g.callPlayer g.board.side PlayerCall.go (ops.go g.board g.timeController)
        else some g

/-- Number of present players whose state is `st` (the counting loop of lines 250-260). -/
def Game.countState {Pl P T : Type} (ops : PlayerOps Pl P T) (g : Game Pl P T)
    (st : PlayerState) : Nat :=
  (if g.playerB.map ops.getState = some st then 1 else 0)
    + (if g.playerW.map ops.getState = some st then 1 else 0)

/-- The function `Game::tickWork` (lines 244-307). -/
def Game.tickWork {Pl P T : Type} (x : Env P T) (ops : PlayerOps Pl P T) (g : Game Pl P T) :
    Option (Game Pl P T) :=
  match g.state with
  | GameState.begin =>
    let readyCnt := g.countState ops PlayerState.ready
    let stoppedCnt := g.countState ops PlayerState.stopped
    if readyCnt + stoppedCnt < 2 then some g
    else if readyCnt = 2 then some { g with state := GameState.ready }
    else
      let g1 := { g with state := GameState.stopped }
      if stoppedCnt = 2 then
        some (g1.gameOver ops { result := ResultType.draw, reason := ReasonType.crash })
      else
        match g1.playerW with
        | none => none
        | some pw =>
          let res := if ops.getState pw = PlayerState.stopped then ResultType.loss
            else ResultType.win
          some (g1.gameOver ops { result := res, reason := ReasonType.crash })
  | GameState.ready => g.startPlaying x ops
  | GameState.playing =>
    match g.player g.board.side with
    | none => some g
    | some p =>
      if ops.isHuman p then some g
      else if ops.computingState p ≠ EngineComputingState.thinking then some g
      else if ops.computingState p = EngineComputingState.thinking
          ∧ g.state = GameState.playing then
        some (g.checkTimeOver x ops).2
      else some g
  | GameState.stopped => some g

/-- The player calls `gameOver` makes: `stopThinking` on each present player, black first. -/
def Game.stopCalls {Pl P T : Type} (g : Game Pl P T) : List (Side × PlayerCall) :=
  (if g.playerB.isSome then [(Side.black, PlayerCall.stopThinking)] else [])
    ++ (if g.playerW.isSome then [(Side.white, PlayerCall.stopThinking)] else [])

/-- The result `checkTimeOver` and `make` give a game lost by the side to move. -/
def lossFor (side : Side) (reason : ReasonType) : Result :=
  { result := if side = Side.white then ResultType.loss else ResultType.win, reason := reason }

/-- The board `Game::newGame` builds (lines 111-117): the board reset to `startFen`, on which
every start move that passes `isValid` is made with `board.make`, in order. -/
def Game.openingBoard {Pl P T : Type} (x : Env P T) (g : Game Pl P T) : Board P :=
  g.startMoves.foldl
    (fun b m => if x.isValid m then x.boardMake b m.src m.dest m.promotion else b)
    (x.boardNewGame g.board g.startFen)

/-- Runs of a game for any kind of player: from a game, any sequence of ticks, of bestmove
events handed to `moveFromPlayer`, of changes of a player object on its own (its adapter
handling engine output) and of changes of the clock (time passing). -/
inductive Game.Runs {Pl P T : Type} (x : Env P T) (ops : PlayerOps Pl P T) :
    Game Pl P T → Game Pl P T → Prop where
  | start (g : Game Pl P T) : Game.Runs x ops g g
  | tick (g g1 g2 : Game Pl P T) :
      Game.Runs x ops g g1 → g1.tickWork x ops = some g2 → Game.Runs x ops g g2
  | bestmove (g g1 g2 : Game Pl P T) (moveString ponderMoveString : String)
      (timeConsumed : Int) (side : Side) (oldState : EngineComputingState) :
      Game.Runs x ops g g1 →
      g1.moveFromPlayer x ops moveString ponderMoveString timeConsumed side oldState = some g2 →
      Game.Runs x ops g g2
  | player (g g1 : Game Pl P T) (sd : Side) (p : Pl) :
      Game.Runs x ops g g1 → Game.Runs x ops g (g1.setPlayer sd p)
  | clock (g g1 : Game Pl P T) (tc : T) :
      Game.Runs x ops g g1 → Game.Runs x ops g { g1 with timeController := tc }

/-- Pondering is off in the game and every `goPonder` call made so far was given
`Move::illegalMove`. -/
def Game.PonderOff {Pl P T : Type} (x : Env P T) (g : Game Pl P T) : Prop :=
  g.ponderMode = false
  ∧ ∀ (sd : Side) (m : Move), (sd, PlayerCall.goPonder m) ∈ g.calls → m = x.illegalMove

/-! ## A game of two UCI engines -/

/-- Modelled from the spec: `Player::stopThinking`, `Engine::isHuman` and `getState` are not
among the embedded files.  For an engine `stopThinking` sends the protocol `stop` (the spec:
"the Game sends `stop` but does not wait for bestmove"), an engine is not human, and
`getState` reads the state set by `setState`.  The other operations are those of
`UciEngine`. -/
def uciPlayerOps {P T : Type} (x : Env P T) : PlayerOps UciEngine P T where
  isHuman := fun _ => false
  getState := fun e => e.state
  computingState := fun e => e.computingState
  newGame := fun e => e.newGame x
  go := fun board tc e => (e.go x board tc).2
  goPonder := fun board tc pondermove e => (e.goPonder x board tc pondermove).2
  stopThinking := fun e => e.stop.2

/-- One line of the engine playing `side` reaches the game: `parseLine` runs on that engine
and the receiver registered by `Game::attach` (lines 92-94) forwards a `bestmove` to
`Game::moveFromPlayer` with that side.  The call of `uciengine.cpp` line 276 has five
arguments, the receiver of `game.cpp` line 92 takes four (move text, ponder text, time and
state), and the code that joins the two is not among the embedded files: the game is handed
the move text, the time and the state of the call, and the ponder text of the line (the local
`ponderMoveString` of lines 268-271), from which `Game::moveFromPlayer` parses the ponder move
again with `moveFromCoordiateString`. -/
def Game.engineLine {P T : Type} (x : Env P T) (side : Side) (cmd : Option UciEngineCmd)
    (line : String) (g : Game UciEngine P T) : Option (Game UciEngine P T) :=
  match g.player side with
  | none => none
  | some e =>
    match e.parseLine x g.timeController cmd line with
    | none => none
    | some (e1, ev) =>
      let g1 := g.setPlayer side e1
      match ev with
      | none => some g1
      | some b =>
        g1.moveFromPlayer x (uciPlayerOps x) b.moveString
          (bestmovePonderString (x.splitString line ' ')) b.timeConsumed side b.oldState

/-- States of a game of two UCI engines reachable from `startPlaying()` by ticks, by
`bestmove` lines of either engine, and by the passing of time (any change of the clock). -/
inductive Reachable {P T : Type} (x : Env P T) : Game UciEngine P T → Prop where
  | start (g0 g : Game UciEngine P T) :
      g0.startPlaying x (uciPlayerOps x) = some g → Reachable x g
  | tick (g g1 : Game UciEngine P T) :
      Reachable x g → g.tickWork x (uciPlayerOps x) = some g1 → Reachable x g1
  | bestmove (side : Side) (line : String) (g g1 : Game UciEngine P T) :
      Reachable x g → g.engineLine x side (some UciEngineCmd.bestmove) line = some g1 →
      Reachable x g1
  | clock (tc : T) (g : Game UciEngine P T) :
      Reachable x g → Reachable x { g with timeController := tc }

/-! ## Polyglot book (`src/game/book.cpp`) -/

/-- Record of a Polyglot book: `u64 key`, `u16 move`, `u16 weight`, `u32 learn`. -/
structure BookPolyglotItem where
  key : Nat
  move : Nat
  weight : Nat
  learn : Nat
  deriving DecidableEq, Repr

/-- The loop of `BookPolyglot::binarySearch` (lines 253-265) on `first` and `last`.  A read
outside the array is `none`.  Every round shrinks the range, so `itemCnt + 1` rounds are
enough.  Indices are `i64` in the source: the operands of the division are not negative and
`first + last` stays below `2 * itemCnt`, far from the range of `i64` for any book file. -/
def binarySearchLoop (items : List BookPolyglotItem) (key : Nat) : Nat → Int → Int → Option Int
  | 0, _, _ => none
  | fuel + 1, first, last =>
    if first ≤ last then
      let middle := (first + last) / 2
      if middle < 0 then none
      else
        match items.get? middle.toNat with
        | none => none
        | some item =>
          if item.key = key then some middle
          else if item.key > key then binarySearchLoop items key fuel first (middle - 1)
          else binarySearchLoop items key fuel (middle + 1) last
    else some (-1)

/-- The function `BookPolyglot::binarySearch` (lines 249-267); `itemCnt` is the length of
`items`. -/
def binarySearch (items : List BookPolyglotItem) (key : Nat) : Option Int :=
  binarySearchLoop items key (items.length + 1) 0 ((items.length : Int) - 1)

/-- The first loop of `BookPolyglot::search` (line 275): walk `k` down while the record
before it has the key. -/
def searchBack (items : List BookPolyglotItem) (key : Nat) : Nat → Nat
  | 0 => 0
  | k + 1 =>
    match items.get? k with
    | some item => if item.key = key then searchBack items key k else k + 1
    | none => k + 1

/-- The second loop of `BookPolyglot::search` (lines 277-279): collect records from `k` on
while they have the key.  The loop ends at `itemCnt` at the latest. -/
def searchCollect (items : List BookPolyglotItem) (key : Nat) :
    Nat → Nat → List BookPolyglotItem → List BookPolyglotItem
  | 0, _, vec => vec
  | fuel + 1, k, vec =>
    match items.get? k with
    | some item =>
      if item.key = key then searchCollect items key fuel (k + 1) (vec ++ [item]) else vec
    | none => vec

/-- The function `BookPolyglot::search` (lines 269-283). -/
def search (items : List BookPolyglotItem) (key : Nat) : Option (List BookPolyglotItem) :=
  match binarySearch items key with
  | none => none
  | some k =>
    if k ≥ 0 then some (searchCollect items key items.length (searchBack items key k.toNat) [])
    else some []

/-- The relation between the two flags of an engine: a bestmove is expected exactly when the
engine computes. -/
def UciEngine.FlagsIff (e : UciEngine) : Prop :=
  e.expectingBestmove = true ↔ e.computingState ≠ EngineComputingState.idle

/-- The flag relation the engine operations keep: an engine that computes expects a
bestmove. -/
def UciEngine.FlagsOk (e : UciEngine) : Prop :=
  e.computingState ≠ EngineComputingState.idle → e.expectingBestmove = true

/-- No engine of the game is thinking, and the flags of each are consistent. -/
def Game.Calm {P T : Type} (g : Game UciEngine P T) : Prop :=
  ∀ (sd : Side) (e : UciEngine), g.player sd = some e →
    e.FlagsOk ∧ e.computingState ≠ EngineComputingState.thinking

/-- The invariant of a running game of two UCI engines: the flags of each engine are
consistent, the engine of the side not to move is not thinking, and the engine of the side
to move is pondering only with a `stop` as the last line written to it. -/
def Game.Inv {P T : Type} (g : Game UciEngine P T) : Prop :=
  (∀ (sd : Side) (e : UciEngine), g.player sd = some e → e.FlagsOk)
  ∧ (∀ e : UciEngine, g.player g.board.side.other = some e →
      e.computingState ≠ EngineComputingState.thinking)
  ∧ (∀ e : UciEngine, g.player g.board.side = some e →
      e.computingState = EngineComputingState.pondering → e.written.getLast? = some "stop")

/-! ## A concrete instance of the collaborators

Used to run the embedded code on concrete inputs.  The position is a ply limit after which
the rules report a draw, the clock is the flag "time is over". -/

/-- Square index of a file letter and a rank digit (a8 = 0, h1 = 63). -/
def demoSquare (file rank : Char) : Int :=
  (7 - ((rank.toNat : Int) - 49)) * 8 + ((file.toNat : Int) - 97)

/-- Name of a square index, such as `e4` for 36. -/
def demoSquareName (sq : Int) : String :=
  String.mk [Char.ofNat (97 + (sq % 8).toNat), Char.ofNat (49 + (7 - sq / 8).toNat)]

/-- Validity of a move: two different squares of the board. -/
def demoIsValid (m : Move) : Bool :=
  decide (m.src ≠ m.dest) && decide (0 ≤ m.src) && decide (m.src < 64)
    && decide (0 ≤ m.dest) && decide (m.dest < 64)

/-- Coordinate text such as `e2e4` to a move; other text gives the illegal move. -/
def demoMoveFromString (s : String) : Move :=
  match s.toList with
  | [f1, r1, f2, r2] => ⟨demoSquare f1 r1, demoSquare f2 r2, PieceType.empty⟩
  | _ => ⟨-1, -1, PieceType.empty⟩

/-- Split at a delimiter, dropping empty pieces; `cur` is the piece being read. -/
def demoSplitAux (d : Char) : List Char → List Char → List String
  | [], cur => if cur.isEmpty then [] else [String.mk cur]
  | c :: cs, cur =>
    if c = d then
      if cur.isEmpty then demoSplitAux d cs [] else String.mk cur :: demoSplitAux d cs []
    else demoSplitAux d cs (cur ++ [c])

/-- Rules that accept every valid move: the move joins the history and the side changes. -/
def demoCheckMake (b : Board Nat) (src dest : Int) (promotion : PieceType) : Bool × Board Nat :=
  if demoIsValid ⟨src, dest, promotion⟩ then
    (true, { b with side := b.side.other,
                    histList := b.histList ++ [⟨⟨src, dest, promotion⟩, b.side, 0⟩] })
  else (false, b)

/-- The call `board.make`: the move joins the history and the side changes, without a test. -/
def demoMake (b : Board Nat) (src dest : Int) (promotion : PieceType) : Board Nat :=
  { b with side := b.side.other,
           histList := b.histList ++ [⟨⟨src, dest, promotion⟩, b.side, 0⟩] }

/-- The concrete collaborators. -/
def demoEnv : Env Nat Bool where
  illegalMove := ⟨-1, -1, PieceType.empty⟩
  illegalMoveFull := ⟨-1, -1, PieceType.empty⟩
  isValid := demoIsValid
  moveFromCoordiateString := demoMoveFromString
  toCoordinateString := fun m => demoSquareName m.src ++ demoSquareName m.dest
  splitString := fun s d => demoSplitAux d s.toList []
  checkMake := demoCheckMake
  rule := fun b =>
    if b.pos ≤ b.histList.length then { result := ResultType.draw, reason := ReasonType.fiftymoves }
    else { result := ResultType.noresult, reason := ReasonType.noreason }
  boardNewGame := fun b _ => { b with side := Side.white, histList := [], result := { } }
  boardMake := demoMake
  fromOriginPosition := fun _ => true
  getStartingFen := fun _ => ""
  isTimeOver := fun tc _ => tc
  setupClocksBeforeThinking := fun tc _ => tc
  udateClockAfterMove := fun tc _ _ _ => tc
  moveTimeConsumed := fun _ => 0
  tcMode := fun _ => TimeControlMode.infinite
  tcDepth := fun _ => 0
  tcTime := fun _ => 0
  tcTimeLeft := fun _ _ => 0
  tcIncrement := fun _ => 0
  tcMoves := fun _ => 0
  checkOverrideOption := fun o => o
  isDefaultValue := fun _ => true
  getValueAsString := fun o => o.value
  parseOption := fun _ c => (true, c)

/-- An idle, attached, ponderable engine that has been written nothing. -/
def demoEngine : UciEngine where
  state := PlayerState.ready
  expectingBestmove := false
  computingState := EngineComputingState.idle
  ponderingMove := ⟨-1, -1, PieceType.empty⟩
  config := { ponderable := true, idName := "", optionList := [] }
  hasTimeController := true
  hasMoveReceiver := true
  hasBoard := true
  depth := 0
  nodes := 0
  score := 0
  writable := true
  written := []

/-- A game of two such engines in state `ready`, pondering enabled, no opening moves,
a ply limit of 100 and a running clock. -/
def demoGame : Game UciEngine Nat Bool where
  state := GameState.ready
  playerB := some demoEngine
  playerW := some demoEngine
  board := { side := Side.white, histList := [], result := { }, pos := 100 }
  timeController := false
  ponderMode := true
  idx := 0
  startFen := ""
  startMoves := []
  calls := []

/-- The demo game after `startPlaying()`: white is thinking. -/
def demoStarted : Game UciEngine Nat Bool :=
  (demoGame.startPlaying demoEnv (uciPlayerOps demoEnv)).getD demoGame

/-- The started game after white answered `e2e4` and predicted `e7e5`: black is thinking,
white ponders on `e7e5`. -/
def demoAfterWhite : Game UciEngine Nat Bool :=
  (demoStarted.engineLine demoEnv Side.white (some UciEngineCmd.bestmove)
    "bestmove e2e4 ponder e7e5").getD demoGame

/-- The game after black then answered `c7c5`, not the move white pondered on. -/
def demoAfterBlack : Game UciEngine Nat Bool :=
  (demoAfterWhite.engineLine demoEnv Side.black (some UciEngineCmd.bestmove)
    "bestmove c7c5 ponder g1f3").getD demoGame

/-- The started game with the flag of the side to move fallen. -/
def demoLate : Game UciEngine Nat Bool :=
  { demoStarted with timeController := true }

/-- The started game under a ply limit of one: the rules report a draw after the first move. -/
def demoShort : Game UciEngine Nat Bool :=
  { demoStarted with board := { demoStarted.board with pos := 1 } }

/-- A sorted book of five records, three of them with key 3. -/
def demoItems : List BookPolyglotItem :=
  [⟨1, 10, 1, 0⟩, ⟨3, 20, 5, 0⟩, ⟨3, 21, 2, 0⟩, ⟨3, 22, 9, 0⟩, ⟨7, 30, 1, 0⟩]

/-- An engine pondering on `e7e5` (squares 12 to 28). -/
def demoPonderer : UciEngine :=
  { demoEngine with
    expectingBestmove := true,
    computingState := EngineComputingState.pondering,
    ponderingMove := ⟨12, 28, PieceType.empty⟩ }

/-- A board on which `e2e4` and then `e7e5` have been played. -/
def demoBoardE4E5 : Board Nat :=
  { side := Side.white,
    histList := [⟨⟨52, 36, PieceType.empty⟩, Side.white, 0⟩,
                 ⟨⟨12, 28, PieceType.empty⟩, Side.black, 0⟩],
    result := { },
    pos := 100 }

/-- A board on which `e2e4` and then `c7c5` have been played. -/
def demoBoardE4C5 : Board Nat :=
  { side := Side.white,
    histList := [⟨⟨52, 36, PieceType.empty⟩, Side.white, 0⟩,
                 ⟨⟨10, 26, PieceType.empty⟩, Side.black, 0⟩],
    result := { },
    pos := 100 }

/-- The demo game before its players are settled: white has stopped, black is still
starting. -/
def demoWaiting : Game UciEngine Nat Bool :=
  { demoGame with
    state := GameState.begin,
    playerW := some { demoEngine with state := PlayerState.stopped },
    playerB := some { demoEngine with state := PlayerState.starting } }

/-- The demo game in state `begin` with both players ready. -/
def demoBothReady : Game UciEngine Nat Bool :=
  { demoGame with state := GameState.begin }

/-- The demo game in state `begin` after white has stopped while black is ready. -/
def demoWhiteCrashed : Game UciEngine Nat Bool :=
  { demoGame with
    state := GameState.begin,
    playerW := some { demoEngine with state := PlayerState.stopped } }

/-- The collaborators with rules that, as chess does, reject the pawn jump `e2e5`
(squares 52 to 28); `board.make` still makes any move it is given. -/
def demoStrictEnv : Env Nat Bool :=
  { demoEnv with
    checkMake := fun b src dest promotion =>
      if src = 52 ∧ dest = 28 then (false, b) else demoCheckMake b src dest promotion }

/-- The demo game with the opening `e2e5`. -/
def demoBadOpening : Game UciEngine Nat Bool :=
  { demoGame with startMoves := [⟨52, 28, PieceType.empty⟩] }

/-- The demo game with the opening `e2e4 c7c5`. -/
def demoOpening : Game UciEngine Nat Bool :=
  { demoGame with startMoves := [⟨52, 36, PieceType.empty⟩, ⟨10, 26, PieceType.empty⟩] }

/-- The demo game created with pondering off. -/
def demoNoPonder : Game UciEngine Nat Bool :=
  { demoGame with ponderMode := false }

/-- The game created with pondering off, after the tick that starts it. -/
def demoNoPonderStarted : Game UciEngine Nat Bool :=
  (demoNoPonder.tickWork demoEnv (uciPlayerOps demoEnv)).getD demoGame

/-- The game created with pondering off, after white's `e2e4` sent with the prediction
`e7e5`. -/
def demoNoPonderMoved : Game UciEngine Nat Bool :=
  (demoNoPonderStarted.moveFromPlayer demoEnv (uciPlayerOps demoEnv) "e2e4" "e7e5" 5
    Side.white EngineComputingState.thinking).getD demoGame

/-- The started demo game after white's `e2e4`, received with a consumed time of 5. -/
def demoMoved : Game UciEngine Nat Bool :=
  (demoStarted.moveFromPlayer demoEnv (uciPlayerOps demoEnv) "e2e4" "e7e5" 5
    Side.white EngineComputingState.thinking).getD demoGame

/-- The game in which white has stopped, after a tick. -/
def demoWhiteCrashedOver : Game UciEngine Nat Bool :=
  (demoWhiteCrashed.tickWork demoEnv (uciPlayerOps demoEnv)).getD demoGame

/-! ## The position command, as the specification words it -/

/-- The position command in the words of the specification: `position startpos` when the board
started from the standard position and `position fen <starting FEN>` otherwise; then the word
`moves`, once, when the history is non-empty or the ponder move is valid; then, each after one
blank, the coordinate strings of the history moves in order and of the ponder move if it is
valid. -/
def positionCommandSpec {P T : Type} (x : Env P T) (board : Board P) (pondermove : Move) : String :=
  (if x.fromOriginPosition board then "position startpos"
    else "position fen " ++ x.getStartingFen board)
  ++ (if board.histList ≠ [] ∨ x.isValid pondermove = true then " moves" else "")
  ++ String.join
      ((board.histList.map (fun hist => hist.move)
          ++ (if x.isValid pondermove then [pondermove] else [])).map
        (fun m => " " ++ x.toCoordinateString m))

/-- The demonstration engine while it thinks: a bestmove is expected. -/
def demoThinking : UciEngine :=
  { demoEngine with expectingBestmove := true, computingState := EngineComputingState.thinking }

/-! ## Opening books (`src/game/book.cpp`) -/

/-- The state of the C library generator behind `std::rand`: the values it yields from its last
seeding on, and the number of values drawn since. -/
structure Rng where
  stream : Nat → Nat
  pos : Nat

/-- The call `std::rand()`: the next value, and the generator after the draw. -/
def Rng.rand (r : Rng) : Nat × Rng :=
  (r.stream r.pos, { r with pos := r.pos + 1 })

/-- Collaborators of the books that are outside the embedded files: the operations of
`ChessBoard` on a board with positions of type `P`, and the seeding of the generator. -/
structure BookEnv (P : Type) where
  /-- A fresh `ChessBoard` after `setFen(str)`. -/
  setFen : String → Board P
  /-- The test `board.isValid()`. -/
  isValid : Board P → Bool
  /-- The text `board.getFen()`. -/
  getFen : Board P → String
  /-- A fresh `ChessBoard` after `newGame()`. -/
  newGame : Board P
  /-- The hash `board.key()`, a `u64`. -/
  key : Board P → Nat
  /-- The call `board.checkMake(from, dest, promotion)`: its result and the board after it. -/
  checkMake : Board P → Int → Int → PieceType → Bool × Board P
  /-- The values `std::rand()` yields after `std::srand(seed)`. -/
  seeded : Nat → Nat → Nat

/-- The call `std::srand(seed)`. -/
def Rng.srand {P : Type} (env : BookEnv P) (seed : Nat) : Rng :=
  { stream := env.seeded seed, pos := 0 }

/-- The class `BookEdp`: the lines of the file. -/
structure BookEdp where
  maxPly : Int
  top100 : Int
  stringVec : List String

/-- The class `BookPgn`: the move lists of the games of the file. -/
structure BookPgn where
  maxPly : Int
  top100 : Int
  moves : List (List Move)

/-- The class `BookPolyglot`: the records of the file; `itemCnt` is the length of `items`. -/
structure BookPolyglot where
  maxPly : Int
  top100 : Int
  items : List BookPolyglotItem

/-- The loop of `BookEdp::getRandomFEN` (lines 42-54) with `n` rounds left; `none` is
`std::out_of_range` of `stringVec.at(k)`. -/
def BookEdp.getRandomFENLoop {P : Type} (env : BookEnv P) (stringVec : List String) :
    Nat → Rng → Option (String × Rng)
  | 0, r => some ("", r)
  | n + 1, r =>
    let k := r.rand.1 % stringVec.length
    let r := r.rand.2
    match stringVec.get? k with
    | none => none
    | some str =>
      if !str.isEmpty then
        let board := env.setFen str
        if env.isValid board then some (env.getFen board, r)
        else BookEdp.getRandomFENLoop env stringVec n r
      else BookEdp.getRandomFENLoop env stringVec n r

/-- The function `BookEdp::getRandomFEN` (lines 39-58): the text returned and the generator
after the call. -/
def BookEdp.getRandomFEN {P : Type} (env : BookEnv P) (b : BookEdp) (r : Rng) :
    Option (String × Rng) :=
  if !b.stringVec.isEmpty then BookEdp.getRandomFENLoop env b.stringVec 5 r
  else some ("", r)

/-- What a book hands back: the result of `getRandomBook`, the two reference arguments after
the call, and the generator after the call. -/
structure BookDraw where
  ok : Bool
  fenString : String
  moves : List Move
  rng : Rng

/-- The function `BookEdp::getRandomBook` (lines 70-74). -/
def BookEdp.getRandomBook {P : Type} (env : BookEnv P) (b : BookEdp) (_fenString : String)
    (moves : List Move) (r : Rng) : Option BookDraw :=
  match b.getRandomFEN env r with
  | none => none
  | some (fenString, r) => some ⟨!fenString.isEmpty, fenString, moves, r⟩

/-- The function `BookPgn::getRandomBook` (lines 138-146). -/
def BookPgn.getRandomBook (b : BookPgn) (fenString : String) (moveList : List Move) (r : Rng) :
    Option BookDraw :=
  if b.moves.isEmpty then some ⟨false, fenString, moveList, r⟩
  else
    let k := r.rand.1 % b.moves.length
    let r := r.rand.2
    match b.moves.get? k with
    | none => none
    | some moveList => some ⟨!moveList.isEmpty, fenString, moveList, r⟩

/-- The value `static_cast<PieceType>(n)`, for the enumeration in the order of `PieceType`
above; the declaration of the enumeration is outside the embedded files. -/
def pieceTypeOfNat : Nat → PieceType
  | 0 => PieceType.empty
  | 1 => PieceType.king
  | 2 => PieceType.queen
  | 3 => PieceType.rook
  | 4 => PieceType.bishop
  | 5 => PieceType.knight
  | _ => PieceType.pawn

/-- The function `BookPolyglotItem::getMove` (lines 149-160). -/
def BookPolyglotItem.getMove (item : BookPolyglotItem) : Move :=
  let f := item.move &&& 0x7
  let r := (item.move >>> 3) &&& 0x7
  let dest := (7 - r) * 8 + f
  let f := (item.move >>> 6) &&& 0x7
  let r := (item.move >>> 9) &&& 0x7
  let src := (7 - r) * 8 + f
  let p := (item.move >>> 12) &&& 0x3
  let promotion := if p = 0 then PieceType.empty else pieceTypeOfNat (6 - p)
  ⟨src, dest, promotion⟩

/-- The index `k == 0 ? 0 : (std::rand() % k)` with `k = int(vec.size()) * top100 / 100`
(lines 294-296), and the generator after it; the division and the remainder of `int` round
towards zero. -/
def BookPolyglot.pick (top100 : Int) (size : Nat) (r : Rng) : Int × Rng :=
  let k := Int.tdiv ((size : Int) * top100) 100
  if k = 0 then (0, r) else (Int.tmod (r.rand.1 : Int) k, r.rand.2)

/-- The entry a round of the loop of `BookPolyglot::getRandomBook` chooses (lines 291-298): the
records found for the key of the board, then `vec[idx]`.  The outer `none` is a failed `search`
or a read of `vec[idx]` outside the vector; the inner `none` is the `break` on an empty
vector. -/
def BookPolyglot.choose {P : Type} (env : BookEnv P) (b : BookPolyglot) (board : Board P)
    (r : Rng) : Option (Option (BookPolyglotItem × Rng)) :=
  match search b.items (env.key board) with
  | none => none
  | some vec =>
    if vec.isEmpty then some none
    else
      let idx := (BookPolyglot.pick b.top100 vec.length r).1
      let r := (BookPolyglot.pick b.top100 vec.length r).2
      match vec.get? idx.toNat with
      | none => none
      | some item => some (some (item, r))

/-- The loop of `BookPolyglot::getRandomBook` (lines 290-301) with `n` plies still allowed,
that is `maxPly - moveList.size()`. -/
def BookPolyglot.getRandomBookLoop {P : Type} (env : BookEnv P) (b : BookPolyglot) :
    Nat → Board P → List Move → Rng → Option (List Move × Rng)
  | 0, _, moveList, r => some (moveList, r)
  | n + 1, board, moveList, r =>
    match b.choose env board r with
    | none => none
    | some none => some (moveList, r)
    | some (some (item, r)) =>
      let move := item.getMove
      let made := env.checkMake board move.src move.dest move.promotion
      if !made.1 then some (moveList, r)
      else BookPolyglot.getRandomBookLoop env b n made.2 (moveList ++ [move]) r

/-- The function `BookPolyglot::getRandomBook` (lines 285-304). -/
def BookPolyglot.getRandomBook {P : Type} (env : BookEnv P) (b : BookPolyglot)
    (fenString : String) (moveList : List Move) (r : Rng) : Option BookDraw :=
  let board := env.newGame
  match BookPolyglot.getRandomBookLoop env b (b.maxPly - (moveList.length : Int)).toNat board
      moveList r with
  | none => none
  | some (moveList, r) => some ⟨true, fenString, moveList, r⟩

/-- The books a manager holds, one constructor for each class derived from `Book`. -/
inductive Book where
  | edp (b : BookEdp)
  | pgn (b : BookPgn)
  | polyglot (b : BookPolyglot)

/-- The virtual call `book->getRandomBook(fenString, moves)`. -/
def Book.getRandomBook {P : Type} (env : BookEnv P) (book : Book) (fenString : String)
    (moves : List Move) (r : Rng) : Option BookDraw :=
  match book with
  | Book.edp b => b.getRandomBook env fenString moves r
  | Book.pgn b => b.getRandomBook fenString moves r
  | Book.polyglot b => b.getRandomBook env fenString moves r

/-- The values of `BookSelectType`, in the order of `bookSelectTypeNames`. -/
inductive BookSelectType where
  | allnew
  | allone
  | samepair
  | none
  deriving DecidableEq, Repr

/-- The fields of `BookMng` that `getRandomBook` reads or writes. -/
structure BookMng where
  bookSelectType : BookSelectType
  alloneFenString : String
  alloneMoves : List Move
  seed : Int
  queryCnt : Int
  lastPairIdx : Int
  theFenString : String
  theMoves : List Move
  bookList : List Book

/-- What `BookMng::getRandomBook` hands back: its result, the two reference arguments after the
call, the manager and the generator after the call. -/
structure BookAnswer where
  ok : Bool
  fenString : String
  moves : List Move
  mng : BookMng
  rng : Rng

/-- The second part of `BookMng::getRandomBook` (lines 523-545), after the counter, the seeding
and the `allone` answers; `none` is a failure of the drawn book or `std::out_of_range` of
`bookList.at(k)`. -/
def BookMng.drawOrRepeat {P : Type} (env : BookEnv P) (pairId : Int) (m : BookMng) (r : Rng)
    (fenString : String) (moves : List Move) : Option BookAnswer :=
  if m.bookList.isEmpty then some ⟨false, fenString, moves, m, r⟩
  else
    if m.queryCnt = 1 ∨ m.bookSelectType = BookSelectType.allnew
        ∨ (m.bookSelectType = BookSelectType.samepair ∧ pairId ≠ m.lastPairIdx) then
      let m := { m with theFenString := "", theMoves := [] }
      let k := r.rand.1 % m.bookList.length
      let r := r.rand.2
      match m.bookList.get? k with
      | none => none
      | some book =>
        match book.getRandomBook env m.theFenString m.theMoves r with
        | none => none
        | some d =>
          let m := { m with theFenString := d.fenString, theMoves := d.moves }
          let m := { m with lastPairIdx := pairId }
          some ⟨true, m.theFenString, m.theMoves, m, d.rng⟩
    else
      let m := { m with lastPairIdx := pairId }
      some ⟨true, m.theFenString, m.theMoves, m, r⟩

/-- The function `BookMng::getRandomBook` (lines 506-546).  `now` is the value of
`std::time(nullptr)` at the call. -/
def BookMng.getRandomBook {P : Type} (env : BookEnv P) (now : Nat) (pairId : Int) (m : BookMng)
    (r : Rng) : Option BookAnswer :=
  let fenString := ""
  let moves : List Move := []
  let m := { m with queryCnt := m.queryCnt + 1 }
  let r := if m.queryCnt = 1 then Rng.srand env (if m.seed ≥ 0 then m.seed.toNat else now) else r
  if m.bookSelectType = BookSelectType.allone then
    if !m.alloneFenString.isEmpty then some ⟨true, m.alloneFenString, moves, m, r⟩
    else if !m.alloneMoves.isEmpty then some ⟨true, fenString, m.alloneMoves, m, r⟩
    else m.drawOrRepeat env pairId r fenString moves
  else m.drawOrRepeat env pairId r fenString moves

/-! ## A concrete instance of the books -/

/-- A toy board library for the books: a position is its FEN text, which is valid when it holds
a slash; the key of a board is 3 before the first move and 7 after it; a move between two
different squares is accepted.  The generator seeded with `s` yields `s`, `s + 1`, ... -/
def demoBookEnv : BookEnv String where
  setFen := fun s => ⟨Side.white, [], {}, s⟩
  isValid := fun b => b.pos.toList.contains '/'
  getFen := fun b => b.pos
  newGame := ⟨Side.white, [], {}, "start"⟩
  key := fun b => if b.histList.isEmpty then 3 else 7
  checkMake := fun b src dest promotion =>
    if src ≠ dest then
      (true, { b with side := b.side.other,
                      histList := b.histList ++ [⟨⟨src, dest, promotion⟩, b.side, 0⟩] })
    else (false, b)
  seeded := fun s i => s + i

/-- A generator that yields 0, 1, 2, ... -/
def demoRng : Rng := ⟨fun i => i, 0⟩

/-- An EPD book of three lines: a position, an empty line and a line that is no position. -/
def demoEdp : BookEdp := ⟨20, 100, ["8/8/k7 w", "", "junk"]⟩

/-- A Polyglot book over the records of `demoItems`, for two plies and the upper half. -/
def demoPolyglot : BookPolyglot := ⟨2, 50, demoItems⟩

/-- A manager of the EPD book with select type `samepair`, before its first call. -/
def demoMng : BookMng where
  bookSelectType := BookSelectType.samepair
  alloneFenString := ""
  alloneMoves := []
  seed := 1
  queryCnt := 0
  lastPairIdx := -1
  theFenString := ""
  theMoves := []
  bookList := [Book.edp demoEdp]

/-- A manager with select type `allone` and a configured FEN. -/
def demoAllone : BookMng :=
  { demoMng with bookSelectType := BookSelectType.allone, alloneFenString := "8/8/k7 w" }

/-- The answer of the first call of `demoMng`, for pair 4. -/
def demoFirstAnswer : BookAnswer :=
  (demoMng.getRandomBook demoBookEnv 0 4 demoRng).getD ⟨false, "", [], demoMng, demoRng⟩

/-- The line an EPD book picks with the draw number `j` of the generator `r`. -/
def BookEdp.pickedLine (b : BookEdp) (r : Rng) (j : Nat) : Option String :=
  b.stringVec.get? (r.stream j % b.stringVec.length)

/-- The picked line `str` is not usable: it is empty or does not parse to a valid board. -/
def BookEdp.unusable {P : Type} (env : BookEnv P) (str : String) : Prop :=
  str = "" ∨ env.isValid (env.setFen str) = false

/-- An EPD book without a position: an empty line and a line that is no position. -/
def demoBadEdp : BookEdp := ⟨20, 100, ["", "junk"]⟩

/-- A manager of the EPD book without a position, with select type `allnew`. -/
def demoBadMng : BookMng :=
  { demoMng with bookSelectType := BookSelectType.allnew, bookList := [Book.edp demoBadEdp] }

/-- A Polyglot book, sorted by key, whose two records of key 3 stand in the order of the
weights 1 and 9. -/
def demoLightFirst : BookPolyglot := ⟨2, 50, [⟨3, 20, 1, 0⟩, ⟨3, 21, 9, 0⟩]⟩

/-- A Polyglot book, sorted by key, whose three records of key 3 stand by falling weight. -/
def demoHeavyFirst : BookPolyglot := ⟨2, 50, [⟨3, 20, 9, 0⟩, ⟨3, 21, 5, 0⟩, ⟨3, 22, 2, 0⟩]⟩

/-! ## Option lines (`UciEngine::parseOption`, `src/game/uciengine.cpp`) -/

/-- The pieces the two regular expressions of `parseOption` are made of: literal text, a
group of alternative words, the group `(.*)` and the group `(.+)`. -/
inductive RePiece where
  | lit (s : String)
  | alt (l : List String)
  | star
  | plus

/-- Line terminators, which the dot of a regular expression over `char` does not match. -/
def isLineEnd (c : Char) : Bool :=
  c = '\n' || c = '\r'

/-- The group `(.*)` followed by the rest of the expression `cont`: the group takes as many
characters as possible such that the rest still matches.  The text of the group heads the
answer. -/
def reStar (cont : List Char → Option (List (List Char))) :
    List Char → Option (List (List Char))
  | [] => (cont []).map (fun caps => [] :: caps)
  | c :: cs =>
    if isLineEnd c then (cont (c :: cs)).map (fun caps => [] :: caps)
    else
      match reStar cont cs with
      | some (g :: caps) => some ((c :: g) :: caps)
      | _ => (cont (c :: cs)).map (fun caps => [] :: caps)

/-- A group of alternative words followed by the rest of the expression `cont`: the first
word, in the order written, with which the rest still matches. -/
def reAlt (cont : List Char → Option (List (List Char))) (t : List Char) :
    List String → Option (List (List Char))
  | [] => none
  | a :: l =>
    if a.toList.isPrefixOf t then
      match cont (t.drop a.length) with
      | some caps => some (a.toList :: caps)
      | none => reAlt cont t l
    else reAlt cont t l

/-- Match of an expression at the start of a text: the texts of its groups, in order. -/
def reMatch : List RePiece → List Char → Option (List (List Char))
  | [], _ => some []
  | RePiece.lit s :: ps, t =>
    if s.toList.isPrefixOf t then reMatch ps (t.drop s.length) else none
  | RePiece.alt l :: ps, t => reAlt (reMatch ps) t l
  | RePiece.star :: ps, t => reStar (reMatch ps) t
  | RePiece.plus :: ps, t =>
    match t with
    | [] => none
    | c :: cs =>
      if isLineEnd c then none
      else
        match reStar (reMatch ps) cs with
        | some (g :: caps) => some ((c :: g) :: caps)
        | _ => none

/-- The call `std::regex_search(s, match, re)`: the match at the first position of the text
that has one, as the texts `match.str(1)`, `match.str(2)`, ... -/
def regexSearch (re : List RePiece) : List Char → Option (List (List Char))
  | [] => reMatch re []
  | c :: cs =>
    match reMatch re (c :: cs) with
    | some caps => some caps
    | none => regexSearch re cs

/-- The expression `option name (.*) type (combo|spin|button|check|string)(.*)` (line 319). -/
def reOption : List RePiece :=
  [RePiece.lit "option name ", RePiece.star, RePiece.lit " type ",
   RePiece.alt ["combo", "spin", "button", "check", "string"], RePiece.star]

/-- The expression `(.*)default (.+) min (.+) max (.+)` (line 366). -/
def reSpin : List RePiece :=
  [RePiece.star, RePiece.lit "default ", RePiece.plus, RePiece.lit " min ", RePiece.plus,
   RePiece.lit " max ", RePiece.plus]

/-- The helper `trim`, which is not among the embedded files: the text without the white space
at its two ends. -/
def trim (s : String) : String :=
  String.mk ((s.toList.rdropWhile isSpaceChar).dropWhile isSpaceChar)

/-- Collaborators of `parseOption` that are outside the embedded files: the class `Option` and
`Config::updateOption`. -/
structure OptionEnv where
  /-- A default constructed `Option`. -/
  newOption : EngineOption
  /-- The call `option.setDefaultValue(b)`. -/
  setDefaultBool : EngineOption → Bool → EngineOption
  /-- The call `option.setDefaultValue(str)`. -/
  setDefaultString : EngineOption → String → EngineOption
  /-- The call `option.setDefaultValue(dInt, minInt, maxInt)`. -/
  setDefaultSpin : EngineOption → Int → Int → Int → EngineOption
  /-- The call `option.setDefaultValue(defaultString, list)`. -/
  setDefaultCombo : EngineOption → String → List String → EngineOption
  /-- The test `option.isValid()`. -/
  isValid : EngineOption → Bool
  /-- The call `config.updateOption(option)`. -/
  updateOption : Config → EngineOption → Config

/-- The loop of the combo branch of `parseOption` (lines 389-402) from the index `p` and the
round `i` on: the default text and the list.  `none` is `std::out_of_range` of `substr`.
Every round moves `p` forward, so `rest.length + 1` rounds are enough. -/
def comboLoop (rest : List Char) :
    Nat → Nat → Nat → String → List String → Option (String × List String)
  | 0, _, _, defaultString, list => some (defaultString, list)
  | fuel + 1, p, i, defaultString, list =>
    let q := strFindFrom "var".toList (rest.drop p) p
    let len := (match q with | some q => q | none => rest.length) - p
    match strSubstr rest p (some len) with
    | none => none
    | some str =>
      let str := trim (String.mk str)
      if str.isEmpty then some (defaultString, list)
      else
        let defaultString := if i = 0 then str else defaultString
        let list := if i = 0 then list else list ++ [str]
        match q with
        | none => some (defaultString, list)
        | some q => comboLoop rest fuel (q + 4) (i + 1) defaultString list

/-- The function `UciEngine::parseOption` (lines 315-426) on the configuration of the engine:
its result and the configuration after it; `none` is an exception that leaves the function.
In `parseLine` the function enters as the field `parseOption` of `Env`. -/
def UciEngine.parseOption (o : OptionEnv) (s : String) (config : Config) :
    Option (Bool × Config) :=
  match regexSearch reOption s.toList with
  | some [g1, g2, g3] =>
    let option := { o.newOption with name := String.mk g1 }
    let type := String.mk g2
    if type = "button" then
      let option := { option with type := OptionType.button }
      some (true, o.updateOption config option)
    else
      let rest := g3
      let pDefault := strFindFrom "default".toList rest 0
      if type = "string" ∨ type = "check" then
        let option :=
          if type = "check" then
            let option := { option with type := OptionType.check }
            let b := (strFindFrom "true".toList rest 0).isSome
            o.setDefaultBool option b
          else
            let option := { option with type := OptionType.string }
            let str :=
              match pDefault with
              | some pd =>
                let str := if pd + 8 ≥ rest.length then "" else String.mk (rest.drop (pd + 8))
                if str = "<empty>" then "" else str
              | none => ""
            o.setDefaultString option str
        if o.isValid option then some (true, o.updateOption config option)
        else some (false, config)
      else if rest.isEmpty ∨ pDefault = none then some (false, config)
      else if type = "spin" then
        match regexSearch reSpin rest with
        | some [_, dString, minString, maxString] =>
          let dInt := atoi (String.mk dString)
          let minInt := atoi (String.mk minString)
          let maxInt := atoi (String.mk maxString)
          let option := { option with type := OptionType.spin }
          let option := o.setDefaultSpin option dInt minInt maxInt
          if o.isValid option then some (true, o.updateOption config option)
          else some (false, config)
        | _ => some (false, config)
      else if type = "combo" then
        match strFindFrom "default".toList rest 0 with
        | some p =>
          if (strFindFrom "var".toList rest 0).isSome then
            match comboLoop rest (rest.length + 1) (p + 8) 0 "" [] with
            | none => none
            | some (defaultString, list) =>
              if !list.isEmpty then
                let option := { option with type := OptionType.combo }
                let option := o.setDefaultCombo option defaultString list
                if o.isValid option then some (true, o.updateOption config option)
                else some (false, config)
              else some (false, config)
          else some (false, config)
        | none => some (false, config)
      else some (false, config)
  | _ => some (false, config)

/-- The text `V0 var V1 var ... var Vk` of a combo line after `default `: the pieces joined by
` var `. -/
def comboText : List (List Char) → List Char
  | [] => []
  | [v] => v
  | v :: w :: vs => v ++ (" var ".toList ++ comboText (w :: vs))

/-- A toy class `Option`: the default value is stored as text, an option is valid when it has
a name and, for a combo, when the default is one of the choices; `updateOption` replaces the
option of the same name or adds the option. -/
def demoOptionEnv : OptionEnv where
  newOption := ⟨"", OptionType.none, "", "", 0, 0, []⟩
  setDefaultBool := fun opt b =>
    { opt with value := toString b, defaultValue := toString b }
  setDefaultString := fun opt str => { opt with value := str, defaultValue := str }
  setDefaultSpin := fun opt d mn mx =>
    { opt with value := toString d, defaultValue := toString d, minInt := mn, maxInt := mx }
  setDefaultCombo := fun opt d l => { opt with value := d, defaultValue := d, choiceList := l }
  isValid := fun opt =>
    !opt.name.isEmpty && (opt.type != OptionType.combo || opt.choiceList.contains opt.defaultValue)
  updateOption := fun config opt =>
    { config with
      optionList := config.optionList.filter (fun a => a.name != opt.name) ++ [opt] }

/-- A configuration without options. -/
def demoConfig : Config := ⟨true, "", []⟩

/-! ## Concrete instances for the clock and for a stopped game -/

/-- The collaborators with a clock in standard mode: 40 moves, 60 and 59 seconds left, one
second of increment. -/
def demoClockEnv : Env Nat Bool :=
  { demoEnv with
    tcMode := fun _ => TimeControlMode.standard,
    tcMoves := fun _ => 40,
    tcTimeLeft := fun _ sd => if sd = Side.white then 60 else 59,
    tcIncrement := fun _ => 1 }

/-- The collaborators with a clock in movetime mode: a tenth of a second for a move. -/
def demoMovetimeEnv : Env Nat Bool :=
  { demoEnv with
    tcMode := fun _ => TimeControlMode.movetime,
    tcTime := fun _ => 1 / 10 }

/-- A board on which `e2e4`, `e7e5` and `c2c4` have been played. -/
def demoBoardE4E5C4 : Board Nat :=
  { demoBoardE4E5 with
    side := Side.black,
    histList := demoBoardE4E5.histList ++ [⟨⟨50, 34, PieceType.empty⟩, Side.white, 0⟩] }

/-! ## A line of book moves, as the specification words it -/

/-- The moves `moves` form a line of the book from `board` on: each move is the decoded move of
a record of `items` whose key is the key of the position reached by the moves before it, and
`checkMake` accepts it in that position. -/
def bookLine {P : Type} (env : BookEnv P) (items : List BookPolyglotItem) :
    Board P → List Move → Bool
  | _, [] => true
  | board, m :: ms =>
    items.any (fun item => decide (item.key = env.key board) && decide (item.getMove = m))
      && (env.checkMake board m.src m.dest m.promotion).1
      && bookLine env items (env.checkMake board m.src m.dest m.promotion).2 ms

/-! ## The book manager over several calls -/

/-- The table `bookSelectTypeNames` (line 310), without its closing null pointer. -/
def bookSelectTypeNames : List String := ["allnew", "allone", "samepair", "none"]

/-- The value `static_cast<BookSelectType>(i)`. -/
def bookSelectTypeOfNat : Nat → BookSelectType
  | 0 => BookSelectType.allnew
  | 1 => BookSelectType.allone
  | 2 => BookSelectType.samepair
  | _ => BookSelectType.none

/-- The loop of `BookMng::string2BookSelectType` (lines 335-339) from index `i` of the table
on. -/
def string2BookSelectTypeLoop (name : String) : List String → Nat → BookSelectType
  | [], _ => BookSelectType.none
  | s :: names, i =>
    if name = s then bookSelectTypeOfNat i else string2BookSelectTypeLoop name names (i + 1)

/-- The function `BookMng::string2BookSelectType` (lines 333-341). -/
def string2BookSelectType (name : String) : BookSelectType :=
  string2BookSelectTypeLoop name bookSelectTypeNames 0

/-- The answers of the calls of `getRandomBook` that follow the call with the answer `a`: each
call is made on the manager the call before it left, with any time, any pair id and any state
of the generator. -/
inductive BookMng.Later {P : Type} (env : BookEnv P) : BookAnswer → BookAnswer → Prop where
  | next (a a2 : BookAnswer) (now : Nat) (pairId : Int) (r : Rng) :
      a.mng.getRandomBook env now pairId r = some a2 → BookMng.Later env a a2
  | step (a a1 a2 : BookAnswer) (now : Nat) (pairId : Int) (r : Rng) :
      BookMng.Later env a a1 → a1.mng.getRandomBook env now pairId r = some a2 →
      BookMng.Later env a a2

/-- A manager of the EPD book with select type `none`, before its first call. -/
def demoNoneMng : BookMng := { demoMng with bookSelectType := BookSelectType.none }

/-- The answer of the first call of `demoNoneMng`, for pair 4. -/
def demoNoneFirst : BookAnswer :=
  (demoNoneMng.getRandomBook demoBookEnv 0 4 demoRng).getD ⟨false, "", [], demoNoneMng, demoRng⟩

/-- The answer of the second call of `demoNoneMng`, for pair 7. -/
def demoNoneSecond : BookAnswer :=
  (demoNoneFirst.mng.getRandomBook demoBookEnv 9 7 demoRng).getD
    ⟨false, "", [], demoNoneMng, demoRng⟩

/-! ## The PGN book (`BookPgn`, `src/game/book.cpp`) -/

/-- The function `BookPgn::moveString2Moves` (lines 87-101).  `fromSanMoveList` stands for
`ChessBoard::fromSanMoveList`, whose code is outside the embedded files: its result and the
board after it. -/
def BookPgn.moveString2Moves {P : Type} (env : BookEnv P)
    (fromSanMoveList : Board P → String → Bool × Board P) (str : String) : List Move :=
  let list : List Move := []
  if !str.isEmpty then
    let board := env.newGame
    let r := fromSanMoveList board str
    if r.1 && !r.2.histList.isEmpty then
      r.2.histList.foldl (fun list hist => list ++ [hist.move]) list
    else list
  else list

/-- The function `BookPgn::addPgnMoves` (lines 103-113). -/
def BookPgn.addPgnMoves {P : Type} (env : BookEnv P)
    (fromSanMoveList : Board P → String → Bool × Board P) (str : String) (b : BookPgn) :
    Bool × BookPgn :=
  if !str.isEmpty then
    let list := BookPgn.moveString2Moves env fromSanMoveList str
    if !list.isEmpty then (true, { b with moves := b.moves ++ [list] })
    else (false, b)
  else (false, b)

/-- The loop of `BookPgn::load` (lines 122-132) over the lines of the file: the move text
read so far and the book. -/
def BookPgn.loadLoop {P : Type} (env : BookEnv P)
    (fromSanMoveList : Board P → String → Bool × Board P) :
    List String → String → BookPgn → String × BookPgn
  | [], moveText, b => (moveText, b)
  | s :: vec, moveText, b =>
    if (strFindFrom "[".toList s.toList 0).isSome then
      if (strFindFrom "[Event".toList s.toList 0).isSome then
        let b := (b.addPgnMoves env fromSanMoveList moveText).2
        BookPgn.loadLoop env fromSanMoveList vec "" b
      else BookPgn.loadLoop env fromSanMoveList vec moveText b
    else BookPgn.loadLoop env fromSanMoveList vec (moveText ++ (" " ++ s)) b

/-- The function `BookPgn::load` (lines 115-134); `vec` is the array of lines
`readTextFileToArray(path)` gives. -/
def BookPgn.load {P : Type} (env : BookEnv P)
    (fromSanMoveList : Board P → String → Bool × Board P) (vec : List String)
    (maxPly top100 : Int) (b : BookPgn) : BookPgn :=
  let b := { b with maxPly := maxPly, top100 := top100 }
  let b := { b with moves := [] }
  let r := BookPgn.loadLoop env fromSanMoveList vec "" b
  (r.2.addPgnMoves env fromSanMoveList r.1).2

/-- A toy reader of move text: the words of the text, read as coordinate moves, become the
history of the board. -/
def demoFromSanMoveList (b : Board String) (str : String) : Bool × Board String :=
  (true, { b with histList :=
    (demoSplitAux ' ' str.toList []).map (fun w => ⟨demoMoveFromString w, Side.white, 0⟩) })

/-- The lines of a PGN file with one game of three plies. -/
def demoPgnLines : List String := ["[Event \"demo\"]", "[Round \"1\"]", "e2e4 e7e5", "g1f3"]

/-- The PGN book loaded from `demoPgnLines` with maxPly = 2. -/
def demoPgn : BookPgn :=
  BookPgn.load demoBookEnv demoFromSanMoveList demoPgnLines 2 100 ⟨0, 0, []⟩

/-! ## Byte order of a Polyglot record -/

/-- The function `BookPolyglotItem::convertToLittleEndian` (lines 162-177).  The fields are
`u64 key`, `u16 move`, `u16 weight` and `u32 learn`: a left shift of `key` or `learn` keeps
the low 64 or 32 bits, and the value assigned to `move` or `weight`, computed as `int`, keeps
its low 16 bits. -/
def BookPolyglotItem.convertToLittleEndian (item : BookPolyglotItem) : BookPolyglotItem :=
  let key := (item.key >>> 56)
    ||| (((item.key <<< 40) % 2 ^ 64) &&& 0x00FF000000000000)
    ||| (((item.key <<< 24) % 2 ^ 64) &&& 0x0000FF0000000000)
    ||| (((item.key <<< 8) % 2 ^ 64) &&& 0x000000FF00000000)
    ||| ((item.key >>> 8) &&& 0x00000000FF000000)
    ||| ((item.key >>> 24) &&& 0x0000000000FF0000)
    ||| ((item.key >>> 40) &&& 0x000000000000FF00)
    ||| ((item.key <<< 56) % 2 ^ 64)
  let move := ((item.move >>> 8) ||| (item.move <<< 8)) % 2 ^ 16
  let weight := ((item.weight >>> 8) ||| (item.weight <<< 8)) % 2 ^ 16
  let learn := (item.learn >>> 24)
    ||| (((item.learn <<< 8) % 2 ^ 32) &&& 0x00FF0000)
    ||| ((item.learn >>> 8) &&& 0x0000FF00)
    ||| ((item.learn <<< 24) % 2 ^ 32)
  { item with key := key, move := move, weight := weight, learn := learn }

/-- The value a little-endian host reads from bytes in memory order: the first byte is the
lowest. -/
def ofLeBytes : List Nat → Nat
  | [] => 0
  | b :: bs => b + 256 * ofLeBytes bs

/-- The big-endian integer composed from bytes in file order: the first byte is the
highest. -/
def ofBeBytes (bytes : List Nat) : Nat := ofLeBytes bytes.reverse

/-- The `w` bytes of a value, lowest first. -/
def leBytes : Nat → Nat → List Nat
  | 0, _ => []
  | w + 1, v => v % 256 :: leBytes w (v / 256)

/-- The value with the order of its `w` bytes reversed. -/
def byteSwap (w v : Nat) : Nat := ofLeBytes (leBytes w v).reverse

/-! ## Theorems -/

/-! ### The game ends: `gameOver` -/

/-- After `gameOver` the game is stopped. -/
theorem gameOver_state {Pl P T : Type} (ops : PlayerOps Pl P T) (result : Result)
    (g : Game Pl P T) : (g.gameOver ops result).state = GameState.stopped := rfl

/-- The function `gameOver` writes the result and leaves the rest of the board. -/
theorem gameOver_board {Pl P T : Type} (ops : PlayerOps Pl P T) (result : Result)
    (g : Game Pl P T) : (g.gameOver ops result).board = { g.board with result := result } := by
  unfold Game.gameOver Game.callPlayerIfPresent
  cases hB : g.playerB <;> cases hW : g.playerW <;>
    simp [Game.player, Game.setPlayer, hB, hW]

/-- The function `gameOver` leaves the clock. -/
theorem gameOver_timeController {Pl P T : Type} (ops : PlayerOps Pl P T) (result : Result)
    (g : Game Pl P T) : (g.gameOver ops result).timeController = g.timeController := by
  unfold Game.gameOver Game.callPlayerIfPresent
  cases hB : g.playerB <;> cases hW : g.playerW <;>
    simp [Game.player, Game.setPlayer, hB, hW]

/-- The player calls of `gameOver`. -/
theorem gameOver_calls {Pl P T : Type} (ops : PlayerOps Pl P T) (result : Result)
    (g : Game Pl P T) : (g.gameOver ops result).calls = g.calls ++ g.stopCalls := by
  unfold Game.gameOver Game.callPlayerIfPresent Game.stopCalls
  cases hB : g.playerB <;> cases hW : g.playerW <;>
    simp [Game.player, Game.setPlayer, hB, hW]

/-- The function `gameOver` calls `stopThinking` on each present player. -/
theorem gameOver_player {Pl P T : Type} (ops : PlayerOps Pl P T) (result : Result)
    (g : Game Pl P T) (sd : Side) :
    (g.gameOver ops result).player sd = (g.player sd).map ops.stopThinking := by
  unfold Game.gameOver Game.callPlayerIfPresent
  cases sd <;> cases hB : g.playerB <;> cases hW : g.playerW <;>
    simp [Game.player, Game.setPlayer, hB, hW]


/-! ### Claims on `Game::moveFromPlayer` and `Game::tickWork` -/

/-- Claim C2: in a playing game whose clock is not over, a bestmove of the side to move
received with old state `thinking` and rejected by `checkMake` (which, rejecting, leaves the
board as it was) stops the game with reason `illegalmove`; the outcome is a loss when the
offending side is white and a win when it is black; side to move, history and position of
the board are unchanged. -/
theorem moveFromPlayer_illegal {Pl P T : Type} (x : Env P T) (ops : PlayerOps Pl P T)
    (g : Game Pl P T) (moveString ponderMoveString : String) (timeConsumed : Int)
    (hplay : g.state = GameState.playing)
    (hclock : x.isTimeOver g.timeController g.board.side = false)
    (hrej : x.checkMake g.board (x.moveFromCoordiateString moveString).src
      (x.moveFromCoordiateString moveString).dest
      (x.moveFromCoordiateString moveString).promotion = (false, g.board)) :
    ∃ g1, g.moveFromPlayer x ops moveString ponderMoveString timeConsumed g.board.side
          EngineComputingState.thinking = some g1
      ∧ g1.state = GameState.stopped
      ∧ g1.board.result.reason = ReasonType.illegalmove
      ∧ (g.board.side = Side.white → g1.board.result.result = ResultType.loss)
      ∧ (g.board.side = Side.black → g1.board.result.result = ResultType.win)
      ∧ g1.board.side = g.board.side
      ∧ g1.board.histList = g.board.histList
      ∧ g1.board.pos = g.board.pos := by
  refine ⟨g.gameOver ops (lossFor g.board.side ReasonType.illegalmove), ?_, ?_⟩
  · rcases g with ⟨st, pB, pW, board, tc, pm, idx, sf, sm, calls⟩
    simp only at hplay hclock hrej
    subst hplay
    simp [Game.moveFromPlayer, Game.checkTimeOver, Game.make, hclock, hrej, lossFor]
  · simp [gameOver_state, gameOver_board, lossFor]
    intro h; simp [h]

/-- Witness of claim C2: the null move `0000` in the started demo game. -/
theorem moveFromPlayer_illegal_witness :
    demoStarted.state = GameState.playing
    ∧ demoEnv.isTimeOver demoStarted.timeController demoStarted.board.side = false
    ∧ demoEnv.checkMake demoStarted.board (demoEnv.moveFromCoordiateString "0000").src
        (demoEnv.moveFromCoordiateString "0000").dest
        (demoEnv.moveFromCoordiateString "0000").promotion = (false, demoStarted.board)
    ∧ ∃ g1, demoStarted.moveFromPlayer demoEnv (uciPlayerOps demoEnv) "0000" "" 5
          demoStarted.board.side EngineComputingState.thinking = some g1
      ∧ g1.state = GameState.stopped
      ∧ g1.board.result.reason = ReasonType.illegalmove
      ∧ (demoStarted.board.side = Side.white → g1.board.result.result = ResultType.loss)
      ∧ (demoStarted.board.side = Side.black → g1.board.result.result = ResultType.win)
      ∧ g1.board.side = demoStarted.board.side
      ∧ g1.board.histList = demoStarted.board.histList
      ∧ g1.board.pos = demoStarted.board.pos :=
  ⟨rfl, rfl, rfl, moveFromPlayer_illegal demoEnv (uciPlayerOps demoEnv) demoStarted "0000" "" 5
    rfl rfl rfl⟩

/-- Claim C3: in a playing game, when the time of the side to move is over as a bestmove
arrives (any text, side and old state), no move is made (history, side and position
unchanged), the game is stopped with reason `timeout`, and the outcome is a loss when white
is to move and a win when black is to move. -/
theorem moveFromPlayer_late {Pl P T : Type} (x : Env P T) (ops : PlayerOps Pl P T)
    (g : Game Pl P T) (moveString ponderMoveString : String) (timeConsumed : Int) (side : Side)
    (oldState : EngineComputingState)
    (hplay : g.state = GameState.playing)
    (hover : x.isTimeOver g.timeController g.board.side = true) :
    ∃ g1, g.moveFromPlayer x ops moveString ponderMoveString timeConsumed side oldState = some g1
      ∧ g1.state = GameState.stopped
      ∧ g1.board.histList = g.board.histList
      ∧ g1.board.side = g.board.side
      ∧ g1.board.pos = g.board.pos
      ∧ g1.board.result.reason = ReasonType.timeout
      ∧ (g.board.side = Side.white → g1.board.result.result = ResultType.loss)
      ∧ (g.board.side = Side.black → g1.board.result.result = ResultType.win) := by
  refine ⟨g.gameOver ops (lossFor g.board.side ReasonType.timeout), ?_, ?_⟩
  · simp [Game.moveFromPlayer, Game.checkTimeOver, hplay, hover, lossFor]
  · simp [gameOver_state, gameOver_board, lossFor]
    intro h; simp [h]

/-- Witness of claim C3: a bestmove reaching the demo game after the flag fell. -/
theorem moveFromPlayer_late_witness :
    demoLate.state = GameState.playing
    ∧ demoEnv.isTimeOver demoLate.timeController demoLate.board.side = true
    ∧ ∃ g1, demoLate.moveFromPlayer demoEnv (uciPlayerOps demoEnv) "e2e4" "" 150 Side.white
          EngineComputingState.thinking = some g1
      ∧ g1.state = GameState.stopped
      ∧ g1.board.histList = demoLate.board.histList
      ∧ g1.board.side = demoLate.board.side
      ∧ g1.board.pos = demoLate.board.pos
      ∧ g1.board.result.reason = ReasonType.timeout
      ∧ (demoLate.board.side = Side.white → g1.board.result.result = ResultType.loss)
      ∧ (demoLate.board.side = Side.black → g1.board.result.result = ResultType.win) :=
  ⟨rfl, rfl, moveFromPlayer_late demoEnv (uciPlayerOps demoEnv) demoLate "e2e4" "" 150
    Side.white EngineComputingState.thinking rfl rfl⟩

/-- Claim C4: a tick in state `playing` ends the game exactly when the player of the side to
move is present, not human, thinking, and its time is over.  Then the game is stopped with
reason `timeout`, the outcome is a loss if white is to move and a win otherwise, the board is
otherwise unchanged and `stopThinking` is called on every present player; in every other case
the tick changes nothing. -/
theorem tickWork_playing {Pl P T : Type} (x : Env P T) (ops : PlayerOps Pl P T)
    (g : Game Pl P T) (hplay : g.state = GameState.playing) :
    ((∃ p, g.player g.board.side = some p ∧ ops.isHuman p = false
          ∧ ops.computingState p = EngineComputingState.thinking
          ∧ x.isTimeOver g.timeController g.board.side = true) →
      ∃ g1, g.tickWork x ops = some g1
        ∧ g1.state = GameState.stopped
        ∧ g1.board.result.reason = ReasonType.timeout
        ∧ g1.board.result.result
            = (if g.board.side = Side.white then ResultType.loss else ResultType.win)
        ∧ g1.board.side = g.board.side ∧ g1.board.histList = g.board.histList
        ∧ g1.board.pos = g.board.pos
        ∧ g1.calls = g.calls ++ g.stopCalls
        ∧ (∀ sd, g1.player sd = (g.player sd).map ops.stopThinking))
    ∧ ((¬ ∃ p, g.player g.board.side = some p ∧ ops.isHuman p = false
          ∧ ops.computingState p = EngineComputingState.thinking
          ∧ x.isTimeOver g.timeController g.board.side = true) →
      g.tickWork x ops = some g) := by
  constructor
  · rintro ⟨p, hp, hh, hc, ht⟩
    refine ⟨g.gameOver ops (lossFor g.board.side ReasonType.timeout), ?_, ?_⟩
    · simp [Game.tickWork, Game.checkTimeOver, hplay, hp, hh, hc, ht, lossFor]
    · simp [gameOver_state, gameOver_board, gameOver_calls, gameOver_player, lossFor]
  · intro hno
    unfold Game.tickWork
    rw [hplay]
    simp only
    cases hp : g.player g.board.side with
    | none => rfl
    | some p =>
      simp only
      by_cases hh : ops.isHuman p = true
      · simp [hh]
      · by_cases hc : ops.computingState p = EngineComputingState.thinking
        · have ht : x.isTimeOver g.timeController g.board.side = false := by
            by_contra hcon
            exact hno ⟨p, hp, by simpa using hh, hc, by simpa using hcon⟩
          simp [hh, hc, hplay, Game.checkTimeOver, ht]
        · simp [hh, hc]

/-- Witness of claim C4: a tick of the demo game after the flag fell. -/
theorem tickWork_playing_witness :
    demoLate.state = GameState.playing
    ∧ ((∃ p, demoLate.player demoLate.board.side = some p
          ∧ (uciPlayerOps demoEnv).isHuman p = false
          ∧ (uciPlayerOps demoEnv).computingState p = EngineComputingState.thinking
          ∧ demoEnv.isTimeOver demoLate.timeController demoLate.board.side = true) →
      ∃ g1, demoLate.tickWork demoEnv (uciPlayerOps demoEnv) = some g1
        ∧ g1.state = GameState.stopped
        ∧ g1.board.result.reason = ReasonType.timeout
        ∧ g1.board.result.result
            = (if demoLate.board.side = Side.white then ResultType.loss else ResultType.win)
        ∧ g1.board.side = demoLate.board.side ∧ g1.board.histList = demoLate.board.histList
        ∧ g1.board.pos = demoLate.board.pos
        ∧ g1.calls = demoLate.calls ++ demoLate.stopCalls
        ∧ (∀ sd, g1.player sd = (demoLate.player sd).map (uciPlayerOps demoEnv).stopThinking)) :=
  ⟨rfl, (tickWork_playing demoEnv (uciPlayerOps demoEnv) demoLate rfl).1⟩

/-- Claim C5: in a playing game whose clock is not over, a bestmove of the side to move
received with old state `thinking` that `checkMake` accepts and after which `rule()` reports
a result other than `noresult` stops the game with exactly that result on the board; the
only player calls made are `stopThinking` calls, so neither `go()` nor `goPonder()` is
called. -/
theorem moveFromPlayer_rule_end {Pl P T : Type} (x : Env P T) (ops : PlayerOps Pl P T)
    (g : Game Pl P T) (moveString ponderMoveString : String) (timeConsumed : Int)
    (hplay : g.state = GameState.playing)
    (hclock : x.isTimeOver g.timeController g.board.side = false)
    (hacc : (x.checkMake g.board (x.moveFromCoordiateString moveString).src
      (x.moveFromCoordiateString moveString).dest
      (x.moveFromCoordiateString moveString).promotion).1 = true)
    (hrule : (x.rule (x.checkMake g.board (x.moveFromCoordiateString moveString).src
      (x.moveFromCoordiateString moveString).dest
      (x.moveFromCoordiateString moveString).promotion).2).result ≠ ResultType.noresult) :
    ∃ g1, g.moveFromPlayer x ops moveString ponderMoveString timeConsumed g.board.side
          EngineComputingState.thinking = some g1
      ∧ g1.state = GameState.stopped
      ∧ g1.board.result = x.rule (x.checkMake g.board (x.moveFromCoordiateString moveString).src
          (x.moveFromCoordiateString moveString).dest
          (x.moveFromCoordiateString moveString).promotion).2
      ∧ ∃ added, g1.calls = g.calls ++ added
          ∧ ∀ c ∈ added, c.2 = PlayerCall.stopThinking := by
  refine ⟨{ g with board := (x.checkMake g.board (x.moveFromCoordiateString moveString).src
          (x.moveFromCoordiateString moveString).dest
          (x.moveFromCoordiateString moveString).promotion).2 }.gameOver ops
      (x.rule (x.checkMake g.board (x.moveFromCoordiateString moveString).src
          (x.moveFromCoordiateString moveString).dest
          (x.moveFromCoordiateString moveString).promotion).2), ?_, ?_⟩
  · simp [Game.moveFromPlayer, Game.checkTimeOver, Game.make, hplay, hclock, hacc, hrule]
  · refine ⟨gameOver_state _ _ _, ?_, g.stopCalls, ?_, ?_⟩
    · simp [gameOver_board]
    · simp [gameOver_calls, Game.stopCalls]
    · intro c hc
      unfold Game.stopCalls at hc
      cases hB : g.playerB <;> cases hW : g.playerW <;> simp [hB, hW] at hc
      · simp [hc]
      · simp [hc]
      · rcases hc with hc | hc <;> simp [hc]

/-- Witness of claim C5: `e2e4` in the demo game whose rules report a draw after one ply. -/
theorem moveFromPlayer_rule_end_witness :
    demoShort.state = GameState.playing
    ∧ demoEnv.isTimeOver demoShort.timeController demoShort.board.side = false
    ∧ (demoEnv.checkMake demoShort.board (demoEnv.moveFromCoordiateString "e2e4").src
        (demoEnv.moveFromCoordiateString "e2e4").dest
        (demoEnv.moveFromCoordiateString "e2e4").promotion).1 = true
    ∧ ∃ g1, demoShort.moveFromPlayer demoEnv (uciPlayerOps demoEnv) "e2e4" "e7e5" 5
          demoShort.board.side EngineComputingState.thinking = some g1
      ∧ g1.state = GameState.stopped
      ∧ g1.board.result = demoEnv.rule (demoEnv.checkMake demoShort.board
          (demoEnv.moveFromCoordiateString "e2e4").src
          (demoEnv.moveFromCoordiateString "e2e4").dest
          (demoEnv.moveFromCoordiateString "e2e4").promotion).2
      ∧ ∃ added, g1.calls = demoShort.calls ++ added
          ∧ ∀ c ∈ added, c.2 = PlayerCall.stopThinking :=
  ⟨rfl, rfl, rfl, moveFromPlayer_rule_end demoEnv (uciPlayerOps demoEnv) demoShort "e2e4" "e7e5" 5
    rfl rfl rfl (by decide)⟩

/-- Claim C10: in a game whose state is `begin`, `ready` or `stopped`, `moveFromPlayer`
(any move text, side, elapsed time and old state) returns the game as it was: board, clock,
result, state and players are unchanged and no player operation is called. -/
theorem moveFromPlayer_not_playing {Pl P T : Type} (x : Env P T) (ops : PlayerOps Pl P T)
    (g : Game Pl P T) (moveString ponderMoveString : String) (timeConsumed : Int) (side : Side)
    (oldState : EngineComputingState)
    (h : g.state = GameState.begin ∨ g.state = GameState.ready ∨ g.state = GameState.stopped) :
    g.moveFromPlayer x ops moveString ponderMoveString timeConsumed side oldState = some g := by
  have hne : g.state ≠ GameState.playing := by
    rcases h with h | h | h <;> simp [h]
  simp [Game.moveFromPlayer, hne]

/-- Witness of claim C10: a bestmove reaching the demo game before it was started. -/
theorem moveFromPlayer_not_playing_witness :
    (demoGame.state = GameState.begin ∨ demoGame.state = GameState.ready
        ∨ demoGame.state = GameState.stopped)
      ∧ demoGame.moveFromPlayer demoEnv (uciPlayerOps demoEnv) "e2e4" "e7e5" 5 Side.white
          EngineComputingState.thinking = some demoGame :=
  ⟨Or.inr (Or.inl rfl),
   moveFromPlayer_not_playing demoEnv (uciPlayerOps demoEnv) demoGame "e2e4" "e7e5" 5 Side.white
     EngineComputingState.thinking (Or.inr (Or.inl rfl))⟩

/-! ### Claims on `UciEngine` -/

/-- The function `write` records the line and leaves the flags. -/
theorem write_fields (s : String) (e : UciEngine) :
    (e.write s).2.computingState = e.computingState
    ∧ (e.write s).2.expectingBestmove = e.expectingBestmove
    ∧ (e.write s).2.written = e.written ++ [s] := by
  simp [UciEngine.write]

/-- Sending options leaves the flags. -/
theorem sendOptionsLoop_flags {P T : Type} (x : Env P T) (opts : List EngineOption)
    (e : UciEngine) :
    (UciEngine.sendOptionsLoop x opts e).2.computingState = e.computingState
    ∧ (UciEngine.sendOptionsLoop x opts e).2.expectingBestmove = e.expectingBestmove := by
  induction opts generalizing e with
  | nil => simp [UciEngine.sendOptionsLoop]
  | cons o rest ih =>
    unfold UciEngine.sendOptionsLoop
    by_cases hw : e.writable = true
    · by_cases hd : x.isDefaultValue (x.checkOverrideOption o) = true
      · simp [hw, hd, ih]
      · simp [hw, hd, ih, UciEngine.write]
    · simp [hw]


/-- Claim C1 fails on the code: `go()` resets `ponderingMove` to the illegal move before it
compares the last move of the board with it.  For an engine that ponders on a valid move, on
a board whose last move is that very move, `go()` keeps the engine pondering and writes no
`ponderhit`: it writes the single line `stop` when a bestmove is expected and nothing
otherwise. -/
theorem go_on_predicted_move {P T : Type} (x : Env P T) (board : Board P) (tc : T)
    (e : UciEngine) (h : Hist)
    (hill : x.isValid x.illegalMoveFull = false)
    (hvalid : x.isValid e.ponderingMove = true)
    (hstate : e.computingState = EngineComputingState.pondering)
    (hlast : board.histList.getLast? = some h) (hmove : h.move = e.ponderingMove) :
    (e.go x board tc).2.computingState = EngineComputingState.pondering
    ∧ (e.go x board tc).2.written
        = (if e.expectingBestmove then e.written ++ ["stop"] else e.written) := by
  have hne : ¬ (h.move = x.illegalMoveFull) := by
    intro hcon
    rw [← hmove, hcon, hill] at hvalid
    exact Bool.noConfusion hvalid
  by_cases hexp : e.expectingBestmove = true
  · simp [UciEngine.go, hstate, hlast, hne, UciEngine.stop, hexp, UciEngine.write]
  · simp [UciEngine.go, hstate, hlast, hne, UciEngine.stop, hexp]

/-- Evaluation for claim C1: an engine pondering on `e7e5` after `e2e4 e7e5` was played. -/
theorem go_on_predicted_move_witness :
    demoEnv.isValid demoEnv.illegalMoveFull = false
    ∧ demoEnv.isValid demoPonderer.ponderingMove = true
    ∧ demoPonderer.computingState = EngineComputingState.pondering
    ∧ demoBoardE4E5.histList.getLast? = some ⟨⟨12, 28, PieceType.empty⟩, Side.black, 0⟩
    ∧ (demoPonderer.go demoEnv demoBoardE4E5 false).2.computingState
        = EngineComputingState.pondering
    ∧ (demoPonderer.go demoEnv demoBoardE4E5 false).2.written
        = (if demoPonderer.expectingBestmove then demoPonderer.written ++ ["stop"]
            else demoPonderer.written) :=
  ⟨rfl, rfl, rfl, rfl,
    go_on_predicted_move demoEnv demoBoardE4E5 false demoPonderer
      ⟨⟨12, 28, PieceType.empty⟩, Side.black, 0⟩ rfl rfl rfl rfl rfl⟩

/-- Claim C7 fails on the code: the `uciok` branch of `parseLine` clears `expectingBestmove`
and leaves `computingState`.  After `newGame`, `go` and a `uciok` line the engine expects no
bestmove although its computing state is `thinking`. -/
theorem uciok_while_thinking {P T : Type} (x : Env P T) (board : Board P) (tc : T)
    (e : UciEngine) (line : String) :
    ∃ e1, ((e.newGame x).go x board tc).2.parseLine x tc (some UciEngineCmd.uciok) line
        = some (e1, none)
      ∧ e1.expectingBestmove = false
      ∧ e1.computingState = EngineComputingState.thinking := by
  refine ⟨_, rfl, ?_, ?_⟩
  · simp [UciEngine.write, UciEngine.sendOptions, (sendOptionsLoop_flags x _ _).2]
  · simp only [UciEngine.write, UciEngine.sendOptions, (sendOptionsLoop_flags x _ _).1]
    simp [UciEngine.go, UciEngine.newGame, UciEngine.write]
    split <;> simp

/-! ### Effect of the engine operations on the flags -/

/-- The loop of `parseInfo` leaves the flags. -/
theorem parseInfoLoop_flags (vec : List String) (bound : Nat) :
    ∀ (fuel i : Nat) (e e1 : UciEngine), parseInfoLoop vec bound fuel i e = some e1 →
      e1.expectingBestmove = e.expectingBestmove ∧ e1.computingState = e.computingState := by
  intro fuel
  induction fuel with
  | zero =>
    intro i e e1 h
    simp only [parseInfoLoop, Option.some.injEq] at h
    subst h
    exact ⟨rfl, rfl⟩
  | succ fuel ih =>
    intro i e e1 h
    unfold parseInfoLoop at h
    split at h
    · split at h
      · cases h
      · split at h
        · split at h
          · cases h
          · have hh := ih _ _ _ h
            exact hh
        · split at h
          · split at h
            · cases h
            · have hh := ih _ _ _ h
              exact hh
          · split at h
            · split at h
              · cases h
              · split at h
                · split at h
                  · cases h
                  · have hh := ih _ _ _ h
                    exact hh
                · have hh := ih _ _ _ h
                  exact hh
            · have hh := ih _ _ _ h
              exact hh
    · simp only [Option.some.injEq] at h
      subst h
      exact ⟨rfl, rfl⟩

/-- The relation `expectingBestmove` if and only if `computingState` is not idle is kept by
`newGame`, `go`, `goPonder`, `stop` and by `parseLine` on every line, except a `uciok` line
received while the engine computes. -/
theorem flags_kept {P T : Type} (x : Env P T) (board : Board P) (tc : T) (e : UciEngine)
    (hf : e.FlagsIff) :
    (e.newGame x).FlagsIff
    ∧ (e.go x board tc).2.FlagsIff
    ∧ (∀ m, (e.goPonder x board tc m).2.FlagsIff)
    ∧ e.stop.2.FlagsIff
    ∧ (∀ cmd line e1 ev, e.parseLine x tc cmd line = some (e1, ev) →
        (cmd ≠ some UciEngineCmd.uciok ∨ e.computingState = EngineComputingState.idle) →
        e1.FlagsIff) := by
  unfold UciEngine.FlagsIff at hf ⊢
  refine ⟨?_, ?_, ?_, ?_, ?_⟩
  · unfold UciEngine.newGame
    by_cases hw : e.writable = true <;> simp [UciEngine.write, hw]
  · unfold UciEngine.go
    by_cases hp : e.computingState = EngineComputingState.pondering
    · have hexp : e.expectingBestmove = true := hf.mpr (by simp [hp])
      simp only [hp, if_true]
      split
      · simp [UciEngine.write, hexp]
      · simp [UciEngine.stop, UciEngine.write, hexp, hp]
    · simp [hp, UciEngine.write]
  · intro m
    unfold UciEngine.goPonder
    by_cases hc : (e.config.ponderable && x.isValid m) = true
    · simp [hc, UciEngine.write]
    · simp only [hc]
      exact hf
  · unfold UciEngine.stop
    by_cases hexp : e.expectingBestmove = true
    · simpa [hexp, UciEngine.write] using hf
    · simpa [hexp] using hf
  · intro cmd line e1 ev h hcmd
    unfold UciEngine.parseLine at h
    split at h
    · cases h; exact hf
    · simp only at h
      split at h <;> (cases h; simpa [UciEngine.write] using hf)
    · split at h
      · cases hpi : e.parseInfo x line with
        | none => simp [hpi] at h
        | some e2 =>
          simp only [hpi, Option.map_some', Option.some.injEq, Prod.mk.injEq] at h
          obtain ⟨rfl, -⟩ := h
          unfold UciEngine.parseInfo at hpi
          simp only at hpi
          split at hpi
          · cases hpi
          · have := parseInfoLoop_flags _ _ _ _ _ _ hpi
            rw [this.1, this.2]
            exact hf
      · cases h; exact hf
    · simp only at h
      split at h
      · cases h; exact hf
      · split at h
        · cases h; simp
        · split at h
          · split at h
            · cases h
            · cases h; simp
          · cases h; simp
    · rcases hcmd with hcmd | hcmd
      · exact absurd rfl hcmd
      · simp only [Option.some.injEq, Prod.mk.injEq] at h
        obtain ⟨rfl, -⟩ := h
        simp [UciEngine.write, UciEngine.sendOptions, (sendOptionsLoop_flags x _ _).1,
          (sendOptionsLoop_flags x _ _).2, hcmd]
    · simp only at h
      split at h
      · cases h; exact hf
      · split at h <;> (cases h; exact hf)
    · cases h; exact hf
    · cases h; exact hf
    · cases h; exact hf

/-- Evaluation of the flag relation on the idle demo engine. -/
theorem flags_kept_witness :
    demoEngine.FlagsIff
    ∧ (demoEngine.go demoEnv demoBoardE4E5 false).2.FlagsIff :=
  ⟨by simp [UciEngine.FlagsIff, demoEngine],
    (flags_kept demoEnv demoBoardE4E5 false demoEngine
      (by simp [UciEngine.FlagsIff, demoEngine])).2.1⟩

/-- Effect of `stop` on an engine with consistent flags. -/
theorem stop_effect (e : UciEngine) (hf : e.FlagsOk) :
    e.stop.2.FlagsOk ∧ e.stop.2.computingState = e.computingState
    ∧ (e.computingState = EngineComputingState.pondering →
        e.stop.2.written.getLast? = some "stop") := by
  unfold UciEngine.stop
  by_cases hexp : e.expectingBestmove = true
  · simp [hexp, UciEngine.write, UciEngine.FlagsOk]
  · have hidle : e.computingState = EngineComputingState.idle := by
      by_contra hne
      exact hexp (hf hne)
    simp [hexp, hf, hidle]

/-- Effect of `go` on an engine with consistent flags. -/
theorem go_effect {P T : Type} (x : Env P T) (board : Board P) (tc : T) (e : UciEngine)
    (hf : e.FlagsOk) :
    (e.go x board tc).2.FlagsOk
    ∧ ((e.go x board tc).2.computingState = EngineComputingState.thinking
      ∨ ((e.go x board tc).2.computingState = EngineComputingState.pondering
        ∧ (e.go x board tc).2.written.getLast? = some "stop")) := by
  unfold UciEngine.go
  by_cases hp : e.computingState = EngineComputingState.pondering
  · have hexp : e.expectingBestmove = true := hf (by simp [hp])
    simp only [hp, if_true]
    split
    · simp [UciEngine.write, UciEngine.FlagsOk, hexp]
    · simp [UciEngine.stop, UciEngine.write, UciEngine.FlagsOk, hexp, hp]
  · simp [hp, UciEngine.write, UciEngine.FlagsOk]

/-- Effect of `goPonder` on an engine that is not thinking. -/
theorem goPonder_effect {P T : Type} (x : Env P T) (board : Board P) (tc : T) (m : Move)
    (e : UciEngine) (hf : e.FlagsOk)
    (hnt : e.computingState ≠ EngineComputingState.thinking) :
    (e.goPonder x board tc m).2.FlagsOk
    ∧ (e.goPonder x board tc m).2.computingState ≠ EngineComputingState.thinking := by
  unfold UciEngine.goPonder
  by_cases hc : (e.config.ponderable && x.isValid m) = true
  · simp [hc, UciEngine.write, UciEngine.FlagsOk]
  · simp only [hc]
    exact ⟨hf, hnt⟩

/-- After `newGame` the engine is idle. -/
theorem newGame_effect {P T : Type} (x : Env P T) (e : UciEngine) :
    (e.newGame x).FlagsOk
    ∧ (e.newGame x).computingState ≠ EngineComputingState.thinking := by
  unfold UciEngine.newGame
  by_cases hw : e.writable = true <;> simp [UciEngine.write, UciEngine.FlagsOk, hw]

/-- A `bestmove` line leaves the engine as it was or idle. -/
theorem parseLine_bestmove_effect {P T : Type} (x : Env P T) (tc : T) (line : String)
    (e e1 : UciEngine) (ev : Option BestmoveEvent)
    (h : e.parseLine x tc (some UciEngineCmd.bestmove) line = some (e1, ev)) :
    (e1 = e ∧ ev = none) ∨ (e1.computingState = EngineComputingState.idle
      ∧ e1.expectingBestmove = false) := by
  unfold UciEngine.parseLine at h
  simp only at h
  split at h
  · left
    simp only [Option.some.injEq, Prod.mk.injEq] at h
    exact ⟨h.1.symm, h.2.symm⟩
  · right
    split at h
    · simp only [Option.some.injEq, Prod.mk.injEq] at h
      rw [← h.1]
      simp
    · split at h
      · split at h
        · cases h
        · simp only [Option.some.injEq, Prod.mk.injEq] at h
          rw [← h.1]
          simp
      · simp only [Option.some.injEq, Prod.mk.injEq] at h
        rw [← h.1]
        simp

/-! ### Claim on `BookPolyglot::search` -/

/-- Entries of a list sorted by key, read by index. -/
theorem sorted_key_le (items : List BookPolyglotItem)
    (hs : items.Pairwise (fun a b => a.key ≤ b.key)) (i j : Nat) (a b : BookPolyglotItem)
    (hij : i ≤ j) (ha : items[i]? = some a) (hb : items[j]? = some b) : a.key ≤ b.key := by
  rcases Nat.eq_or_lt_of_le hij with h | h
  · subst h
    rw [ha] at hb
    cases hb
    exact le_refl _
  · obtain ⟨hi, rfl⟩ := List.getElem?_eq_some.mp ha
    obtain ⟨hj, rfl⟩ := List.getElem?_eq_some.mp hb
    exact (List.pairwise_iff_getElem.mp hs) i j hi hj h

/-- The loop of the binary search on a sorted array: it answers, with `-1` when no record has
the key and with the index of a record with the key otherwise. -/
theorem binarySearchLoop_sorted (items : List BookPolyglotItem) (key : Nat)
    (hs : items.Pairwise (fun a b => a.key ≤ b.key)) :
    ∀ (fuel : Nat) (first last : Int), 0 ≤ first → last < items.length →
      first ≤ last + 1 → last - first + 1 < fuel →
      (∀ (i : Nat) (a : BookPolyglotItem), (i : Int) < first → items[i]? = some a → a.key ≠ key) →
      (∀ (i : Nat) (a : BookPolyglotItem), last < (i : Int) → items[i]? = some a → a.key ≠ key) →
      ∃ r, binarySearchLoop items key fuel first last = some r
        ∧ ((r = -1 ∧ ∀ a ∈ items, a.key ≠ key)
          ∨ (0 ≤ r ∧ ∃ a, items[r.toNat]? = some a ∧ a.key = key)) := by
  intro fuel
  induction fuel with
  | zero =>
    intro first last h0 hn hr hf hlo hhi
    omega
  | succ fuel ih =>
    intro first last h0 hn hr hf hlo hhi
    unfold binarySearchLoop
    by_cases hle : first ≤ last
    · have hm0 : 0 ≤ (first + last) / 2 := by omega
      have hm1 : first ≤ (first + last) / 2 := by omega
      have hm2 : (first + last) / 2 ≤ last := by omega
      have hmn : ((first + last) / 2).toNat < items.length := by omega
      have hget : items[((first + last) / 2).toNat]? = some items[((first + last) / 2).toNat] :=
        List.getElem?_eq_getElem hmn
      simp only [hle, if_true, not_lt.mpr hm0, if_false, List.get?_eq_getElem?, hget]
      by_cases hk : items[((first + last) / 2).toNat].key = key
      · simp only [hk, if_true]
        exact ⟨_, rfl, Or.inr ⟨hm0, _, hget, hk⟩⟩
      · simp only [hk, if_false]
        by_cases hgt : items[((first + last) / 2).toNat].key > key
        · simp only [hgt, if_true]
          apply ih first ((first + last) / 2 - 1) h0 (by omega) (by omega) (by omega) hlo
          intro i a hi ha
          have := sorted_key_le items hs ((first + last) / 2).toNat i _ a (by omega) hget ha
          omega
        · simp only [hgt, if_false]
          apply ih ((first + last) / 2 + 1) last (by omega) hn (by omega) (by omega) _ hhi
          intro i a hi ha
          have := sorted_key_le items hs i ((first + last) / 2).toNat a _ (by omega) ha hget
          omega
    · refine ⟨-1, ?_, Or.inl ⟨rfl, ?_⟩⟩
      · simp [hle]
      · intro a ha
        obtain ⟨i, hi, rfl⟩ := List.getElem_of_mem ha
        by_cases hc : (i : Int) < first
        · exact hlo i _ hc (List.getElem?_eq_getElem hi)
        · exact hhi i _ (by omega) (List.getElem?_eq_getElem hi)

/-- The backward walk of `search` on a sorted array stops at the first record with the key. -/
theorem searchBack_sorted (items : List BookPolyglotItem) (key : Nat)
    (hs : items.Pairwise (fun a b => a.key ≤ b.key)) :
    ∀ (k : Nat) (a : BookPolyglotItem), items[k]? = some a → a.key = key →
      (∃ b, items[searchBack items key k]? = some b ∧ b.key = key)
      ∧ (∀ (i : Nat) (b : BookPolyglotItem), i < searchBack items key k →
          items[i]? = some b → b.key < key) := by
  intro k
  induction k with
  | zero =>
    intro a ha hk
    exact ⟨⟨a, by simpa [searchBack] using ha, hk⟩, by simp [searchBack]⟩
  | succ k ih =>
    intro a ha hk
    have hlen : k + 1 < items.length := (List.getElem?_eq_some.mp ha).1
    have hget : items[k]? = some items[k] := List.getElem?_eq_getElem (by omega)
    unfold searchBack
    simp only [List.get?_eq_getElem?, hget]
    by_cases hkk : items[k].key = key
    · simp only [hkk, if_true]
      exact ih _ hget hkk
    · simp only [hkk, if_false]
      refine ⟨⟨a, ha, hk⟩, ?_⟩
      intro i b hi hb
      have h1 := sorted_key_le items hs i k b _ (by omega) hb hget
      have h2 := sorted_key_le items hs k (k + 1) _ a (by omega) hget ha
      omega

/-- The forward walk of `search` collects the longest run of records with the key. -/
theorem searchCollect_eq (items : List BookPolyglotItem) (key : Nat) :
    ∀ (fuel k : Nat) (vec : List BookPolyglotItem), items.length ≤ fuel + k →
      searchCollect items key fuel k vec
        = vec ++ (items.drop k).takeWhile (fun a => decide (a.key = key)) := by
  intro fuel
  induction fuel with
  | zero =>
    intro k vec h
    simp [searchCollect, List.drop_eq_nil_of_le (by omega : items.length ≤ k)]
  | succ fuel ih =>
    intro k vec h
    unfold searchCollect
    by_cases hk : k < items.length
    · rw [List.drop_eq_getElem_cons hk]
      simp only [List.get?_eq_getElem?, List.getElem?_eq_getElem hk]
      by_cases hkey : items[k].key = key
      · simp only [hkey, if_true, List.takeWhile_cons, decide_True]
        rw [ih (k + 1) _ (by omega)]
        simp
      · simp only [hkey, if_false, List.takeWhile_cons, decide_False]
        simp
    · have hnone : items[k]? = none := List.getElem?_eq_none (by omega)
      simp [hnone, List.drop_eq_nil_of_le (by omega : items.length ≤ k)]

/-- In a sorted list that starts at the key or above, the records with the key are the
longest prefix of records with the key. -/
theorem filter_eq_takeWhile_sorted (key : Nat) :
    ∀ (l : List BookPolyglotItem), l.Pairwise (fun a b => a.key ≤ b.key) →
      (∀ a ∈ l, key ≤ a.key) →
      l.filter (fun a => decide (a.key = key)) = l.takeWhile (fun a => decide (a.key = key)) := by
  intro l
  induction l with
  | nil => intro _ _; rfl
  | cons a l ih =>
    intro hs hge
    rw [List.pairwise_cons] at hs
    by_cases hk : a.key = key
    · simp only [List.filter_cons, List.takeWhile_cons, hk, decide_True, if_true]
      rw [ih hs.2 (fun b hb => hge b (List.mem_cons_of_mem _ hb))]
    · have hlt : key < a.key := lt_of_le_of_ne (hge a (List.mem_cons_self _ _)) (Ne.symm hk)
      simp only [List.filter_cons, List.takeWhile_cons, hk, decide_False]
      simp only [Bool.false_eq_true, if_false, List.filter_eq_nil_iff, decide_eq_true_eq]
      intro b hb
      have := hs.1 b hb
      omega

/-- On a sorted array the two loops of `search` around the index the binary search found
collect the records with the key, in array order. -/
theorem search_eq_filter (items : List BookPolyglotItem) (key : Nat)
    (hs : items.Pairwise (fun a b => a.key ≤ b.key)) :
    search items key = some (items.filter (fun a => decide (a.key = key))) := by
  obtain ⟨r, hr, hcase⟩ := binarySearchLoop_sorted items key hs (items.length + 1) 0
    ((items.length : Int) - 1) (le_refl _) (by omega) (by omega) (by push_cast; omega)
    (fun i a hi _ => absurd hi (by omega))
    (fun i a hi ha => absurd (List.getElem?_eq_some.mp ha).1 (by omega))
  unfold search binarySearch
  rw [hr]
  rcases hcase with ⟨hneg, hnone⟩ | ⟨hpos, a, ha, hk⟩
  · subst hneg
    have hnil : items.filter (fun a => decide (a.key = key)) = [] := by
      simp only [List.filter_eq_nil_iff, decide_eq_true_eq]
      exact hnone
    simp [hnil]
  · obtain ⟨⟨b, hb, hbk⟩, hbelow⟩ := searchBack_sorted items key hs r.toNat a ha hk
    have hjlen : searchBack items key r.toNat < items.length := (List.getElem?_eq_some.mp hb).1
    simp only [ge_iff_le, hpos, if_true]
    rw [searchCollect_eq items key items.length _ [] (by omega), List.nil_append]
    congr 1
    have hsplit := List.take_append_drop (searchBack items key r.toNat) items
    have htake : (items.take (searchBack items key r.toNat)).filter
        (fun a => decide (a.key = key)) = [] := by
      simp only [List.filter_eq_nil_iff, decide_eq_true_eq]
      intro c hc
      obtain ⟨i, hi, rfl⟩ := List.getElem_of_mem hc
      have hi2 : i < searchBack items key r.toNat := by
        simpa [List.length_take] using (And.left (by simpa [List.length_take] using hi :
          i < searchBack items key r.toNat ∧ i < items.length))
      have hget : items[i]? = some (List.take (searchBack items key r.toNat) items)[i] := by
        rw [List.getElem?_eq_getElem (by omega : i < items.length)]
        simp [List.getElem_take]
      have := hbelow i _ hi2 hget
      omega
    have hdrop : (items.drop (searchBack items key r.toNat)).filter
        (fun a => decide (a.key = key))
        = (items.drop (searchBack items key r.toNat)).takeWhile
            (fun a => decide (a.key = key)) := by
      apply filter_eq_takeWhile_sorted key _ (hs.sublist (List.drop_sublist _ _))
      intro c hc
      obtain ⟨i, hi, rfl⟩ := List.getElem_of_mem hc
      have hi2 : searchBack items key r.toNat + i < items.length := by
        simp only [List.length_drop] at hi
        omega
      have hget : items[searchBack items key r.toNat + i]?
          = some (List.drop (searchBack items key r.toNat) items)[i] := by
        rw [List.getElem?_eq_getElem hi2]
        simp [List.getElem_drop]
      have := sorted_key_le items hs (searchBack items key r.toNat)
        (searchBack items key r.toNat + i) b _ (by omega) hb hget
      omega
    calc List.takeWhile (fun a => decide (a.key = key))
          (List.drop (searchBack items key r.toNat) items)
        = [] ++ (items.drop (searchBack items key r.toNat)).filter
            (fun a => decide (a.key = key)) := by rw [hdrop, List.nil_append]
      _ = (items.take (searchBack items key r.toNat)
            ++ items.drop (searchBack items key r.toNat)).filter
              (fun a => decide (a.key = key)) := by rw [List.filter_append, htake]
      _ = items.filter (fun a => decide (a.key = key)) := by rw [hsplit]

/-- Claim C6: on an array sorted by key in non-decreasing order, `search(k)` returns exactly
the records whose key is `k`, each once and in array order (the empty list when there is
none). -/
theorem search_sorted (items : List BookPolyglotItem) (key : Nat)
    (hs : items.Pairwise (fun a b => a.key ≤ b.key)) :
    search items key = some (items.filter (fun a => decide (a.key = key))) :=
  search_eq_filter items key hs

/-- Witness of claim C6: key 3 in the demo book. -/
theorem search_sorted_witness :
    demoItems.Pairwise (fun a b => a.key ≤ b.key)
    ∧ search demoItems 3 = some (demoItems.filter (fun a => decide (a.key = 3))) :=
  ⟨by decide, search_sorted demoItems 3 (by decide)⟩

/-! ### The invariant of a game of two engines -/


/-- A player call changes that player only. -/
theorem callPlayer_spec {Pl P T : Type} (g g1 : Game Pl P T) (sd : Side) (c : PlayerCall)
    (op : Pl → Pl) (h : g.callPlayer sd c op = some g1) :
    ∃ p, g.player sd = some p ∧ g1.player sd = some (op p)
      ∧ g1.player sd.other = g.player sd.other ∧ g1.board = g.board
      ∧ g1.timeController = g.timeController := by
  unfold Game.callPlayer at h
  cases hp : g.player sd with
  | none => simp [hp] at h
  | some p =>
    simp only [hp, Option.some.injEq] at h
    subst h
    refine ⟨p, rfl, ?_⟩
    cases sd <;> simp [Game.player, Game.setPlayer, Side.other]

/-- A side is a given side or its opponent. -/
theorem side_cases (sd sd1 : Side) : sd1 = sd ∨ sd1 = sd.other := by
  cases sd <;> cases sd1 <;> simp [Side.other]

/-- The invariant holds after `gameOver`. -/
theorem gameOver_inv {P T : Type} (x : Env P T) (result : Result) (g : Game UciEngine P T)
    (h1 : ∀ (sd : Side) (e : UciEngine), g.player sd = some e → e.FlagsOk)
    (h2 : ∀ e : UciEngine, g.player g.board.side.other = some e →
      e.computingState ≠ EngineComputingState.thinking) :
    (g.gameOver (uciPlayerOps x) result).Inv := by
  have key : ∀ (sd : Side) (e1 : UciEngine),
      (g.gameOver (uciPlayerOps x) result).player sd = some e1 →
      ∃ e, g.player sd = some e ∧ e1 = e.stop.2 := by
    intro sd e1 he1
    rw [gameOver_player] at he1
    cases hp : g.player sd with
    | none => simp [hp] at he1
    | some e =>
      simp only [hp, Option.map_some', Option.some.injEq] at he1
      exact ⟨e, rfl, he1.symm⟩
  have hside : (g.gameOver (uciPlayerOps x) result).board.side = g.board.side := by
    rw [gameOver_board]
  refine ⟨?_, ?_, ?_⟩
  · intro sd e1 he1
    obtain ⟨e, he, rfl⟩ := key sd e1 he1
    exact (stop_effect e (h1 sd e he)).1
  · intro e1 he1
    rw [hside] at he1
    obtain ⟨e, he, rfl⟩ := key _ e1 he1
    rw [(stop_effect e (h1 _ e he)).2.1]
    exact h2 e he
  · intro e1 he1 hpond
    rw [hside] at he1
    obtain ⟨e, he, rfl⟩ := key _ e1 he1
    have hs := stop_effect e (h1 _ e he)
    rw [hs.2.1] at hpond
    exact hs.2.2 hpond

/-- The invariant holds after `go()` on the engine of the side to move. -/
theorem go_side_inv {P T : Type} (x : Env P T) (g g1 : Game UciEngine P T)
    (h1 : ∀ (sd : Side) (e : UciEngine), g.player sd = some e → e.FlagsOk)
    (h2 : ∀ e : UciEngine, g.player g.board.side.other = some e →
      e.computingState ≠ EngineComputingState.thinking)
    (h : g.callPlayer g.board.side PlayerCall.go
      ((uciPlayerOps x).go g.board g.timeController) = some g1) : g1.Inv := by
  obtain ⟨p, hp, hp1, hother, hboard, -⟩ := callPlayer_spec g g1 _ _ _ h
  have hgo := go_effect x g.board g.timeController p (h1 _ p hp)
  refine ⟨?_, ?_, ?_⟩
  · intro sd e he
    rcases side_cases g.board.side sd with hsd | hsd
    · subst hsd
      rw [hp1] at he
      cases he
      exact hgo.1
    · subst hsd
      rw [hother] at he
      exact h1 _ e he
  · intro e he
    rw [hboard, hother] at he
    exact h2 e he
  · intro e he hpond
    rw [hboard, hp1] at he
    cases he
    rcases hgo.2 with ht | ⟨_, hw⟩
    · simp only [uciPlayerOps] at hpond
      rw [ht] at hpond
      cases hpond
    · exact hw

/-- The invariant holds after `startThinking` in a calm game. -/
theorem startThinking_inv {P T : Type} (x : Env P T) (m : Move) (g g1 : Game UciEngine P T)
    (hc : g.Calm) (h : g.startThinking x (uciPlayerOps x) m = some g1) : g1.Inv := by
  unfold Game.startThinking at h
  simp only at h
  split at h
  · cases h
  · rename_i g2 hg2
    obtain ⟨p, hp, hp1, hother, hboard, htc⟩ := callPlayer_spec _ g2 _ _ _ hg2
    have hside : g2.board.side = g.board.side := by rw [hboard]
    have hcalm2 : g2.Calm := by
      intro sd e he
      rcases side_cases g.board.side.other sd with hsd | hsd
      · subst hsd
        rw [hp1] at he
        cases he
        have hp0 : g.player g.board.side.other = some p := hp
        exact goPonder_effect x _ _ m p (hc _ p hp0).1 (hc _ p hp0).2
      · subst hsd
        rw [hother] at he
        exact hc _ e he
    rw [← hside] at h
    exact go_side_inv x g2 g1 (fun sd e he => (hcalm2 sd e he).1)
      (fun e he => (hcalm2 _ e he).2) h

/-- The function `checkTimeOver` keeps the invariant and changes nothing when it answers false. -/
theorem checkTimeOver_inv {P T : Type} (x : Env P T) (g : Game UciEngine P T) (hinv : g.Inv) :
    (g.checkTimeOver x (uciPlayerOps x)).2.Inv
    ∧ ((g.checkTimeOver x (uciPlayerOps x)).1 = false →
        (g.checkTimeOver x (uciPlayerOps x)).2 = g) := by
  unfold Game.checkTimeOver
  by_cases ht : x.isTimeOver g.timeController g.board.side = true
  · simp only [ht, if_true]
    exact ⟨gameOver_inv x _ g hinv.1 hinv.2.1, by simp⟩
  · simp only [ht]
    exact ⟨hinv, fun _ => rfl⟩

/-- The function `moveFromPlayer` keeps the invariant when the sender is idle. -/
theorem moveFromPlayer_inv {P T : Type} (x : Env P T) (moveString ponderMoveString : String)
    (timeConsumed : Int) (side : Side) (oldState : EngineComputingState)
    (g g1 : Game UciEngine P T) (hinv : g.Inv)
    (hidle : ∀ e : UciEngine, g.player side = some e →
      e.computingState = EngineComputingState.idle)
    (h : g.moveFromPlayer x (uciPlayerOps x) moveString ponderMoveString timeConsumed side
      oldState = some g1) : g1.Inv := by
  unfold Game.moveFromPlayer at h
  by_cases hplay : g.state = GameState.playing
  swap
  · simp only [ne_eq, hplay, not_false_eq_true, if_true, Option.some.injEq] at h
    subst h
    exact hinv
  simp only [ne_eq, hplay, not_true_eq_false, if_false] at h
  have hcto := checkTimeOver_inv x g hinv
  by_cases hover : (g.checkTimeOver x (uciPlayerOps x)).1 = true
  · simp only [hover, if_true, Option.some.injEq] at h
    subst h
    exact hcto.1
  have hsame : (g.checkTimeOver x (uciPlayerOps x)).2 = g := hcto.2 (by simpa using hover)
  simp only [hover, hsame] at h
  by_cases hside : g.board.side = side
  swap
  · simp [hside] at h
    subst h
    exact hinv
  subst hside
  simp only [ne_eq, not_true_eq_false, if_false] at h
  have hcalm : g.Calm := by
    intro sd e he
    refine ⟨hinv.1 sd e he, ?_⟩
    rcases side_cases g.board.side sd with hsd | hsd
    · subst hsd
      rw [hidle e he]
      simp
    · subst hsd
      exact hinv.2.1 e he
  by_cases hth : oldState = EngineComputingState.thinking
  · simp only [hth, if_true] at h
    unfold Game.make at h
    simp only at h
    by_cases hacc : (x.checkMake g.board (x.moveFromCoordiateString moveString).src
        (x.moveFromCoordiateString moveString).dest
        (x.moveFromCoordiateString moveString).promotion).1 = true
    · simp only [hacc, if_true] at h
      by_cases hrule : (x.rule (x.checkMake g.board (x.moveFromCoordiateString moveString).src
          (x.moveFromCoordiateString moveString).dest
          (x.moveFromCoordiateString moveString).promotion).2).result = ResultType.noresult
      · simp only [hrule, ne_eq, not_true_eq_false, if_false, if_true] at h
        cases hlast : (x.checkMake g.board (x.moveFromCoordiateString moveString).src
            (x.moveFromCoordiateString moveString).dest
            (x.moveFromCoordiateString moveString).promotion).2.histList.getLast? with
        | none => simp [hlast] at h
        | some lastHist =>
          simp only [hlast, Bool.false_eq_true, if_false] at h
          refine startThinking_inv x _ _ g1 ?_ h
          exact fun sd e he => hcalm sd e he
      · simp only [hrule, ne_eq, not_false_eq_true, if_true, Bool.false_eq_true, if_false,
          Option.some.injEq] at h
        subst h
        exact gameOver_inv x _ _ (fun sd e he => (hcalm sd e he).1)
          (fun e he => (hcalm _ e he).2)
    · simp only [hacc, Bool.false_eq_true, if_false, Option.some.injEq] at h
      subst h
      exact gameOver_inv x _ _ (fun sd e he => (hcalm sd e he).1)
        (fun e he => (hcalm _ e he).2)
  · simp only [hth, if_false] at h
    by_cases hpo : oldState = EngineComputingState.pondering
    · simp only [hpo, if_true] at h
      exact go_side_inv x g g1 hinv.1 hinv.2.1 h
    · simp [hpo] at h
      subst h
      exact hinv

/-- The function `Game::newGame` calls `newGame` on each present player. -/
theorem newGame_player {Pl P T : Type} (x : Env P T) (ops : PlayerOps Pl P T) (g : Game Pl P T)
    (sd : Side) : (g.newGame x ops).player sd = (g.player sd).map ops.newGame := by
  unfold Game.newGame Game.callPlayerIfPresent
  cases sd <;> cases hB : g.playerB <;> cases hW : g.playerW <;>
    simp [Game.player, Game.setPlayer, hB, hW]

/-- The invariant holds after `startPlaying`. -/
theorem startPlaying_inv {P T : Type} (x : Env P T) (g g1 : Game UciEngine P T)
    (h : g.startPlaying x (uciPlayerOps x) = some g1) : g1.Inv := by
  unfold Game.startPlaying at h
  refine startThinking_inv x _ _ g1 ?_ h
  intro sd e he
  have he2 : (g.newGame x (uciPlayerOps x)).player sd = some e := he
  rw [newGame_player] at he2
  cases hp : g.player sd with
  | none => simp [hp] at he2
  | some e0 =>
    simp only [hp, Option.map_some', Option.some.injEq] at he2
    subst he2
    exact newGame_effect x e0

/-- A tick keeps the invariant. -/
theorem tickWork_inv {P T : Type} (x : Env P T) (g g1 : Game UciEngine P T) (hinv : g.Inv)
    (h : g.tickWork x (uciPlayerOps x) = some g1) : g1.Inv := by
  unfold Game.tickWork at h
  split at h
  · simp only at h
    split at h
    · cases h
      exact hinv
    · split at h
      · cases h
        exact hinv
      · split at h
        · cases h
          exact gameOver_inv x _ _ hinv.1 hinv.2.1
        · split at h
          · cases h
          · cases h
            exact gameOver_inv x _ _ hinv.1 hinv.2.1
  · exact startPlaying_inv x g g1 h
  · split at h
    · cases h
      exact hinv
    · split at h
      · cases h
        exact hinv
      · split at h
        · cases h
          exact hinv
        · split at h
          · cases h
            exact (checkTimeOver_inv x g hinv).1
          · cases h
            exact hinv
  · cases h
    exact hinv

/-- Reading the players after one of them changed. -/
theorem player_setPlayer {Pl P T : Type} (g : Game Pl P T) (sd : Side) (p : Pl) :
    (g.setPlayer sd p).player sd = some p
    ∧ (g.setPlayer sd p).player sd.other = g.player sd.other
    ∧ (g.setPlayer sd p).board = g.board := by
  cases sd <;> simp [Game.player, Game.setPlayer, Side.other]

/-- The invariant survives when players stay or become idle. -/
theorem inv_of_players {P T : Type} (g g1 : Game UciEngine P T) (hinv : g.Inv)
    (hside : g1.board.side = g.board.side)
    (hpl : ∀ (sd : Side) (e1 : UciEngine), g1.player sd = some e1 →
      g.player sd = some e1 ∨ e1.computingState = EngineComputingState.idle) : g1.Inv := by
  refine ⟨?_, ?_, ?_⟩
  · intro sd e1 he1
    rcases hpl sd e1 he1 with h | h
    · exact hinv.1 sd e1 h
    · intro hne
      exact absurd h hne
  · intro e1 he1
    rw [hside] at he1
    rcases hpl _ e1 he1 with h | h
    · exact hinv.2.1 e1 h
    · rw [h]
      simp
  · intro e1 he1 hpond
    rw [hside] at he1
    rcases hpl _ e1 he1 with h | h
    · exact hinv.2.2 e1 h hpond
    · rw [h] at hpond
      cases hpond

/-- A `bestmove` line of either engine keeps the invariant. -/
theorem engineLine_inv {P T : Type} (x : Env P T) (side : Side) (line : String)
    (g g1 : Game UciEngine P T) (hinv : g.Inv)
    (h : g.engineLine x side (some UciEngineCmd.bestmove) line = some g1) : g1.Inv := by
  unfold Game.engineLine at h
  cases hp : g.player side with
  | none => simp [hp] at h
  | some e =>
    simp only [hp] at h
    cases hpl : e.parseLine x g.timeController (some UciEngineCmd.bestmove) line with
    | none => simp [hpl] at h
    | some r =>
      obtain ⟨e1, ev⟩ := r
      simp only [hpl] at h
      have hset := player_setPlayer g side e1
      have heff := parseLine_bestmove_effect x g.timeController line e e1 ev hpl
      have hinv1 : (g.setPlayer side e1).Inv := by
        apply inv_of_players g _ hinv (by rw [hset.2.2])
        intro sd e2 he2
        rcases side_cases side sd with hsd | hsd
        · subst hsd
          rw [hset.1] at he2
          cases he2
          rcases heff with ⟨h1, -⟩ | ⟨h1, -⟩
          · left
            rw [hp, h1]
          · right
            exact h1
        · subst hsd
          rw [hset.2.1] at he2
          exact Or.inl he2
      cases ev with
      | none =>
        simp only [Option.some.injEq] at h
        subst h
        exact hinv1
      | some b =>
        simp only at h
        refine moveFromPlayer_inv x _ _ _ side _ _ g1 hinv1 ?_ h
        intro e2 he2
        rw [hset.1] at he2
        cases he2
        rcases heff with ⟨-, h2⟩ | ⟨h1, -⟩
        · cases h2
        · exact h1

/-- Every reachable state of a game of two engines satisfies the invariant. -/
theorem reachable_inv {P T : Type} (x : Env P T) (g : Game UciEngine P T)
    (h : Reachable x g) : g.Inv := by
  induction h with
  | start g0 g hstart => exact startPlaying_inv x g0 g hstart
  | tick g g1 _ hstep ih => exact tickWork_inv x g g1 ih hstep
  | bestmove side line g g1 _ hstep ih => exact engineLine_inv x side line g g1 ih hstep
  | clock tc g _ ih => exact ih


/-- The concrete game after `e2e4` and `c7c5` is reachable. -/
theorem demo_reachable : Reachable demoEnv demoAfterBlack := by
  have h1 : demoGame.startPlaying demoEnv (uciPlayerOps demoEnv) = some demoStarted := by rfl
  have h2 : demoStarted.engineLine demoEnv Side.white (some UciEngineCmd.bestmove)
      "bestmove e2e4 ponder e7e5" = some demoAfterWhite := by rfl
  have h3 : demoAfterWhite.engineLine demoEnv Side.black (some UciEngineCmd.bestmove)
      "bestmove c7c5 ponder g1f3" = some demoAfterBlack := by rfl
  exact Reachable.bestmove _ _ _ _ (Reachable.bestmove _ _ _ _ (Reachable.start _ _ h1) h2) h3

/-- Claim C8: in every state reachable from `startPlaying()` by ticks and `bestmove` lines
(and the passing of time), the two engines of the game are not both thinking. -/
theorem at_most_one_thinking {P T : Type} (x : Env P T) (g : Game UciEngine P T)
    (h : Reachable x g) (eW eB : UciEngine) (hW : g.playerW = some eW)
    (hB : g.playerB = some eB) :
    ¬ (eW.computingState = EngineComputingState.thinking
      ∧ eB.computingState = EngineComputingState.thinking) := by
  have hinv := (reachable_inv x g h).2.1
  rintro ⟨h1, h2⟩
  cases hs : g.board.side with
  | black =>
    rw [hs] at hinv
    exact hinv eW hW h1
  | white =>
    rw [hs] at hinv
    exact hinv eB hB h2

/-- Witness of claim C8: the demo game after `e2e4` and `c7c5`. -/
theorem at_most_one_thinking_witness :
    Reachable demoEnv demoAfterBlack
    ∧ demoAfterBlack.playerW = some (demoAfterBlack.playerW.getD demoEngine)
    ∧ demoAfterBlack.playerB = some (demoAfterBlack.playerB.getD demoEngine)
    ∧ ¬ ((demoAfterBlack.playerW.getD demoEngine).computingState
          = EngineComputingState.thinking
        ∧ (demoAfterBlack.playerB.getD demoEngine).computingState
          = EngineComputingState.thinking) :=
  ⟨demo_reachable, rfl, rfl,
    at_most_one_thinking demoEnv demoAfterBlack demo_reachable _ _ rfl rfl⟩

/-- Claim C9 as stated fails: after white predicted `e7e5` and black played `c7c5`, white is
to move and its engine is still pondering (it was sent `stop` and has not answered yet). -/
theorem pondering_engine_to_move :
    ¬ (∀ g : Game UciEngine Nat Bool, Reachable demoEnv g →
        ∀ e : UciEngine, g.player g.board.side = some e →
          e.computingState ≠ EngineComputingState.pondering) := by
  intro hall
  have h := hall demoAfterBlack demo_reachable
  have hside : demoAfterBlack.board.side = Side.white := by rfl
  have hcs : (demoAfterBlack.player Side.white).map (fun e => e.computingState)
      = some EngineComputingState.pondering := by rfl
  rw [hside] at h
  cases hp : demoAfterBlack.player Side.white with
  | none => simp [hp] at hcs
  | some e =>
    simp only [hp, Option.map_some', Option.some.injEq] at hcs
    exact h e hp hcs

/-- Claim C9, amended: in every state reachable from `startPlaying()` by ticks and `bestmove`
lines, the engine of the side to move is pondering only while a `stop` is the last line
written to it (a ponder miss awaiting the discarded bestmove, or the end of the game). -/
theorem pondering_to_move_was_stopped {P T : Type} (x : Env P T) (g : Game UciEngine P T)
    (h : Reachable x g) (e : UciEngine) (he : g.player g.board.side = some e)
    (hp : e.computingState = EngineComputingState.pondering) :
    e.written.getLast? = some "stop" :=
  (reachable_inv x g h).2.2 e he hp

/-- Witness of the amended claim C9: white in the demo game after `e2e4` and `c7c5`. -/
theorem pondering_to_move_was_stopped_witness :
    Reachable demoEnv demoAfterBlack
    ∧ demoAfterBlack.player demoAfterBlack.board.side
        = some ((demoAfterBlack.player demoAfterBlack.board.side).getD demoEngine)
    ∧ ((demoAfterBlack.player demoAfterBlack.board.side).getD demoEngine).computingState
        = EngineComputingState.pondering
    ∧ ((demoAfterBlack.player demoAfterBlack.board.side).getD demoEngine).written.getLast?
        = some "stop" :=
  ⟨demo_reachable, rfl, rfl,
    pondering_to_move_was_stopped demoEnv demoAfterBlack demo_reachable _ rfl rfl⟩

/-! ### Claims on the game: dropped and discarded events, start and crash -/

/-- A call on a present player: the player changes and the call is recorded. -/
theorem callPlayer_present {Pl P T : Type} (g : Game Pl P T) (sd : Side) (c : PlayerCall)
    (op : Pl → Pl) (p : Pl) (hp : g.player sd = some p) :
    g.callPlayer sd c op
      = some { (g.setPlayer sd (op p)) with calls := g.calls ++ [(sd, c)] } := by
  simp [Game.callPlayer, hp]

/-- Fields a change of one player leaves. -/
theorem setPlayer_fields {Pl P T : Type} (g : Game Pl P T) (sd : Side) (p : Pl) :
    (g.setPlayer sd p).state = g.state ∧ (g.setPlayer sd p).board = g.board
    ∧ (g.setPlayer sd p).timeController = g.timeController
    ∧ (g.setPlayer sd p).calls = g.calls ∧ (g.setPlayer sd p).ponderMode = g.ponderMode := by
  cases sd <;> simp [Game.setPlayer]

/-- Claim C11, amended: in a playing game, a bestmove event whose side is not the side to
move leaves the whole game unchanged (board, result, state, clock, players) when the time of
the side to move is not over; in any case the board history is unchanged. -/
theorem moveFromPlayer_wrong_side {Pl P T : Type} (x : Env P T) (ops : PlayerOps Pl P T)
    (g : Game Pl P T) (moveString ponderMoveString : String) (timeConsumed : Int) (side : Side)
    (oldState : EngineComputingState)
    (hplay : g.state = GameState.playing) (hside : side ≠ g.board.side) :
    (x.isTimeOver g.timeController g.board.side = false →
      g.moveFromPlayer x ops moveString ponderMoveString timeConsumed side oldState = some g)
    ∧ ∃ g1, g.moveFromPlayer x ops moveString ponderMoveString timeConsumed side oldState
          = some g1
        ∧ g1.board.histList = g.board.histList := by
  have hne : ¬ (g.board.side = side) := fun h => hside h.symm
  by_cases hover : x.isTimeOver g.timeController g.board.side = true
  · refine ⟨fun h => absurd (hover.symm.trans h) (by decide), g.gameOver ops
      (lossFor g.board.side ReasonType.timeout), ?_, ?_⟩
    · simp [Game.moveFromPlayer, Game.checkTimeOver, hplay, hover, lossFor]
    · simp [gameOver_board]
  · have h1 : g.moveFromPlayer x ops moveString ponderMoveString timeConsumed side oldState
        = some g := by
      simp [Game.moveFromPlayer, Game.checkTimeOver, hplay, hover, hne]
    exact ⟨fun _ => h1, g, h1, rfl⟩

/-- Claim C11 as stated fails: a bestmove of black reaches the demo game while white is to
move and white's flag has fallen; the game is stopped with the result loss by timeout. -/
theorem moveFromPlayer_wrong_side_late :
    demoLate.state = GameState.playing
    ∧ Side.black ≠ demoLate.board.side
    ∧ demoLate.board.result = { result := ResultType.noresult, reason := ReasonType.noreason }
    ∧ (demoLate.moveFromPlayer demoEnv (uciPlayerOps demoEnv) "e7e5" "" 5 Side.black
        EngineComputingState.thinking).map (fun g => (g.state, g.board.result))
      = some (GameState.stopped,
          { result := ResultType.loss, reason := ReasonType.timeout }) := by
  refine ⟨rfl, by decide, rfl, rfl⟩

/-- Claim C12: in a playing game whose clock is not over, a bestmove of the side to move
received with old state `pondering` leaves board, clock and state as they were and makes one
player call, `go()` on the player of the side to move; the other player is unchanged. -/
theorem moveFromPlayer_discarded {Pl P T : Type} (x : Env P T) (ops : PlayerOps Pl P T)
    (g : Game Pl P T) (moveString ponderMoveString : String) (timeConsumed : Int) (p : Pl)
    (hplay : g.state = GameState.playing)
    (hclock : x.isTimeOver g.timeController g.board.side = false)
    (hp : g.player g.board.side = some p) :
    ∃ g1, g.moveFromPlayer x ops moveString ponderMoveString timeConsumed g.board.side
          EngineComputingState.pondering = some g1
      ∧ g1.board = g.board
      ∧ g1.timeController = g.timeController
      ∧ g1.state = g.state
      ∧ g1.calls = g.calls ++ [(g.board.side, PlayerCall.go)]
      ∧ g1.player g.board.side = some (ops.go g.board g.timeController p)
      ∧ g1.player g.board.side.other = g.player g.board.side.other := by
  refine ⟨{ (g.setPlayer g.board.side (ops.go g.board g.timeController p)) with
      calls := g.calls ++ [(g.board.side, PlayerCall.go)] }, ?_, ?_⟩
  · simp [Game.moveFromPlayer, Game.checkTimeOver, hplay, hclock,
      callPlayer_present g g.board.side _ _ p hp]
  · have hs := setPlayer_fields g g.board.side (ops.go g.board g.timeController p)
    have hpl := player_setPlayer g g.board.side (ops.go g.board g.timeController p)
    exact ⟨hs.2.1, hs.2.2.1, hs.1, rfl, hpl.1, hpl.2.1⟩

/-- Claim C13: for an engine that ponders and expects a bestmove, on a board whose history
is empty or ends with a valid move other than the pondered one, `go()` writes the single line
`stop` and leaves `computingState = pondering` and `expectingBestmove = true`. -/
theorem go_ponder_miss {P T : Type} (x : Env P T) (board : Board P) (tc : T)
    (e : UciEngine)
    (hill : x.isValid x.illegalMoveFull = false)
    (hstate : e.computingState = EngineComputingState.pondering)
    (hexp : e.expectingBestmove = true)
    (hlast : ∀ h, board.histList.getLast? = some h →
      h.move ≠ e.ponderingMove ∧ x.isValid h.move = true) :
    (e.go x board tc).2.written = e.written ++ ["stop"]
    ∧ (e.go x board tc).2.computingState = EngineComputingState.pondering
    ∧ (e.go x board tc).2.expectingBestmove = true := by
  cases hl : board.histList.getLast? with
  | none =>
    simp [UciEngine.go, hstate, hl, UciEngine.stop, hexp, UciEngine.write]
  | some h =>
    have hne : ¬ (h.move = x.illegalMoveFull) := by
      intro hcon
      have hv := (hlast h hl).2
      rw [hcon, hill] at hv
      exact Bool.noConfusion hv
    simp [UciEngine.go, hstate, hl, hne, UciEngine.stop, hexp, UciEngine.write]

/-- Fields a guarded player call leaves, and the calls it adds. -/
theorem callPlayerIfPresent_fields {Pl P T : Type} (g : Game Pl P T) (sd : Side)
    (c : PlayerCall) (op : Pl → Pl) :
    (g.callPlayerIfPresent sd c op).state = g.state
    ∧ (g.callPlayerIfPresent sd c op).board = g.board
    ∧ (g.callPlayerIfPresent sd c op).timeController = g.timeController
    ∧ (g.callPlayerIfPresent sd c op).ponderMode = g.ponderMode
    ∧ (g.callPlayerIfPresent sd c op).startMoves = g.startMoves
    ∧ (g.callPlayerIfPresent sd c op).startFen = g.startFen
    ∧ (g.callPlayerIfPresent sd c op).calls
        = g.calls ++ (if (g.player sd).isSome then [(sd, c)] else []) := by
  unfold Game.callPlayerIfPresent
  cases hp : g.player sd <;> cases sd <;> simp [Game.setPlayer]

/-- Fields an unguarded player call leaves, and the call it adds. -/
theorem callPlayer_fields {Pl P T : Type} (g g1 : Game Pl P T) (sd : Side) (c : PlayerCall)
    (op : Pl → Pl) (h : g.callPlayer sd c op = some g1) :
    g1.state = g.state ∧ g1.board = g.board ∧ g1.timeController = g.timeController
    ∧ g1.ponderMode = g.ponderMode ∧ g1.calls = g.calls ++ [(sd, c)] := by
  unfold Game.callPlayer at h
  cases hp : g.player sd with
  | none => simp [hp] at h
  | some p =>
    simp only [hp, Option.some.injEq] at h
    subst h
    cases sd <;> simp [Game.setPlayer]

/-- What `startThinking` leaves and adds when it returns. -/
theorem startThinking_fields {Pl P T : Type} (x : Env P T) (ops : PlayerOps Pl P T) (m : Move)
    (g g1 : Game Pl P T) (h : g.startThinking x ops m = some g1) :
    g1.state = g.state ∧ g1.board = g.board ∧ g1.ponderMode = g.ponderMode
    ∧ g1.timeController
        = x.setupClocksBeforeThinking g.timeController (g.board.histList.length : Int)
    ∧ g1.calls = g.calls ++ [(g.board.side.other, PlayerCall.goPonder m),
        (g.board.side, PlayerCall.go)] := by
  unfold Game.startThinking at h
  simp only at h
  split at h
  · cases h
  · rename_i g2 hg2
    have h2 := callPlayer_fields _ g2 _ _ _ hg2
    have h1 := callPlayer_fields _ g1 _ _ _ h
    refine ⟨h1.1.trans h2.1, h1.2.1.trans h2.2.1, h1.2.2.2.1.trans h2.2.2.2.1,
      h1.2.2.1.trans h2.2.2.1, ?_⟩
    rw [h1.2.2.2.2, h2.2.2.2.2]
    simp

/-- With both players present `startThinking` returns. -/
theorem startThinking_returns {Pl P T : Type} (x : Env P T) (ops : PlayerOps Pl P T) (m : Move)
    (g : Game Pl P T) (pB pW : Pl) (hB : g.playerB = some pB) (hW : g.playerW = some pW) :
    ∃ g1, g.startThinking x ops m = some g1 := by
  unfold Game.startThinking Game.callPlayer
  cases hs : g.board.side <;> simp [Game.player, Game.setPlayer, Side.other, hB, hW, hs]

/-- The function `gameOver` leaves the pondering mode. -/
theorem gameOver_ponderMode {Pl P T : Type} (ops : PlayerOps Pl P T) (result : Result)
    (g : Game Pl P T) : (g.gameOver ops result).ponderMode = g.ponderMode := by
  unfold Game.gameOver Game.callPlayerIfPresent
  cases hB : g.playerB <;> cases hW : g.playerW <;>
    simp [Game.player, Game.setPlayer, hB, hW]

/-- What `Game::newGame` leaves and adds. -/
theorem newGame_fields {Pl P T : Type} (x : Env P T) (ops : PlayerOps Pl P T)
    (g : Game Pl P T) :
    (g.newGame x ops).state = GameState.begin
    ∧ (g.newGame x ops).board = g.openingBoard x
    ∧ (g.newGame x ops).timeController = g.timeController
    ∧ (g.newGame x ops).ponderMode = g.ponderMode
    ∧ (g.newGame x ops).calls
        = g.calls ++ ((if g.playerB.isSome then [(Side.black, PlayerCall.newGame)] else [])
            ++ (if g.playerW.isSome then [(Side.white, PlayerCall.newGame)] else [])) := by
  unfold Game.newGame Game.callPlayerIfPresent Game.openingBoard
  cases hB : g.playerB <;> cases hW : g.playerW <;>
    simp [Game.player, Game.setPlayer, hB, hW]

/-- Calls that are not `goPonder` calls keep `PonderOff`. -/
theorem ponderOff_append {Pl P T : Type} (x : Env P T) (g g1 : Game Pl P T)
    (added : List (Side × PlayerCall)) (hoff : g.PonderOff x)
    (hmode : g1.ponderMode = g.ponderMode) (hcalls : g1.calls = g.calls ++ added)
    (hadded : ∀ (sd : Side) (m : Move), (sd, PlayerCall.goPonder m) ∈ added →
      m = x.illegalMove) : g1.PonderOff x := by
  refine ⟨hmode.trans hoff.1, ?_⟩
  intro sd m hm
  rw [hcalls, List.mem_append] at hm
  rcases hm with hm | hm
  · exact hoff.2 sd m hm
  · exact hadded sd m hm

/-- The function `gameOver` keeps `PonderOff`. -/
theorem gameOver_ponderOff {Pl P T : Type} (x : Env P T) (ops : PlayerOps Pl P T)
    (result : Result) (g : Game Pl P T) (hoff : g.PonderOff x) :
    (g.gameOver ops result).PonderOff x := by
  apply ponderOff_append x g _ g.stopCalls hoff (gameOver_ponderMode ops result g)
    (gameOver_calls ops result g)
  intro sd m hm
  unfold Game.stopCalls at hm
  cases hB : g.playerB <;> cases hW : g.playerW <;> simp [hB, hW] at hm

/-- The function `startThinking` given the illegal move keeps `PonderOff`. -/
theorem startThinking_ponderOff {Pl P T : Type} (x : Env P T) (ops : PlayerOps Pl P T)
    (g g1 : Game Pl P T) (hoff : g.PonderOff x)
    (h : g.startThinking x ops x.illegalMove = some g1) : g1.PonderOff x := by
  have hf := startThinking_fields x ops _ g g1 h
  apply ponderOff_append x g g1 _ hoff hf.2.2.1 hf.2.2.2.2
  intro sd m hm
  simp at hm
  exact hm.2

/-- The function `startPlaying` keeps `PonderOff`. -/
theorem startPlaying_ponderOff {Pl P T : Type} (x : Env P T) (ops : PlayerOps Pl P T)
    (g g1 : Game Pl P T) (hoff : g.PonderOff x)
    (h : g.startPlaying x ops = some g1) : g1.PonderOff x := by
  unfold Game.startPlaying at h
  have hn := newGame_fields x ops g
  refine startThinking_ponderOff x ops _ g1 ?_ h
  apply ponderOff_append x g _ _ hoff hn.2.2.2.1 hn.2.2.2.2
  intro sd m hm
  cases hB : g.playerB <;> cases hW : g.playerW <;> simp [hB, hW] at hm

/-- A tick keeps `PonderOff`. -/
theorem tickWork_ponderOff {Pl P T : Type} (x : Env P T) (ops : PlayerOps Pl P T)
    (g g1 : Game Pl P T) (hoff : g.PonderOff x)
    (h : g.tickWork x ops = some g1) : g1.PonderOff x := by
  unfold Game.tickWork at h
  split at h
  · simp only at h
    split at h
    · cases h
      exact hoff
    · split at h
      · cases h
        exact hoff
      · split at h
        · cases h
          exact gameOver_ponderOff x ops _ _ hoff
        · split at h
          · cases h
          · cases h
            exact gameOver_ponderOff x ops _ _ hoff
  · exact startPlaying_ponderOff x ops g g1 hoff h
  · split at h
    · cases h
      exact hoff
    · split at h
      · cases h
        exact hoff
      · split at h
        · cases h
          exact hoff
        · split at h
          · cases h
            unfold Game.checkTimeOver
            split
            · exact gameOver_ponderOff x ops _ _ hoff
            · exact hoff
          · cases h
            exact hoff
  · cases h
    exact hoff

/-- The function `moveFromPlayer` keeps `PonderOff`. -/
theorem moveFromPlayer_ponderOff {Pl P T : Type} (x : Env P T) (ops : PlayerOps Pl P T)
    (moveString ponderMoveString : String) (timeConsumed : Int) (side : Side)
    (oldState : EngineComputingState) (g g1 : Game Pl P T) (hoff : g.PonderOff x)
    (h : g.moveFromPlayer x ops moveString ponderMoveString timeConsumed side oldState
      = some g1) : g1.PonderOff x := by
  unfold Game.moveFromPlayer at h
  split at h
  · cases h
    exact hoff
  · simp only at h
    unfold Game.checkTimeOver at h
    split at h
    · simp only [if_true, Option.some.injEq] at h
      subst h
      exact gameOver_ponderOff x ops _ _ hoff
    · simp only [Bool.false_eq_true, if_false] at h
      split at h
      · cases h
        exact hoff
      · split at h
        · unfold Game.make at h
          simp only at h
          split at h
          · split at h
            · simp only [Bool.false_eq_true, if_false, Option.some.injEq] at h
              subst h
              exact gameOver_ponderOff x ops _ _ hoff
            · simp only [if_true] at h
              split at h
              · cases h
              · simp only [hoff.1, Bool.false_eq_true, if_false] at h
                refine startThinking_ponderOff x ops _ g1 ?_ h
                exact ⟨rfl, hoff.2⟩
          · simp only [Bool.false_eq_true, if_false, Option.some.injEq] at h
            subst h
            exact gameOver_ponderOff x ops _ _ hoff
        · split at h
          · have hf := callPlayer_fields _ g1 _ _ _ h
            apply ponderOff_append x g g1 _ hoff hf.2.2.2.1 hf.2.2.2.2
            intro sd m hm
            simp at hm
          · cases h
            exact hoff

/-- A run of a game keeps `PonderOff`. -/
theorem runs_ponderOff {Pl P T : Type} (x : Env P T) (ops : PlayerOps Pl P T)
    (g0 g : Game Pl P T) (hoff : g0.PonderOff x) (h : Game.Runs x ops g0 g) :
    g.PonderOff x := by
  induction h with
  | start => exact hoff
  | tick g1 g2 _ hstep ih => exact tickWork_ponderOff x ops g1 g2 ih hstep
  | bestmove g1 g2 ms pms t side old _ hstep ih =>
    exact moveFromPlayer_ponderOff x ops ms pms t side old g1 g2 ih hstep
  | player g1 sd p _ ih =>
    have hs := setPlayer_fields g1 sd p
    exact ⟨hs.2.2.2.2.trans ih.1, fun sd1 m hm => ih.2 sd1 m (by rw [← hs.2.2.2.1]; exact hm)⟩
  | clock g1 tc _ ih => exact ih

/-- Claim C16: a tick in state `begin` returns, and the game is then in state `ready` exactly
when both player slots are filled and both players are in state `ready`; in that case nothing
but the state of the game changed. -/
theorem tickWork_begin_ready {Pl P T : Type} (x : Env P T) (ops : PlayerOps Pl P T)
    (g : Game Pl P T) (hbegin : g.state = GameState.begin) :
    ∃ g1, g.tickWork x ops = some g1
      ∧ (g1.state = GameState.ready ↔
          ∃ pB pW, g.playerB = some pB ∧ g.playerW = some pW
            ∧ ops.getState pB = PlayerState.ready ∧ ops.getState pW = PlayerState.ready)
      ∧ (g1.state = GameState.ready → g1 = { g with state := GameState.ready }) := by
  rcases g with ⟨st, pB, pW, board, tc, pm, idx, sf, sm, calls⟩
  simp only at hbegin
  subst hbegin
  cases pB with
  | none =>
    cases pW with
    | none => simp [Game.tickWork, Game.countState]
    | some w =>
      by_cases hwr : ops.getState w = PlayerState.ready <;>
      by_cases hws : ops.getState w = PlayerState.stopped <;>
      simp_all [Game.tickWork, Game.countState, gameOver_state]
  | some b =>
    cases pW with
    | none =>
      by_cases hbr : ops.getState b = PlayerState.ready <;>
      by_cases hbs : ops.getState b = PlayerState.stopped <;>
      simp_all [Game.tickWork, Game.countState, gameOver_state]
    | some w =>
      by_cases hbr : ops.getState b = PlayerState.ready <;>
      by_cases hwr : ops.getState w = PlayerState.ready <;>
      by_cases hbs : ops.getState b = PlayerState.stopped <;>
      by_cases hws : ops.getState w = PlayerState.stopped <;>
      simp_all [Game.tickWork, Game.countState, gameOver_state]

/-- Claim C17, amended: in state `begin` with both player slots filled and at least one
player stopped, the tick stops the game with reason `crash` once each player is ready or
stopped; while a player is neither, the tick leaves the game as it was. -/
theorem tickWork_begin_crash {Pl P T : Type} (x : Env P T) (ops : PlayerOps Pl P T)
    (g : Game Pl P T) (pB pW : Pl) (hbegin : g.state = GameState.begin)
    (hB : g.playerB = some pB) (hW : g.playerW = some pW)
    (hone : ops.getState pB = PlayerState.stopped ∨ ops.getState pW = PlayerState.stopped) :
    ((ops.getState pB = PlayerState.ready ∨ ops.getState pB = PlayerState.stopped)
        ∧ (ops.getState pW = PlayerState.ready ∨ ops.getState pW = PlayerState.stopped) →
      ∃ g1, g.tickWork x ops = some g1 ∧ g1.state = GameState.stopped
        ∧ g1.board.result.reason = ReasonType.crash)
    ∧ (¬ ((ops.getState pB = PlayerState.ready ∨ ops.getState pB = PlayerState.stopped)
        ∧ (ops.getState pW = PlayerState.ready ∨ ops.getState pW = PlayerState.stopped)) →
      g.tickWork x ops = some g) := by
  rcases g with ⟨st, b, w, board, tc, pm, idx, sf, sm, calls⟩
  simp only at hbegin hB hW
  subst hbegin hB hW
  by_cases hbr : ops.getState pB = PlayerState.ready <;>
  by_cases hwr : ops.getState pW = PlayerState.ready <;>
  by_cases hbs : ops.getState pB = PlayerState.stopped <;>
  by_cases hws : ops.getState pW = PlayerState.stopped <;>
  simp_all [Game.tickWork, Game.countState, gameOver_state, gameOver_board]

/-- Claim C17 as stated fails: white has stopped while black is still starting; the tick
leaves the game in state `begin` without a result. -/
theorem tickWork_begin_waiting :
    demoWaiting.state = GameState.begin
    ∧ demoWaiting.playerW.map (uciPlayerOps demoEnv).getState = some PlayerState.stopped
    ∧ (demoWaiting.tickWork demoEnv (uciPlayerOps demoEnv)).map
        (fun g => (g.state, g.board.result))
      = some (GameState.begin,
          { result := ResultType.noresult, reason := ReasonType.noreason }) := by
  refine ⟨rfl, rfl, rfl⟩

/-- Claim C18: when a tick in state `begin` stops the game, the reason is `crash`, a player
is stopped, and the outcome is a draw if both players are stopped, a loss if only white is
stopped and a win if only black is stopped. -/
theorem tickWork_begin_outcome {Pl P T : Type} (x : Env P T) (ops : PlayerOps Pl P T)
    (g g1 : Game Pl P T) (hbegin : g.state = GameState.begin)
    (h : g.tickWork x ops = some g1) (hstop : g1.state = GameState.stopped) :
    g1.board.result.reason = ReasonType.crash
    ∧ (g.playerW.map ops.getState = some PlayerState.stopped
        ∨ g.playerB.map ops.getState = some PlayerState.stopped)
    ∧ (g.playerW.map ops.getState = some PlayerState.stopped →
        g.playerB.map ops.getState = some PlayerState.stopped →
        g1.board.result.result = ResultType.draw)
    ∧ (g.playerW.map ops.getState = some PlayerState.stopped →
        g.playerB.map ops.getState ≠ some PlayerState.stopped →
        g1.board.result.result = ResultType.loss)
    ∧ (g.playerW.map ops.getState ≠ some PlayerState.stopped →
        g.playerB.map ops.getState = some PlayerState.stopped →
        g1.board.result.result = ResultType.win) := by
  rcases g with ⟨st, pB, pW, board, tc, pm, idx, sf, sm, calls⟩
  simp only at hbegin
  subst hbegin
  cases pB with
  | none =>
    cases pW with
    | none =>
      simp [Game.tickWork, Game.countState] at h
      subst h
      simp at hstop
    | some w =>
      by_cases hwr : ops.getState w = PlayerState.ready <;>
      by_cases hws : ops.getState w = PlayerState.stopped <;>
      simp_all [Game.tickWork, Game.countState] <;>
      (subst h; simp at hstop)
  | some b =>
    cases pW with
    | none =>
      by_cases hbr : ops.getState b = PlayerState.ready <;>
      by_cases hbs : ops.getState b = PlayerState.stopped <;>
      simp_all [Game.tickWork, Game.countState] <;>
      (subst h; simp at hstop)
    | some w =>
      by_cases hbr : ops.getState b = PlayerState.ready <;>
      by_cases hwr : ops.getState w = PlayerState.ready <;>
      by_cases hbs : ops.getState b = PlayerState.stopped <;>
      by_cases hws : ops.getState w = PlayerState.stopped <;>
      simp_all [Game.tickWork, Game.countState] <;>
      (subst h; simp_all [gameOver_state, gameOver_board])

/-- Claim C15 fails on the code: `moveFromPlayer` assigns the consumed time to a copy of the
last history entry.  Whatever the consumed time, the board history after a bestmove received
with old state `thinking` is the history `checkMake` left. -/
theorem elapsed_not_recorded {Pl P T : Type} (x : Env P T) (ops : PlayerOps Pl P T)
    (g g1 : Game Pl P T) (moveString ponderMoveString : String) (timeConsumed : Int)
    (hplay : g.state = GameState.playing)
    (hclock : x.isTimeOver g.timeController g.board.side = false)
    (h : g.moveFromPlayer x ops moveString ponderMoveString timeConsumed g.board.side
      EngineComputingState.thinking = some g1) :
    g1.board.histList
      = (x.checkMake g.board (x.moveFromCoordiateString moveString).src
          (x.moveFromCoordiateString moveString).dest
          (x.moveFromCoordiateString moveString).promotion).2.histList := by
  unfold Game.moveFromPlayer at h
  simp only [hplay, ne_eq, not_true_eq_false, if_false, Game.checkTimeOver, hclock,
    Bool.false_eq_true, if_true] at h
  unfold Game.make at h
  simp only at h
  split at h
  · split at h
    · simp only [Bool.false_eq_true, if_false, Option.some.injEq] at h
      subst h
      rw [gameOver_board]
    · simp only [if_true] at h
      split at h
      · cases h
      · have hf := startThinking_fields x ops _ _ g1 h
        rw [hf.2.1]
  · simp only [Bool.false_eq_true, if_false, Option.some.injEq] at h
    subst h
    rw [gameOver_board]

/-- Replaying start moves that are all valid makes every one of them. -/
theorem replay_all_valid {P T : Type} (x : Env P T) :
    ∀ (moves : List Move) (b : Board P), (∀ m ∈ moves, x.isValid m = true) →
      moves.foldl (fun b m => if x.isValid m then x.boardMake b m.src m.dest m.promotion else b) b
        = moves.foldl (fun b m => x.boardMake b m.src m.dest m.promotion) b := by
  intro moves
  induction moves with
  | nil => intro b _; rfl
  | cons m rest ih =>
    intro b hv
    simp only [List.foldl_cons, hv m (List.mem_cons_self _ _), if_true]
    exact ih _ (fun m1 hm1 => hv m1 (List.mem_cons_of_mem _ hm1))

/-- Each replayed move adds one history entry. -/
theorem replay_length {P T : Type} (x : Env P T)
    (hmake : ∀ (b : Board P) (s d : Int) (p : PieceType),
      (x.boardMake b s d p).histList.length = b.histList.length + 1) :
    ∀ (moves : List Move) (b : Board P),
      (moves.foldl (fun b m => x.boardMake b m.src m.dest m.promotion) b).histList.length
        = b.histList.length + moves.length := by
  intro moves
  induction moves with
  | nil => intro b; rfl
  | cons m rest ih =>
    intro b
    simp only [List.foldl_cons, List.length_cons]
    rw [ih, hmake]
    omega

/-- With both players present `startPlaying` returns, and what it returns. -/
theorem startPlaying_spec {Pl P T : Type} (x : Env P T) (ops : PlayerOps Pl P T)
    (g : Game Pl P T) (pB pW : Pl) (hB : g.playerB = some pB) (hW : g.playerW = some pW) :
    ∃ g1, g.startPlaying x ops = some g1
      ∧ g1.state = GameState.playing
      ∧ g1.board = g.openingBoard x
      ∧ g1.timeController = x.setupClocksBeforeThinking g.timeController
          ((g.openingBoard x).histList.length : Int)
      ∧ g1.calls = g.calls ++ [(Side.black, PlayerCall.newGame), (Side.white, PlayerCall.newGame),
          ((g.openingBoard x).side.other, PlayerCall.goPonder x.illegalMove),
          ((g.openingBoard x).side, PlayerCall.go)] := by
  have hn := newGame_fields x ops g
  have hpl := newGame_player x ops g
  obtain ⟨g1, hg1⟩ := startThinking_returns x ops x.illegalMove
    { (g.newGame x ops) with state := GameState.playing } (ops.newGame pB) (ops.newGame pW)
    (by have := hpl Side.black; simpa [Game.player, hB] using this)
    (by have := hpl Side.white; simpa [Game.player, hW] using this)
  have hf := startThinking_fields x ops _ _ g1 hg1
  refine ⟨g1, hg1, hf.1, ?_, ?_, ?_⟩
  · rw [hf.2.1]
    exact hn.2.1
  · rw [hf.2.2.2.1]
    simp only [hn.2.1, hn.2.2.1]
  · rw [hf.2.2.2.2]
    simp only [hn.2.1, hn.2.2.2.2, hB, hW]
    simp

/-- The opponent of the opponent. -/
theorem other_other (sd : Side) : sd.other.other = sd := by
  cases sd <;> rfl

/-- The players after `startThinking`: the one to move was told to go, the other to ponder. -/
theorem startThinking_players {Pl P T : Type} (x : Env P T) (ops : PlayerOps Pl P T) (m : Move)
    (g g1 : Game Pl P T) (h : g.startThinking x ops m = some g1) :
    ∃ p q, g.player g1.board.side = some p ∧ g.player g1.board.side.other = some q
      ∧ g1.player g1.board.side = some (ops.go g1.board g1.timeController p)
      ∧ g1.player g1.board.side.other
          = some (ops.goPonder g1.board g1.timeController m q) := by
  have hf := startThinking_fields x ops m g g1 h
  rw [hf.2.1, hf.2.2.2.1]
  unfold Game.startThinking at h
  simp only at h
  split at h
  · cases h
  · rename_i g2 hg2
    obtain ⟨q, hq, hq1, hoth, hb2, htc2⟩ := callPlayer_spec _ g2 _ _ _ hg2
    obtain ⟨p, hp, hp1, hoth1, -, -⟩ := callPlayer_spec _ g1 _ _ _ h
    rw [other_other] at hoth
    rw [hoth] at hp
    rw [hb2, htc2] at hp1
    refine ⟨p, q, hp, hq, hp1, ?_⟩
    rw [hoth1, hq1]

/-- Claim C19, amended: `startPlaying` makes no legality test.  For every game with two
players, whatever its start moves, it returns with the game in state `playing`, the board
being the reset board on which every start move that passes `isValid` was made with
`board.make`, and the last player call being `go()` on the player of the side to move. -/
theorem startPlaying_no_abort {Pl P T : Type} (x : Env P T) (ops : PlayerOps Pl P T)
    (g : Game Pl P T) (pB pW : Pl) (hB : g.playerB = some pB) (hW : g.playerW = some pW) :
    ∃ g1, g.startPlaying x ops = some g1
      ∧ g1.state = GameState.playing
      ∧ g1.board = g.startMoves.foldl
          (fun b m => if x.isValid m then x.boardMake b m.src m.dest m.promotion else b)
          (x.boardNewGame g.board g.startFen)
      ∧ g1.calls.getLast? = some (g1.board.side, PlayerCall.go) := by
  obtain ⟨g1, h1, h2, h3, -, h5⟩ := startPlaying_spec x ops g pB pW hB hW
  refine ⟨g1, h1, h2, h3, ?_⟩
  rw [h5, h3]
  simp

/-- Claim C19 as stated fails: with the opening `e2e5`, which the rules reject on the reset
board, `startPlaying` makes the move, leaves the game playing without a result and tells
black to go. -/
theorem startPlaying_bad_opening :
    demoBadOpening.state = GameState.ready
    ∧ demoBadOpening.startMoves = [⟨52, 28, PieceType.empty⟩]
    ∧ (demoStrictEnv.checkMake
        (demoStrictEnv.boardNewGame demoBadOpening.board demoBadOpening.startFen)
        52 28 PieceType.empty).1 = false
    ∧ (demoBadOpening.startPlaying demoStrictEnv (uciPlayerOps demoStrictEnv)).map
        (fun g => (g.state, g.board.result.result, g.board.histList.length, g.calls.getLast?))
      = some (GameState.playing, ResultType.noresult, 1, some (Side.black, PlayerCall.go)) := by
  refine ⟨rfl, rfl, rfl, rfl⟩

/-- Claim C20: for a game in state `ready` with two players and start moves that are all
valid, on a board whose `newGame` empties the history and whose `make` adds one entry, a tick
replays the start moves in order on the reset board (history length = number of start moves),
calls `newGame()` on both players, leaves the game playing, sets up the clock with the
history length and calls `go()` on the player of the side to move. -/
theorem tickWork_ready {Pl P T : Type} (x : Env P T) (ops : PlayerOps Pl P T)
    (g : Game Pl P T) (pB pW : Pl) (hready : g.state = GameState.ready)
    (hB : g.playerB = some pB) (hW : g.playerW = some pW)
    (hvalid : ∀ m ∈ g.startMoves, x.isValid m = true)
    (hnew : ∀ (b : Board P) (fen : String), (x.boardNewGame b fen).histList = [])
    (hmake : ∀ (b : Board P) (s d : Int) (p : PieceType),
      (x.boardMake b s d p).histList.length = b.histList.length + 1) :
    ∃ g1, g.tickWork x ops = some g1
      ∧ g1.state = GameState.playing
      ∧ g1.board = g.startMoves.foldl (fun b m => x.boardMake b m.src m.dest m.promotion)
          (x.boardNewGame g.board g.startFen)
      ∧ g1.board.histList.length = g.startMoves.length
      ∧ g1.timeController
          = x.setupClocksBeforeThinking g.timeController (g.startMoves.length : Int)
      ∧ g1.calls = g.calls ++ [(Side.black, PlayerCall.newGame), (Side.white, PlayerCall.newGame),
          (g1.board.side.other, PlayerCall.goPonder x.illegalMove),
          (g1.board.side, PlayerCall.go)]
      ∧ ∃ p q, g.player g1.board.side = some p ∧ g.player g1.board.side.other = some q
          ∧ g1.player g1.board.side
              = some (ops.go g1.board g1.timeController (ops.newGame p))
          ∧ g1.player g1.board.side.other
              = some (ops.goPonder g1.board g1.timeController x.illegalMove (ops.newGame q)) := by
  obtain ⟨g1, h1, h2, h3, h4, h5⟩ := startPlaying_spec x ops g pB pW hB hW
  have hboard : g.openingBoard x = g.startMoves.foldl
      (fun b m => x.boardMake b m.src m.dest m.promotion)
      (x.boardNewGame g.board g.startFen) := replay_all_valid x _ _ hvalid
  have hlen : (g.openingBoard x).histList.length = g.startMoves.length := by
    rw [hboard, replay_length x hmake, hnew]
    simp
  have htick : g.tickWork x ops = g.startPlaying x ops := by
    unfold Game.tickWork
    rw [hready]
  refine ⟨g1, htick.trans h1, h2, h3.trans hboard, by rw [h3, hlen], by rw [h4, hlen],
    by rw [h5, h3], ?_⟩
  unfold Game.startPlaying at h1
  obtain ⟨p1, q1, hp1, hq1, hgo, hpo⟩ := startThinking_players x ops _ _ g1 h1
  have hpl := newGame_player x ops g
  have hp2 : (g.newGame x ops).player g1.board.side = some p1 := hp1
  have hq2 : (g.newGame x ops).player g1.board.side.other = some q1 := hq1
  rw [hpl] at hp2 hq2
  cases hp : g.player g1.board.side with
  | none => simp [hp] at hp2
  | some p =>
    cases hq : g.player g1.board.side.other with
    | none => simp [hq] at hq2
    | some q =>
      simp only [hp, hq, Option.map_some', Option.some.injEq] at hp2 hq2
      subst hp2 hq2
      exact ⟨p, q, rfl, rfl, hgo, hpo⟩

/-- Claim C14: for an idle engine that expects no bestmove, when `config.ponderable` is false
or the ponder move is not valid, `goPonder` returns false, writes nothing and leaves the
engine idle and expecting no bestmove; and in every run of a game created with
`ponderMode = false`, every `goPonder` call is given `Move::illegalMove`, an invalid move. -/
theorem goPonder_disabled {Pl P T : Type} (x : Env P T)
    (hill : x.isValid x.illegalMove = false) :
    (∀ (board : Board P) (tc : T) (m : Move) (e : UciEngine),
        e.computingState = EngineComputingState.idle → e.expectingBestmove = false →
        (e.config.ponderable = false ∨ x.isValid m = false) →
        (e.goPonder x board tc m).1 = false
        ∧ (e.goPonder x board tc m).2.written = e.written
        ∧ (e.goPonder x board tc m).2.computingState = EngineComputingState.idle
        ∧ (e.goPonder x board tc m).2.expectingBestmove = false)
    ∧ (∀ (ops : PlayerOps Pl P T) (g0 g : Game Pl P T),
        g0.ponderMode = false → g0.calls = [] → Game.Runs x ops g0 g →
        ∀ (sd : Side) (m : Move), (sd, PlayerCall.goPonder m) ∈ g.calls →
          m = x.illegalMove ∧ x.isValid m = false) := by
  constructor
  · intro board tc m e hidle hexp hoff
    have hc : (e.config.ponderable && x.isValid m) = false := by
      rcases hoff with h | h <;> simp [h]
    simp [UciEngine.goPonder, hc, hidle, hexp]
  · intro ops g0 g hmode hcalls hruns sd m hm
    have hoff : g0.PonderOff x := ⟨hmode, by simp [hcalls]⟩
    have := (runs_ponderOff x ops g0 g hoff hruns).2 sd m hm
    subst this
    exact ⟨rfl, hill⟩

/-- Witness of the amended claim C11: a bestmove of black while white is to move. -/
theorem moveFromPlayer_wrong_side_witness :
    demoStarted.state = GameState.playing
    ∧ Side.black ≠ demoStarted.board.side
    ∧ (demoEnv.isTimeOver demoStarted.timeController demoStarted.board.side = false →
        demoStarted.moveFromPlayer demoEnv (uciPlayerOps demoEnv) "e7e5" "" 5 Side.black
          EngineComputingState.thinking = some demoStarted)
    ∧ ∃ g1, demoStarted.moveFromPlayer demoEnv (uciPlayerOps demoEnv) "e7e5" "" 5 Side.black
          EngineComputingState.thinking = some g1
        ∧ g1.board.histList = demoStarted.board.histList :=
  ⟨rfl, by decide,
    moveFromPlayer_wrong_side demoEnv (uciPlayerOps demoEnv) demoStarted "e7e5" "" 5 Side.black
      EngineComputingState.thinking rfl (by decide)⟩

/-- Witness of claim C12: the discarded bestmove of white after its ponder miss. -/
theorem moveFromPlayer_discarded_witness :
    demoAfterBlack.state = GameState.playing
    ∧ demoEnv.isTimeOver demoAfterBlack.timeController demoAfterBlack.board.side = false
    ∧ demoAfterBlack.player demoAfterBlack.board.side
        = some ((demoAfterBlack.player demoAfterBlack.board.side).getD demoEngine)
    ∧ ∃ g1, demoAfterBlack.moveFromPlayer demoEnv (uciPlayerOps demoEnv) "d2d4" "" 5
          demoAfterBlack.board.side EngineComputingState.pondering = some g1
      ∧ g1.board = demoAfterBlack.board
      ∧ g1.timeController = demoAfterBlack.timeController
      ∧ g1.state = demoAfterBlack.state
      ∧ g1.calls = demoAfterBlack.calls ++ [(demoAfterBlack.board.side, PlayerCall.go)]
      ∧ g1.player demoAfterBlack.board.side
          = some ((uciPlayerOps demoEnv).go demoAfterBlack.board demoAfterBlack.timeController
              ((demoAfterBlack.player demoAfterBlack.board.side).getD demoEngine))
      ∧ g1.player demoAfterBlack.board.side.other
          = demoAfterBlack.player demoAfterBlack.board.side.other :=
  ⟨rfl, rfl, rfl,
    moveFromPlayer_discarded demoEnv (uciPlayerOps demoEnv) demoAfterBlack "d2d4" "" 5 _
      rfl rfl rfl⟩

/-- Witness of claim C13: an engine pondering on `e7e5` after `e2e4 c7c5` was played. -/
theorem go_ponder_miss_witness :
    demoEnv.isValid demoEnv.illegalMoveFull = false
    ∧ demoPonderer.computingState = EngineComputingState.pondering
    ∧ demoPonderer.expectingBestmove = true
    ∧ demoBoardE4C5.histList.getLast? = some ⟨⟨10, 26, PieceType.empty⟩, Side.black, 0⟩
    ∧ (demoPonderer.go demoEnv demoBoardE4C5 false).2.written = demoPonderer.written ++ ["stop"]
    ∧ (demoPonderer.go demoEnv demoBoardE4C5 false).2.computingState
        = EngineComputingState.pondering
    ∧ (demoPonderer.go demoEnv demoBoardE4C5 false).2.expectingBestmove = true :=
  ⟨rfl, rfl, rfl, rfl,
    go_ponder_miss demoEnv demoBoardE4C5 false demoPonderer rfl rfl rfl
      (fun h hh => by
        have h2 : (some ⟨⟨10, 26, PieceType.empty⟩, Side.black, 0⟩ : Option Hist) = some h := hh
        cases h2
        exact ⟨by decide, rfl⟩)⟩

/-- A run of the game created with pondering off: the starting tick, then `e2e4`. -/
theorem demoNoPonder_runs :
    Game.Runs demoEnv (uciPlayerOps demoEnv) demoNoPonder demoNoPonderMoved := by
  have h1 : demoNoPonder.tickWork demoEnv (uciPlayerOps demoEnv) = some demoNoPonderStarted := by
    rfl
  have h2 : demoNoPonderStarted.moveFromPlayer demoEnv (uciPlayerOps demoEnv) "e2e4" "e7e5" 5
      Side.white EngineComputingState.thinking = some demoNoPonderMoved := by rfl
  exact Game.Runs.bestmove _ _ _ _ _ _ _ _ (Game.Runs.tick _ _ _ (Game.Runs.start _) h1) h2

/-- Witness of claim C14: an invalid ponder move, and the run of the game without pondering. -/
theorem goPonder_disabled_witness :
    demoEnv.isValid demoEnv.illegalMove = false
    ∧ (demoEngine.goPonder demoEnv demoBoardE4E5 false ⟨52, 52, PieceType.empty⟩).1 = false
    ∧ (demoEngine.goPonder demoEnv demoBoardE4E5 false ⟨52, 52, PieceType.empty⟩).2.written
        = demoEngine.written
    ∧ (∀ (sd : Side) (m : Move), (sd, PlayerCall.goPonder m) ∈ demoNoPonderMoved.calls →
        m = demoEnv.illegalMove ∧ demoEnv.isValid m = false) :=
  ⟨rfl,
    ((@goPonder_disabled UciEngine Nat Bool demoEnv rfl).1 demoBoardE4E5 false
      ⟨52, 52, PieceType.empty⟩ demoEngine rfl rfl (Or.inr rfl)).1,
    ((@goPonder_disabled UciEngine Nat Bool demoEnv rfl).1 demoBoardE4E5 false
      ⟨52, 52, PieceType.empty⟩ demoEngine rfl rfl (Or.inr rfl)).2.1,
    (@goPonder_disabled UciEngine Nat Bool demoEnv rfl).2 (uciPlayerOps demoEnv) demoNoPonder
      demoNoPonderMoved rfl rfl demoNoPonder_runs⟩

/-- Evaluation for claim C15: after `e2e4` received with consumed time 5 the last history entry has elapsed 0. -/
theorem elapsed_not_recorded_witness :
    demoStarted.state = GameState.playing
    ∧ demoEnv.isTimeOver demoStarted.timeController demoStarted.board.side = false
    ∧ demoStarted.moveFromPlayer demoEnv (uciPlayerOps demoEnv) "e2e4" "e7e5" 5
        demoStarted.board.side EngineComputingState.thinking = some demoMoved
    ∧ demoMoved.board.histList
        = (demoEnv.checkMake demoStarted.board (demoEnv.moveFromCoordiateString "e2e4").src
            (demoEnv.moveFromCoordiateString "e2e4").dest
            (demoEnv.moveFromCoordiateString "e2e4").promotion).2.histList
    ∧ demoMoved.board.histList.getLast?.map (fun h => h.elapsed) = some 0 :=
  ⟨rfl, rfl, rfl,
    elapsed_not_recorded demoEnv (uciPlayerOps demoEnv) demoStarted demoMoved "e2e4" "e7e5" 5
      rfl rfl rfl, rfl⟩

/-- Witness of claim C16: the demo game with both players ready. -/
theorem tickWork_begin_ready_witness :
    demoBothReady.state = GameState.begin
    ∧ ∃ g1, demoBothReady.tickWork demoEnv (uciPlayerOps demoEnv) = some g1
      ∧ (g1.state = GameState.ready ↔
          ∃ pB pW, demoBothReady.playerB = some pB ∧ demoBothReady.playerW = some pW
            ∧ (uciPlayerOps demoEnv).getState pB = PlayerState.ready
            ∧ (uciPlayerOps demoEnv).getState pW = PlayerState.ready)
      ∧ (g1.state = GameState.ready → g1 = { demoBothReady with state := GameState.ready }) :=
  ⟨rfl, tickWork_begin_ready demoEnv (uciPlayerOps demoEnv) demoBothReady rfl⟩

/-- Witness of the amended claim C17: white stopped, black ready. -/
theorem tickWork_begin_crash_witness :
    demoWhiteCrashed.state = GameState.begin
    ∧ demoWhiteCrashed.playerB = some demoEngine
    ∧ demoWhiteCrashed.playerW = some { demoEngine with state := PlayerState.stopped }
    ∧ ∃ g1, demoWhiteCrashed.tickWork demoEnv (uciPlayerOps demoEnv) = some g1
        ∧ g1.state = GameState.stopped
        ∧ g1.board.result.reason = ReasonType.crash :=
  ⟨rfl, rfl, rfl,
    (tickWork_begin_crash demoEnv (uciPlayerOps demoEnv) demoWhiteCrashed demoEngine
      { demoEngine with state := PlayerState.stopped } rfl rfl rfl (Or.inr rfl)).1
      ⟨Or.inl rfl, Or.inr rfl⟩⟩

/-- Witness of claim C18: white stopped, black ready, the outcome is a loss. -/
theorem tickWork_begin_outcome_witness :
    demoWhiteCrashed.state = GameState.begin
    ∧ demoWhiteCrashed.tickWork demoEnv (uciPlayerOps demoEnv) = some demoWhiteCrashedOver
    ∧ demoWhiteCrashedOver.state = GameState.stopped
    ∧ demoWhiteCrashedOver.board.result.reason = ReasonType.crash
    ∧ demoWhiteCrashedOver.board.result.result = ResultType.loss :=
  ⟨rfl, rfl, rfl,
    (tickWork_begin_outcome demoEnv (uciPlayerOps demoEnv) demoWhiteCrashed demoWhiteCrashedOver
      rfl rfl rfl).1,
    (tickWork_begin_outcome demoEnv (uciPlayerOps demoEnv) demoWhiteCrashed demoWhiteCrashedOver
      rfl rfl rfl).2.2.2.1 rfl (by decide)⟩

/-- Witness of the amended claim C19: the opening `e2e5`. -/
theorem startPlaying_no_abort_witness :
    demoBadOpening.playerB = some demoEngine ∧ demoBadOpening.playerW = some demoEngine
    ∧ ∃ g1, demoBadOpening.startPlaying demoStrictEnv (uciPlayerOps demoStrictEnv) = some g1
      ∧ g1.state = GameState.playing
      ∧ g1.board = demoBadOpening.startMoves.foldl
          (fun b m => if demoStrictEnv.isValid m
            then demoStrictEnv.boardMake b m.src m.dest m.promotion else b)
          (demoStrictEnv.boardNewGame demoBadOpening.board demoBadOpening.startFen)
      ∧ g1.calls.getLast? = some (g1.board.side, PlayerCall.go) :=
  ⟨rfl, rfl,
    startPlaying_no_abort demoStrictEnv (uciPlayerOps demoStrictEnv) demoBadOpening demoEngine
      demoEngine rfl rfl⟩

/-- Witness of claim C20: the opening `e2e4 c7c5`. -/
theorem tickWork_ready_witness :
    demoOpening.state = GameState.ready
    ∧ (∀ m ∈ demoOpening.startMoves, demoEnv.isValid m = true)
    ∧ ∃ g1, demoOpening.tickWork demoEnv (uciPlayerOps demoEnv) = some g1
      ∧ g1.state = GameState.playing
      ∧ g1.board = demoOpening.startMoves.foldl
          (fun b m => demoEnv.boardMake b m.src m.dest m.promotion)
          (demoEnv.boardNewGame demoOpening.board demoOpening.startFen)
      ∧ g1.board.histList.length = demoOpening.startMoves.length
      ∧ g1.timeController = demoEnv.setupClocksBeforeThinking demoOpening.timeController
          (demoOpening.startMoves.length : Int)
      ∧ g1.calls = demoOpening.calls ++ [(Side.black, PlayerCall.newGame),
          (Side.white, PlayerCall.newGame),
          (g1.board.side.other, PlayerCall.goPonder demoEnv.illegalMove),
          (g1.board.side, PlayerCall.go)]
      ∧ ∃ p q, demoOpening.player g1.board.side = some p
          ∧ demoOpening.player g1.board.side.other = some q
          ∧ g1.player g1.board.side
              = some ((uciPlayerOps demoEnv).go g1.board g1.timeController
                  ((uciPlayerOps demoEnv).newGame p))
          ∧ g1.player g1.board.side.other
              = some ((uciPlayerOps demoEnv).goPonder g1.board g1.timeController
                  demoEnv.illegalMove ((uciPlayerOps demoEnv).newGame q)) :=
  ⟨rfl, by decide,
    tickWork_ready demoEnv (uciPlayerOps demoEnv) demoOpening demoEngine demoEngine rfl rfl rfl
      (by decide) (fun _ _ => rfl) (fun _ _ _ _ => by simp [demoEnv, demoMake])⟩

/-! ### Stopping twice: `UciEngine::stop` -/

/-- Claim C21: for every engine state, stop changes none of expectingBestmove,
computingState and ponderingMove, so that a second stop leaves every engine
field as the first one left it and returns the same result; each call made while
a bestmove is expected hands one more line stop to the engine. -/
theorem stop_idempotent (e : UciEngine) :
    e.stop.2.expectingBestmove = e.expectingBestmove
    ∧ e.stop.2.computingState = e.computingState
    ∧ e.stop.2.ponderingMove = e.ponderingMove
    ∧ e.stop.2.stop.2 = { e.stop.2 with written := e.stop.2.stop.2.written }
    ∧ e.stop.2.stop.1 = e.stop.1
    ∧ e.stop.2.written = (if e.expectingBestmove then e.written ++ ["stop"] else e.written) := by
  rcases e with ⟨st, ex, cs, pm, cf, htc, hmr, hbd, d, n, sc, wr, wn⟩
  cases ex <;> simp [UciEngine.stop, UciEngine.write]

/-! ### The position and go commands -/

theorem join_append_singleton (l : List String) (s : String) :
    String.join (l ++ [s]) = String.join l ++ s := by
  simp only [String.join, List.foldl_append, List.foldl_cons, List.foldl_nil]

theorem join_cons (s : String) (l : List String) :
    String.join (s :: l) = s ++ String.join l := by
  have h : ∀ (l : List String) (a : String), List.foldl (fun r t => r ++ t) a l
      = a ++ List.foldl (fun r t => r ++ t) "" l := by
    intro l
    induction l with
    | nil => intro a; simp
    | cons t ts ih =>
      intro a
      simp only [List.foldl_cons]
      rw [ih (a ++ t), ih ("" ++ t)]
      simp [String.append_assoc]
  simp only [String.join, List.foldl_cons]
  rw [h l ("" ++ s)]
  simp

theorem foldl_moves {P T : Type} (x : Env P T) (l : List Hist) (a : String) :
    l.foldl (fun s hist => s ++ (" " ++ x.toCoordinateString hist.move)) a
      = a ++ String.join ((l.map (fun hist => hist.move)).map
          (fun m => " " ++ x.toCoordinateString m)) := by
  induction l generalizing a with
  | nil => simp [String.join]
  | cons h t ih =>
    simp only [List.foldl_cons, List.map_cons]
    rw [ih, join_cons, String.append_assoc]

/-- Claim C22: for every board and ponder move, getPositionString is the position command of the
specification: the start position part, then the word moves exactly when the history is
non-empty or the ponder move is valid, then the coordinate strings of the history moves in order
and of the valid ponder move. -/
theorem getPositionString_spec {P T : Type} (x : Env P T) (board : Board P) (pondermove : Move) :
    getPositionString x board pondermove = positionCommandSpec x board pondermove := by
  unfold getPositionString positionCommandSpec
  have h1 : "position " ++ "startpos" = "position startpos" := by decide
  have h2 : ∀ s : String, "position " ++ ("fen " ++ s) = "position fen " ++ s := by
    intro s; rw [← String.append_assoc]; rfl
  cases hh : board.histList with
  | nil =>
    by_cases hv : x.isValid pondermove = true <;>
      by_cases ho : x.fromOriginPosition board = true <;>
      simp [hv, ho, h1, h2, String.join, String.append_assoc]
  | cons h t =>
    by_cases hv : x.isValid pondermove = true <;>
      by_cases ho : x.fromOriginPosition board = true <;>
      simp [hv, ho, h1, h2, foldl_moves, join_cons, join_append_singleton, String.append_assoc]

/-- In `t` seconds, not negative and within the range of `int`, `int(t * 1000)` is the count
of whole milliseconds. -/
theorem doubleToInt_millis (t : ℚ) (h0 : 0 ≤ t) (h1 : t * 1000 < 2147483648) :
    (doubleToInt (t * 1000) : ℚ) ≤ t * 1000 ∧ t * 1000 < doubleToInt (t * 1000) + 1 := by
  have hp : (0 : ℚ) ≤ t * 1000 := by positivity
  have hf0 : (0 : Int) ≤ ⌊t * 1000⌋ := Int.floor_nonneg.mpr hp
  have hf1 : ⌊t * 1000⌋ < 2147483648 := by
    rw [Int.floor_lt]; exact_mod_cast h1
  have h : doubleToInt (t * 1000) = ⌊t * 1000⌋ := by
    unfold doubleToInt intMin intMax
    simp only [if_pos hp]
    rw [if_pos]
    constructor <;> omega
  rw [h]
  exact ⟨Int.floor_le _, Int.lt_floor_add_one _⟩

/-- Claim C23: for every board, time controller and ponder move, the go string is the position
command, a line end, the word go and a blank, then the word ponder and a blank exactly when the
ponder move is valid, then the time part: infinite in infinite mode, depth and the depth in depth
mode, and in standard mode wtime, btime, winc and binc with the white and black time left and
one increment for both sides, each the seconds of the controller times 1000 without the
fraction, that is the whole milliseconds, after which movestogo and a count follow when the
count is positive.  In movetime mode the time part is movetime and the decimal text of the time
field as the controller holds it, in seconds with six decimals: it is not multiplied by 1000
and is not a count of milliseconds. -/
theorem getGoString_spec {P T : Type} (x : Env P T) (board : Board P) (tc : T) (pondermove : Move) :
    getGoString x board tc pondermove
        = getPositionString x board pondermove ++ "\ngo "
          ++ (if x.isValid pondermove then "ponder " else "")
          ++ timeControlString x board tc
    ∧ (x.tcMode tc = TimeControlMode.infinite → timeControlString x board tc = "infinite")
    ∧ (x.tcMode tc = TimeControlMode.depth →
        timeControlString x board tc = "depth " ++ toString (x.tcDepth tc))
    ∧ (x.tcMode tc = TimeControlMode.movetime →
        timeControlString x board tc = "movetime " ++ doubleToString (x.tcTime tc))
    ∧ (x.tcMode tc = TimeControlMode.standard →
        ∃ (W B I movestogo : Int),
          W = doubleToInt (x.tcTimeLeft tc Side.white * 1000)
          ∧ B = doubleToInt (x.tcTimeLeft tc Side.black * 1000)
          ∧ I = doubleToInt (x.tcIncrement tc * 1000)
          ∧ movestogo = (if x.tcMoves tc > 0
            then x.tcMoves tc - ((board.histList.length : Int) / 2) % x.tcMoves tc else 0)
          ∧ timeControlString x board tc
            = "wtime " ++ toString W ++ " btime " ++ toString B
              ++ " winc " ++ toString I ++ " binc " ++ toString I
              ++ (if movestogo > 0 then " movestogo " ++ toString movestogo else ""))
    ∧ (∀ t : ℚ, 0 ≤ t → t * 1000 < 2147483648 →
        (doubleToInt (t * 1000) : ℚ) ≤ t * 1000 ∧ t * 1000 < doubleToInt (t * 1000) + 1) := by
  refine ⟨?_, ?_, ?_, ?_, ?_, doubleToInt_millis⟩
  · unfold getGoString
    by_cases hv : x.isValid pondermove = true <;> simp [hv]
  · intro h; simp [timeControlString, h]
  · intro h; simp [timeControlString, h]
  · intro h; simp [timeControlString, h]
  · intro h
    refine ⟨_, _, _, _, rfl, rfl, rfl, rfl, ?_⟩
    simp only [timeControlString, h]
    split <;> split <;> simp_all

/-- Claim C23 after `e2e4`: in infinite mode with the ponder move `e7e5`; in movetime mode with
a tenth of a second for a move, where the go string says `movetime 0.100000` and the count of
milliseconds is 100; in standard mode with 60 and 59 seconds left and one second of increment. -/
theorem getGoString_spec_witness :
    timeControlString demoEnv demoMoved.board false = "infinite"
    ∧ getGoString demoEnv demoMoved.board false ⟨12, 28, PieceType.empty⟩
      = "position startpos moves e2e4 e7e5\ngo ponder infinite"
    ∧ timeControlString demoMovetimeEnv demoMoved.board false = "movetime 0.100000"
    ∧ getGoString demoMovetimeEnv demoMoved.board false demoMovetimeEnv.illegalMoveFull
      = "position startpos moves e2e4\ngo movetime 0.100000"
    ∧ doubleToInt (demoMovetimeEnv.tcTime false * 1000) = 100
    ∧ getGoString demoClockEnv demoMoved.board false demoClockEnv.illegalMoveFull
      = "position startpos moves e2e4\ngo wtime 60000 btime 59000 winc 1000 binc 1000 movestogo 40" :=
  ⟨(getGoString_spec demoEnv demoMoved.board false ⟨12, 28, PieceType.empty⟩).2.1 rfl,
    by decide,
    ((getGoString_spec demoMovetimeEnv demoMoved.board false
      demoMovetimeEnv.illegalMoveFull).2.2.2.1 rfl).trans (by decide!),
    by decide!, by decide!, by decide!⟩

/-! ### The bestmove line -/

/-- Claim C24, amended: for every engine with a board, a time controller and a move
receiver attached and every line that splits at blanks into bestmove, a non-empty move text M
and optionally ponder and a ponder text P, the engine ends with expectingBestmove false and
computingState idle, and the receiver is invoked once, with the move read from M, with the
text M, with the move read from P (from the empty text without a ponder part), with the
consumed move time and with the computingState the engine had before the line. -/
theorem parseLine_bestmove {P T : Type} (x : Env P T) (tc : T) (line : String) (e : UciEngine)
    (M : String) (pond : Option String)
    (htc : e.hasTimeController = true) (hmr : e.hasMoveReceiver = true)
    (hb : e.hasBoard = true) (hM : M ≠ "")
    (hsplit : x.splitString line ' '
      = "bestmove" :: M :: (match pond with | some p => ["ponder", p] | none => [])) :
    e.parseLine x tc (some UciEngineCmd.bestmove) line
      = some ({ e with expectingBestmove := false, computingState := EngineComputingState.idle },
          some ⟨x.moveFromCoordiateString M, M, x.moveFromCoordiateString (pond.getD ""),
            x.moveTimeConsumed tc, e.computingState⟩) := by
  have hne : M.isEmpty = false := by
    rw [Bool.eq_false_iff]
    intro h
    exact hM ((String.isEmpty_iff M).mp h)
  cases pond with
  | none => simp [UciEngine.parseLine, bestmovePonderString, htc, hmr, hb, hsplit, hne]
  | some p => simp [UciEngine.parseLine, bestmovePonderString, htc, hmr, hb, hsplit, hne]

/-- Claim C24, amended, at the lines `bestmove e2e4 ponder e7e5` and `bestmove e2e4` read by the
demonstration engine while it thinks. -/
theorem parseLine_bestmove_witness :
    demoThinking.parseLine demoEnv false (some UciEngineCmd.bestmove) "bestmove e2e4 ponder e7e5"
      = some (demoEngine,
          some ⟨⟨52, 36, PieceType.empty⟩, "e2e4", ⟨12, 28, PieceType.empty⟩, 0,
            EngineComputingState.thinking⟩)
    ∧ demoThinking.parseLine demoEnv false (some UciEngineCmd.bestmove) "bestmove e2e4"
      = some (demoEngine,
          some ⟨⟨52, 36, PieceType.empty⟩, "e2e4", demoEnv.moveFromCoordiateString "", 0,
            EngineComputingState.thinking⟩) :=
  ⟨parseLine_bestmove demoEnv false "bestmove e2e4 ponder e7e5" demoThinking
      "e2e4" (some "e7e5") rfl rfl rfl (by decide) (by decide),
    parseLine_bestmove demoEnv false "bestmove e2e4" demoThinking
      "e2e4" none rfl rfl rfl (by decide) (by decide)⟩

/-- Claim C24 as stated fails: on the line `bestmove e2e4 ponder e7e5` the receiver is
invoked with five arguments, two moves, one text, the time and the state, and the ponder text
`e7e5` is not among them. -/
theorem parseLine_bestmove_ponder_text :
    ∃ (e1 : UciEngine) (b : BestmoveEvent),
      demoThinking.parseLine demoEnv false (some UciEngineCmd.bestmove)
          "bestmove e2e4 ponder e7e5" = some (e1, some b)
      ∧ b.arguments
        = [ReceiverArg.move ⟨52, 36, PieceType.empty⟩, ReceiverArg.text "e2e4",
            ReceiverArg.move ⟨12, 28, PieceType.empty⟩, ReceiverArg.time 0,
            ReceiverArg.state EngineComputingState.thinking]
      ∧ ReceiverArg.text "e7e5" ∉ b.arguments :=
  ⟨demoEngine, ⟨⟨52, 36, PieceType.empty⟩, "e2e4", ⟨12, 28, PieceType.empty⟩, 0,
      EngineComputingState.thinking⟩, by decide, by decide, by decide⟩

/-- An engine whose `board` pointer is not set has no defined answer to a `bestmove` line with
a move text: line 274 goes through the pointer. -/
theorem parseLine_bestmove_no_board :
    { demoThinking with hasBoard := false }.parseLine demoEnv false
        (some UciEngineCmd.bestmove) "bestmove e2e4" = none := by
  decide

/-! ### Scores of info lines -/

/-- Claim C25: for every info line whose text after the word info splits at blanks into score,
a kind and a number text, parseInfo records the value of the number text when the kind is cp,
and records 0 when the kind is mate: the word mate itself is read as the number and the number
text is never read. -/
theorem parseInfo_score {P T : Type} (x : Env P T) (line : String) (e : UciEngine)
    (str : List Char) (kind n : String)
    (hstr : strSubstr line.toList 5 (strFindFrom " pv ".toList line.toList 0) = some str)
    (hvec : x.splitString (String.mk str) ' ' = ["score", kind, n])
    (hk : kind = "cp" ∨ kind = "mate") :
    e.parseInfo x line = some { e with score := if kind = "cp" then atoi n else 0 } := by
  have hmate : atoi "mate" = 0 := by decide
  have hwrap : wrapInt 0 = 0 := by decide
  unfold UciEngine.parseInfo
  simp only []
  rw [hstr]
  simp only [hvec]
  rcases hk with hk | hk <;> subst hk <;> simp [parseInfoLoop, hmate, hwrap]

/-- Claim C25 at the line `info score mate 3`: the recorded score is 0, not 300. -/
theorem parseInfo_score_witness :
    demoThinking.parseInfo demoEnv "info score mate 3" = some { demoThinking with score := 0 } :=
  parseInfo_score demoEnv "info score mate 3" demoThinking "score mate 3".toList "mate" "3"
    (by decide) (by decide) (Or.inr rfl)

/-! ### The book manager -/

theorem isEmpty_eq_false_of_ne {s : String} (h : s ≠ "") : s.isEmpty = false := by
  rw [Bool.eq_false_iff]
  intro he
  exact h ((String.isEmpty_iff s).mp he)

/-- Claim C27: for every book manager with select type allone, every pair id, every list of
books and every state of the generator, a call with a non-empty configured FEN returns true
with that FEN and an empty move list, and a call with an empty configured FEN and non-empty
configured moves returns true with an empty FEN text and exactly the configured moves. -/
theorem getRandomBook_allone {P : Type} (env : BookEnv P) (now : Nat) (pairId : Int)
    (m : BookMng) (r : Rng) (hsel : m.bookSelectType = BookSelectType.allone) :
    (m.alloneFenString ≠ "" →
      ∃ a, m.getRandomBook env now pairId r = some a ∧ a.ok = true
        ∧ a.fenString = m.alloneFenString ∧ a.moves = [])
    ∧ (m.alloneFenString = "" → m.alloneMoves ≠ [] →
      ∃ a, m.getRandomBook env now pairId r = some a ∧ a.ok = true
        ∧ a.fenString = "" ∧ a.moves = m.alloneMoves) := by
  constructor
  · intro hfen
    simp [BookMng.getRandomBook, hsel, isEmpty_eq_false_of_ne hfen]
  · intro hfen hmoves
    have he : m.alloneFenString.isEmpty = true := by rw [hfen]; rfl
    simp [BookMng.getRandomBook, hsel, he, hmoves]

/-- Claim C27 at a manager with the configured FEN `8/8/k7 w`. -/
theorem getRandomBook_allone_witness :
    ∃ a, demoAllone.getRandomBook demoBookEnv 0 0 demoRng = some a ∧ a.ok = true
      ∧ a.fenString = "8/8/k7 w" ∧ a.moves = [] :=
  (getRandomBook_allone demoBookEnv 0 0 demoAllone demoRng rfl).1 (by decide)

theorem drawOrRepeat_draw {P : Type} (env : BookEnv P) (pairId : Int) (m : BookMng) (r : Rng)
    (fenString : String) (moves : List Move) (hbooks : m.bookList ≠ [])
    (hcond : m.queryCnt = 1 ∨ m.bookSelectType = BookSelectType.allnew
      ∨ (m.bookSelectType = BookSelectType.samepair ∧ pairId ≠ m.lastPairIdx)) :
    ∃ book, m.bookList.get? (r.rand.1 % m.bookList.length) = some book
      ∧ m.drawOrRepeat env pairId r fenString moves
        = (book.getRandomBook env "" [] r.rand.2).map (fun d =>
            ⟨true, d.fenString, d.moves,
              { m with theFenString := d.fenString, theMoves := d.moves, lastPairIdx := pairId },
              d.rng⟩) := by
  have hlt : r.rand.1 % m.bookList.length < m.bookList.length :=
    Nat.mod_lt _ (List.length_pos.mpr hbooks)
  refine ⟨m.bookList.get ⟨_, hlt⟩, List.get?_eq_get hlt, ?_⟩
  unfold BookMng.drawOrRepeat
  have he : m.bookList.isEmpty = false := by
    cases hl : m.bookList with
    | nil => exact absurd hl hbooks
    | cons b t => rfl
  simp only [he, Bool.false_eq_true, if_false, if_pos hcond, List.get?_eq_get hlt]
  cases (m.bookList.get ⟨_, hlt⟩).getRandomBook env "" [] r.rand.2 <;> rfl

theorem drawOrRepeat_repeat {P : Type} (env : BookEnv P) (pairId : Int) (m : BookMng) (r : Rng)
    (fenString : String) (moves : List Move) (hbooks : m.bookList ≠ [])
    (hcond : ¬ (m.queryCnt = 1 ∨ m.bookSelectType = BookSelectType.allnew
      ∨ (m.bookSelectType = BookSelectType.samepair ∧ pairId ≠ m.lastPairIdx))) :
    m.drawOrRepeat env pairId r fenString moves
      = some ⟨true, m.theFenString, m.theMoves, { m with lastPairIdx := pairId }, r⟩ := by
  unfold BookMng.drawOrRepeat
  have he : m.bookList.isEmpty = false := by
    cases hl : m.bookList with
    | nil => exact absurd hl hbooks
    | cons b t => rfl
  simp only [he, Bool.false_eq_true, if_false, if_neg hcond]

theorem getRandomBook_not_allone {P : Type} (env : BookEnv P) (now : Nat) (pairId : Int)
    (m : BookMng) (r : Rng) (hsel : m.bookSelectType ≠ BookSelectType.allone) :
    m.getRandomBook env now pairId r
      = BookMng.drawOrRepeat env pairId { m with queryCnt := m.queryCnt + 1 }
          (if m.queryCnt + 1 = 1
            then Rng.srand env (if m.seed ≥ 0 then m.seed.toNat else now) else r) "" [] := by
  simp only [BookMng.getRandomBook, if_neg hsel]

/-- Claim C28: for every book manager with select type samepair and at least one book, a call
that follows a call with the same pair id returns true with the text and the moves of that
call and leaves the generator as it was; and a call whose pair id differs from the one of the
previous call draws an index into the book list and returns what the book at that index
draws, starting from an empty text and an empty move list. -/
theorem getRandomBook_samepair {P : Type} (env : BookEnv P) (now now2 : Nat) (pairId : Int)
    (m : BookMng) (r : Rng) (hsel : m.bookSelectType = BookSelectType.samepair)
    (hbooks : m.bookList ≠ []) (hcnt : 0 ≤ m.queryCnt) :
    (∀ a1, m.getRandomBook env now pairId r = some a1 →
      a1.mng.getRandomBook env now2 pairId a1.rng
        = some ⟨true, a1.fenString, a1.moves,
            { a1.mng with queryCnt := a1.mng.queryCnt + 1 }, a1.rng⟩)
    ∧ (pairId ≠ m.lastPairIdx →
      ∃ book r0,
        r0 = (if m.queryCnt + 1 = 1
          then Rng.srand env (if m.seed ≥ 0 then m.seed.toNat else now) else r)
        ∧ m.bookList.get? (r0.rand.1 % m.bookList.length) = some book
        ∧ m.getRandomBook env now pairId r
          = (book.getRandomBook env "" [] r0.rand.2).map (fun d =>
              ⟨true, d.fenString, d.moves,
                { m with queryCnt := m.queryCnt + 1, theFenString := d.fenString,
                         theMoves := d.moves, lastPairIdx := pairId },
                d.rng⟩)) := by
  have hna : m.bookSelectType ≠ BookSelectType.allone := by rw [hsel]; decide
  constructor
  · intro a1 h1
    have hfacts : a1.mng.bookSelectType = BookSelectType.samepair
        ∧ a1.mng.bookList = m.bookList ∧ a1.mng.queryCnt = m.queryCnt + 1
        ∧ a1.mng.lastPairIdx = pairId ∧ a1.fenString = a1.mng.theFenString
        ∧ a1.moves = a1.mng.theMoves := by
      rw [getRandomBook_not_allone env now pairId m r hna] at h1
      by_cases hcond : (m.queryCnt + 1 = 1 ∨ m.bookSelectType = BookSelectType.allnew
          ∨ (m.bookSelectType = BookSelectType.samepair ∧ pairId ≠ m.lastPairIdx))
      · obtain ⟨book, _, hd⟩ := drawOrRepeat_draw env pairId
          { m with queryCnt := m.queryCnt + 1 }
          (if m.queryCnt + 1 = 1
            then Rng.srand env (if m.seed ≥ 0 then m.seed.toNat else now) else r)
          "" [] hbooks hcond
        rw [hd] at h1
        cases hdraw : book.getRandomBook env "" [] _ with
        | none => rw [hdraw] at h1; simp at h1
        | some d =>
          rw [hdraw] at h1
          simp only [Option.map_some', Option.some.injEq] at h1
          subst h1
          simp [hsel]
      · rw [drawOrRepeat_repeat env pairId { m with queryCnt := m.queryCnt + 1 } _ "" [] hbooks
          hcond] at h1
        simp only [Option.some.injEq] at h1
        subst h1
        simp [hsel]
    obtain ⟨hs, hb, hq, hl, hf, hm⟩ := hfacts
    have hb2 : a1.mng.bookList ≠ [] := by rw [hb]; exact hbooks
    have hne : ¬ (a1.mng.queryCnt + 1 = 1) := by omega
    have hna2 : a1.mng.bookSelectType ≠ BookSelectType.allone := by rw [hs]; decide
    rw [getRandomBook_not_allone env now2 pairId a1.mng a1.rng hna2, if_neg hne,
      drawOrRepeat_repeat env pairId { a1.mng with queryCnt := a1.mng.queryCnt + 1 } a1.rng
        "" [] hb2 (by simp [hs, hl, hne])]
    simp [hf, hm, hl]
  · intro hne
    obtain ⟨book, hget, hd⟩ := drawOrRepeat_draw env pairId
      { m with queryCnt := m.queryCnt + 1 }
      (if m.queryCnt + 1 = 1
        then Rng.srand env (if m.seed ≥ 0 then m.seed.toNat else now) else r) "" [] hbooks
      (Or.inr (Or.inr ⟨hsel, hne⟩))
    refine ⟨book, _, rfl, hget, ?_⟩
    rw [getRandomBook_not_allone env now pairId m r hna]
    exact hd

/-- Claim C28 at the manager of the EPD book: the first call for pair 4 draws the position
`8/8/k7 w`, and the second call for pair 4 returns it again without a draw. -/
theorem getRandomBook_samepair_witness :
    demoMng.getRandomBook demoBookEnv 0 4 demoRng = some demoFirstAnswer
    ∧ demoFirstAnswer.fenString = "8/8/k7 w"
    ∧ demoFirstAnswer.mng.getRandomBook demoBookEnv 9 4 demoFirstAnswer.rng
      = some ⟨true, demoFirstAnswer.fenString, demoFirstAnswer.moves,
          { demoFirstAnswer.mng with queryCnt := demoFirstAnswer.mng.queryCnt + 1 },
          demoFirstAnswer.rng⟩ :=
  ⟨rfl, by decide,
    (getRandomBook_samepair demoBookEnv 0 9 4 demoMng demoRng rfl
      (List.cons_ne_nil _ _) (by decide)).1
      demoFirstAnswer rfl⟩

/-! ### The EPD book -/

theorem getRandomFENLoop_spec {P : Type} (env : BookEnv P) (b : BookEdp)
    (hne : b.stringVec ≠ []) (n : Nat) (r : Rng) :
    ∃ fen r1, BookEdp.getRandomFENLoop env b.stringVec n r = some (fen, r1)
      ∧ r1.stream = r.stream ∧ r.pos ≤ r1.pos ∧ r1.pos ≤ r.pos + n
      ∧ ((∃ str, r.pos < r1.pos ∧ b.pickedLine r (r1.pos - 1) = some str
            ∧ ¬ BookEdp.unusable env str ∧ fen = env.getFen (env.setFen str)
            ∧ ∀ j, r.pos ≤ j → j < r1.pos - 1 →
                ∃ s, b.pickedLine r j = some s ∧ BookEdp.unusable env s)
        ∨ (fen = "" ∧ r1.pos = r.pos + n
            ∧ ∀ j, r.pos ≤ j → j < r.pos + n →
                ∃ s, b.pickedLine r j = some s ∧ BookEdp.unusable env s)) := by
  induction n generalizing r with
  | zero =>
    refine ⟨"", r, rfl, rfl, le_refl _, le_refl _, Or.inr ⟨rfl, rfl, ?_⟩⟩
    intro j h1 h2
    omega
  | succ n ih =>
    have hlt : r.stream r.pos % b.stringVec.length < b.stringVec.length :=
      Nat.mod_lt _ (List.length_pos.mpr hne)
    have hget : b.stringVec.get? (r.stream r.pos % b.stringVec.length)
        = some (b.stringVec.get ⟨_, hlt⟩) := List.get?_eq_get hlt
    obtain ⟨fen, r1, hloop, hst, hlo, hhi, hcase⟩ := ih r.rand.2
    have hpos : r.rand.2.pos = r.pos + 1 := rfl
    have hstream : r.rand.2.stream = r.stream := rfl
    have hpick : ∀ j, b.pickedLine r.rand.2 j = b.pickedLine r j := fun j => rfl
    have hfirst : b.pickedLine r r.pos = some (b.stringVec.get ⟨_, hlt⟩) := hget
    have hrec : BookEdp.unusable env (b.stringVec.get ⟨_, hlt⟩) →
        ∃ fen r1, BookEdp.getRandomFENLoop env b.stringVec n r.rand.2 = some (fen, r1)
          ∧ r1.stream = r.stream ∧ r.pos ≤ r1.pos ∧ r1.pos ≤ r.pos + (n + 1)
          ∧ ((∃ str, r.pos < r1.pos ∧ b.pickedLine r (r1.pos - 1) = some str
                ∧ ¬ BookEdp.unusable env str ∧ fen = env.getFen (env.setFen str)
                ∧ ∀ j, r.pos ≤ j → j < r1.pos - 1 →
                    ∃ s, b.pickedLine r j = some s ∧ BookEdp.unusable env s)
            ∨ (fen = "" ∧ r1.pos = r.pos + (n + 1)
                ∧ ∀ j, r.pos ≤ j → j < r.pos + (n + 1) →
                    ∃ s, b.pickedLine r j = some s ∧ BookEdp.unusable env s)) := by
      intro hbad
      refine ⟨fen, r1, hloop, hst.trans hstream, by omega, by omega, ?_⟩
      rcases hcase with ⟨str, h1, h2, h3, h4, h5⟩ | ⟨h1, h2, h3⟩
      · refine Or.inl ⟨str, by omega, (hpick _).symm.trans h2, h3, h4, ?_⟩
        intro j hj1 hj2
        by_cases hj : j = r.pos
        · subst hj
          exact ⟨_, hfirst, hbad⟩
        · obtain ⟨s, hs1, hs2⟩ := h5 j (by omega) hj2
          exact ⟨s, (hpick j).symm.trans hs1, hs2⟩
      · refine Or.inr ⟨h1, by omega, ?_⟩
        intro j hj1 hj2
        by_cases hj : j = r.pos
        · subst hj
          exact ⟨_, hfirst, hbad⟩
        · obtain ⟨s, hs1, hs2⟩ := h3 j (by omega) (by omega)
          exact ⟨s, (hpick j).symm.trans hs1, hs2⟩
    simp only [BookEdp.getRandomFENLoop]
    have hget2 : b.stringVec.get? (r.rand.1 % b.stringVec.length)
        = some (b.stringVec.get ⟨_, hlt⟩) := hget
    rw [hget2]
    simp only []
    by_cases hempty : (b.stringVec.get ⟨_, hlt⟩).isEmpty = true
    · simp only [hempty, Bool.not_true, Bool.false_eq_true, if_false]
      exact hrec (Or.inl ((String.isEmpty_iff _).mp hempty))
    · simp only [hempty, Bool.not_false, if_true]
      by_cases hvalid : env.isValid (env.setFen (b.stringVec.get ⟨_, hlt⟩)) = true
      · simp only [hvalid, if_true]
        refine ⟨_, _, rfl, rfl, by omega, by omega, Or.inl ⟨_, by omega, ?_, ?_, rfl, ?_⟩⟩
        · simpa [hpos] using hfirst
        · rintro (h | h)
          · exact hempty ((String.isEmpty_iff _).mpr h)
          · rw [hvalid] at h; exact absurd h (by decide)
        · intro j hj1 hj2
          rw [hpos] at hj2
          omega
      · simp only [hvalid, Bool.false_eq_true, if_false]
        exact hrec (Or.inr (by simpa using hvalid))

/-- Claim C29: for every EPD book and every state of the generator, getRandomFEN returns after
at most 5 draws, and it returns either the FEN written back from the first picked line that is
not empty and parses to a valid board, or the empty text, the latter when the book is empty
(no draw) or when all 5 picked lines were empty or invalid; and a call of the manager that draws
from this book and gets the empty text returns true with an empty FEN text and an empty move
list. -/
theorem getRandomFEN_spec {P : Type} (env : BookEnv P) (b : BookEdp) (r : Rng) :
    (∃ fen r1, b.getRandomFEN env r = some (fen, r1)
      ∧ r1.stream = r.stream ∧ r.pos ≤ r1.pos ∧ r1.pos ≤ r.pos + 5
      ∧ ((∃ str, r.pos < r1.pos ∧ b.pickedLine r (r1.pos - 1) = some str
            ∧ ¬ BookEdp.unusable env str ∧ fen = env.getFen (env.setFen str)
            ∧ ∀ j, r.pos ≤ j → j < r1.pos - 1 →
                ∃ s, b.pickedLine r j = some s ∧ BookEdp.unusable env s)
        ∨ (fen = "" ∧ ((b.stringVec = [] ∧ r1 = r)
            ∨ (r1.pos = r.pos + 5 ∧ ∀ j, r.pos ≤ j → j < r.pos + 5 →
                ∃ s, b.pickedLine r j = some s ∧ BookEdp.unusable env s)))))
    ∧ (∀ (m : BookMng) (now : Nat) (pairId : Int) (rin r0 r2 : Rng),
        r0 = (if m.queryCnt + 1 = 1
          then Rng.srand env (if m.seed ≥ 0 then m.seed.toNat else now) else rin) →
        m.bookSelectType ≠ BookSelectType.allone →
        (m.queryCnt + 1 = 1 ∨ m.bookSelectType = BookSelectType.allnew
          ∨ (m.bookSelectType = BookSelectType.samepair ∧ pairId ≠ m.lastPairIdx)) →
        m.bookList.get? (r0.rand.1 % m.bookList.length) = some (Book.edp b) →
        r0.rand.2 = r →
        b.getRandomFEN env r = some ("", r2) →
        m.getRandomBook env now pairId rin
          = some ⟨true, "", [],
              { m with queryCnt := m.queryCnt + 1, theFenString := "", theMoves := [],
                       lastPairIdx := pairId }, r2⟩) := by
  constructor
  · unfold BookEdp.getRandomFEN
    cases hv : b.stringVec with
    | nil =>
      exact ⟨"", r, rfl, rfl, le_refl _, by omega, Or.inr ⟨rfl, Or.inl ⟨rfl, rfl⟩⟩⟩
    | cons s t =>
      have hne : b.stringVec ≠ [] := by rw [hv]; exact List.cons_ne_nil _ _
      obtain ⟨fen, r1, hloop, hst, hlo, hhi, hcase⟩ := getRandomFENLoop_spec env b hne 5 r
      rw [hv] at hloop
      refine ⟨fen, r1, by simpa using hloop, hst, hlo, hhi, ?_⟩
      rcases hcase with h | ⟨h1, h2, h3⟩
      · exact Or.inl h
      · exact Or.inr ⟨h1, Or.inr ⟨h2, h3⟩⟩
  · intro m now pairId rin r0 r2 hr0 hna hcond hbook hr hfail
    have hbooks : m.bookList ≠ [] := by
      intro h
      rw [h] at hbook
      simp at hbook
    obtain ⟨book, hget, hd⟩ := drawOrRepeat_draw env pairId
      { m with queryCnt := m.queryCnt + 1 } r0 "" [] hbooks hcond
    have hbk : book = Book.edp b := Option.some.inj (hget.symm.trans hbook)
    rw [getRandomBook_not_allone env now pairId m rin hna, ← hr0, hd, hbk]
    simp only [Book.getRandomBook, BookEdp.getRandomBook, hr, hfail]
    rfl

/-- Claim C29 at an EPD book without a position: the five picks fail and the manager returns
an empty FEN text and an empty move list. -/
theorem getRandomFEN_spec_witness :
    demoBadMng.getRandomBook demoBookEnv 0 0 demoRng
      = some ⟨true, "", [],
          { demoBadMng with queryCnt := demoBadMng.queryCnt + 1, theFenString := "",
                            theMoves := [], lastPairIdx := 0 },
          ⟨demoBookEnv.seeded 1, 6⟩⟩ :=
  (getRandomFEN_spec demoBookEnv demoBadEdp ⟨demoBookEnv.seeded 1, 1⟩).2 demoBadMng 0 0 demoRng
    ⟨demoBookEnv.seeded 1, 0⟩ ⟨demoBookEnv.seeded 1, 6⟩ rfl (by decide) (Or.inl rfl) rfl rfl rfl

/-! ### The Polyglot book: the entry chosen at a ply -/

theorem pick_bound (top100 : Int) (n : Nat) (r : Rng) (hn : 0 < n) (h1 : 1 ≤ top100)
    (h100 : top100 ≤ 100) :
    0 ≤ (BookPolyglot.pick top100 n r).1
    ∧ (BookPolyglot.pick top100 n r).1 < max 1 ((n : Int) * top100 / 100)
    ∧ max 1 ((n : Int) * top100 / 100) ≤ (n : Int) := by
  have hnn : (0 : Int) ≤ (n : Int) * top100 := by positivity
  have hk : Int.tdiv ((n : Int) * top100) 100 = (n : Int) * top100 / 100 :=
    Int.tdiv_eq_ediv hnn (by decide)
  have hle : (n : Int) * top100 / 100 ≤ (n : Int) := by
    have : (n : Int) * top100 ≤ (n : Int) * 100 := by nlinarith
    omega
  have hk0 : 0 ≤ (n : Int) * top100 / 100 := by omega
  unfold BookPolyglot.pick
  simp only [hk]
  by_cases hz : (n : Int) * top100 / 100 = 0
  · simp only [hz, if_true]
    omega
  · simp only [hz, if_false]
    have hpos : 0 < (n : Int) * top100 / 100 := by omega
    have hm := Int.tmod_lt_of_pos (r.rand.1 : Int) hpos
    have hm0 := Int.tmod_nonneg ((n : Int) * top100 / 100) (Int.ofNat_nonneg r.rand.1)
    omega

/-- Counterexample to claim C30: in a book sorted by key whose two records of key 3 have the
weights 1 and 9 in this order, with top100 = 50, the entry chosen at the first ply is the record
of weight 1, although the one candidate the claim allows is the record of weight 9. -/
theorem choose_light_record :
    demoLightFirst.items.Pairwise (fun a c => a.key ≤ c.key)
    ∧ demoBookEnv.key demoBookEnv.newGame = 3
    ∧ (demoLightFirst.choose demoBookEnv demoBookEnv.newGame demoRng).map (Option.map Prod.fst)
        = some (some ⟨3, 20, 1, 0⟩)
    ∧ (⟨3, 21, 9, 0⟩ : BookPolyglotItem) ∈ demoLightFirst.items
    ∧ (2 * 50 + 99) / 100 = 1 := by
  refine ⟨by decide, rfl, by decide, by decide, by decide⟩

/-- Claim C30, amended: for every book sorted by key, every top100 in 1..100, every board and
every state of the generator, a round of the loop chooses no entry when no record has the key
of the board, and otherwise chooses one of the first max(1, n * top100 / 100) records, in file
order, among the n records with that key; when these records stand in the file by
non-increasing weight, no record with the key outside these candidates has a greater weight
than the chosen one. -/
theorem choose_candidates {P : Type} (env : BookEnv P) (b : BookPolyglot) (board : Board P)
    (r : Rng) (hs : b.items.Pairwise (fun a c => a.key ≤ c.key)) (h1 : 1 ≤ b.top100)
    (h100 : b.top100 ≤ 100) :
    (b.items.filter (fun a => decide (a.key = env.key board)) = [] →
      b.choose env board r = some none)
    ∧ (b.items.filter (fun a => decide (a.key = env.key board)) ≠ [] →
      ∃ (j : Nat) (item : BookPolyglotItem) (r1 : Rng),
        b.choose env board r = some (some (item, r1))
        ∧ (b.items.filter (fun a => decide (a.key = env.key board))).get? j = some item
        ∧ (j : Int) < max 1
            (((b.items.filter (fun a => decide (a.key = env.key board))).length : Int)
              * b.top100 / 100)
        ∧ ((b.items.filter (fun a => decide (a.key = env.key board))).Pairwise
              (fun a c => c.weight ≤ a.weight) →
            ∀ (i : Nat) (c : BookPolyglotItem),
              max 1 (((b.items.filter (fun a => decide (a.key = env.key board))).length : Int)
                * b.top100 / 100) ≤ (i : Int) →
              (b.items.filter (fun a => decide (a.key = env.key board))).get? i = some c →
              c.weight ≤ item.weight)) := by
  generalize hvec : b.items.filter (fun a => decide (a.key = env.key board)) = vec
  have hsearch : search b.items (env.key board) = some vec := by
    rw [search_eq_filter b.items (env.key board) hs, hvec]
  constructor
  · intro hnil
    subst hnil
    simp [BookPolyglot.choose, hsearch]
  · intro hne
    have hn : 0 < vec.length := List.length_pos.mpr hne
    obtain ⟨hlo, hhi, hmax⟩ := pick_bound b.top100 vec.length r hn h1 h100
    have hlt : (BookPolyglot.pick b.top100 vec.length r).1.toNat < vec.length := by omega
    have hget : vec.get? (BookPolyglot.pick b.top100 vec.length r).1.toNat
        = some (vec.get ⟨_, hlt⟩) := List.get?_eq_get hlt
    have hemp : vec.isEmpty = false := by
      cases vec with
      | nil => exact absurd rfl hne
      | cons a t => rfl
    refine ⟨_, vec.get ⟨_, hlt⟩, (BookPolyglot.pick b.top100 vec.length r).2, ?_, hget,
      by omega, ?_⟩
    · simp only [BookPolyglot.choose, hsearch, hemp, Bool.false_eq_true, if_false, hget]
    · intro hw i c hi hc
      have hi2 : i < vec.length := by
        rcases Nat.lt_or_ge i vec.length with h | h
        · exact h
        · rw [List.get?_eq_none.mpr h] at hc
          exact absurd hc (by simp)
      have hc2 : vec.get ⟨i, hi2⟩ = c := by
        rw [List.get?_eq_get hi2] at hc
        exact Option.some.inj hc
      rw [← hc2]
      have hji : (BookPolyglot.pick b.top100 vec.length r).1.toNat < i := by omega
      exact List.pairwise_iff_get.mp hw ⟨_, hlt⟩ ⟨i, hi2⟩ hji

/-- Claim C30, amended, at a book with the records of key 3 by weights 9, 5, 2 and
top100 = 50: the one candidate is the first record, and no other record is heavier than the
chosen one. -/
theorem choose_candidates_witness :
    ∃ (j : Nat) (item : BookPolyglotItem) (r1 : Rng),
      demoHeavyFirst.choose demoBookEnv demoBookEnv.newGame demoRng = some (some (item, r1))
      ∧ demoHeavyFirst.items.get? j = some item
      ∧ (j : Int) < 1
      ∧ ∀ (i : Nat) (c : BookPolyglotItem), (1 : Int) ≤ (i : Int) →
          demoHeavyFirst.items.get? i = some c → c.weight ≤ item.weight :=
  match (choose_candidates demoBookEnv demoHeavyFirst demoBookEnv.newGame demoRng (by decide)
    (by decide) (by decide)).2 (by decide) with
  | ⟨j, item, r1, h1, h2, h3, h4⟩ => ⟨j, item, r1, h1, h2, h3, h4 (by decide)⟩

/-! ### Option lines: the combo branch of `parseOption` -/

theorem var_not_prefix (v sep : List Char) (hv : ¬ ['v', 'a', 'r'] <:+: v)
    (hsep : sep = [] ∨ ∃ t, sep = ' ' :: t) :
    List.isPrefixOf ['v', 'a', 'r'] (v ++ sep) = false := by
  rw [Bool.eq_false_iff]
  intro h
  apply hv
  match v, h with
  | [], h =>
    rcases hsep with hs | ⟨t, hs⟩ <;> subst hs <;> simp [List.isPrefixOf] at h
  | [c], h =>
    rcases hsep with hs | ⟨t, hs⟩ <;> subst hs <;> simp [List.isPrefixOf] at h
  | [c, d], h =>
    rcases hsep with hs | ⟨t, hs⟩ <;> subst hs <;> simp [List.isPrefixOf] at h
  | c :: d :: e :: cs, h =>
    simp [List.isPrefixOf] at h
    obtain ⟨h1, h2, h3⟩ := h
    subst h1 h2 h3
    exact ⟨[], cs, rfl⟩

theorem var_absent_tail (c : Char) (cs : List Char) (hv : ¬ ['v', 'a', 'r'] <:+: c :: cs) :
    ¬ ['v', 'a', 'r'] <:+: cs := by
  intro h
  obtain ⟨s, t, hst⟩ := h
  exact hv ⟨c :: s, t, by simp [← hst]⟩

theorem find_var_none (v : List Char) (i : Nat) (hv : ¬ ['v', 'a', 'r'] <:+: v) :
    strFindFrom ['v', 'a', 'r'] v i = none := by
  induction v generalizing i with
  | nil => simp [strFindFrom]
  | cons c cs ih =>
    have hp := var_not_prefix (c :: cs) [] hv (Or.inl rfl)
    rw [List.append_nil] at hp
    rw [strFindFrom, if_neg (by rw [hp]; decide)]
    exact ih (i + 1) (var_absent_tail c cs hv)

theorem find_var_here (v t : List Char) (i : Nat) (hv : ¬ ['v', 'a', 'r'] <:+: v) :
    strFindFrom ['v', 'a', 'r'] (v ++ ' ' :: 'v' :: 'a' :: 'r' :: t) i
      = some (i + v.length + 1) := by
  induction v generalizing i with
  | nil => simp [strFindFrom, List.isPrefixOf]
  | cons c cs ih =>
    have hp := var_not_prefix (c :: cs) (' ' :: 'v' :: 'a' :: 'r' :: t) hv (Or.inr ⟨_, rfl⟩)
    rw [List.cons_append] at hp
    rw [List.cons_append, strFindFrom, if_neg (by rw [hp]; decide),
      ih (i + 1) (var_absent_tail c cs hv)]
    simp only [List.length_cons]
    congr 1
    omega

theorem trim_blank (v : List Char) :
    trim (String.mk (v ++ [' '])) = trim (String.mk v) := by
  unfold trim
  have h : isSpaceChar ' ' = true := by decide
  simp only [String.toList, List.rdropWhile_concat_pos _ _ _ h]

theorem comboLoop_pieces (vs : List (List Char)) :
    ∀ (v pre : List Char) (fuel i : Nat) (d : String) (list : List String),
      (∀ u ∈ v :: vs, ¬ ['v', 'a', 'r'] <:+: u ∧ (trim (String.mk u)).isEmpty = false) →
      vs.length < fuel →
      comboLoop (pre ++ comboText (v :: vs)) fuel pre.length i d list
        = some (if i = 0 then trim (String.mk v) else d,
            (if i = 0 then list else list ++ [trim (String.mk v)])
              ++ vs.map (fun u => trim (String.mk u))) := by
  have hvar : "var".toList = ['v', 'a', 'r'] := rfl
  induction vs with
  | nil =>
    intro v pre fuel i d list hu hfuel
    obtain ⟨fuel, rfl⟩ : ∃ k, fuel = k + 1 := ⟨fuel - 1, by omega⟩
    have hv := hu v (List.mem_cons_self _ _)
    have hfind : strFindFrom ['v', 'a', 'r'] v pre.length = none :=
      find_var_none v pre.length hv.1
    have hsub : strSubstr (pre ++ v) pre.length (some ((pre ++ v).length - pre.length))
        = some v := by
      simp [strSubstr]
    simp only [comboLoop, comboText, List.drop_left, hvar, hfind, hsub, hv.2,
      Bool.false_eq_true, if_false, List.map_nil, List.append_nil]
  | cons w ws ih =>
    intro v pre fuel i d list hu hfuel
    obtain ⟨fuel, rfl⟩ : ∃ k, fuel = k + 1 := ⟨fuel - 1, by omega⟩
    have hv := hu v (List.mem_cons_self _ _)
    have htext : comboText (v :: w :: ws)
        = v ++ ' ' :: 'v' :: 'a' :: 'r' :: ' ' :: comboText (w :: ws) := rfl
    have hfind : strFindFrom ['v', 'a', 'r'] (comboText (v :: w :: ws)) pre.length
        = some (pre.length + v.length + 1) := by
      rw [htext]
      exact find_var_here v _ pre.length hv.1
    have hsub : strSubstr (pre ++ comboText (v :: w :: ws)) pre.length
        (some (pre.length + v.length + 1 - pre.length)) = some (v ++ [' ']) := by
      have h1 : pre.length + v.length + 1 - pre.length = v.length + 1 := by omega
      rw [h1, htext]
      simp [strSubstr, List.take_append_eq_append_take]
    have hrest : pre ++ comboText (v :: w :: ws)
        = (pre ++ v ++ [' ', 'v', 'a', 'r', ' ']) ++ comboText (w :: ws) := by
      rw [htext]
      simp
    have hlen : (pre ++ v ++ [' ', 'v', 'a', 'r', ' ']).length = pre.length + v.length + 1 + 4 := by
      simp
      omega
    have hrec := ih w (pre ++ v ++ [' ', 'v', 'a', 'r', ' ']) fuel (i + 1)
      (if i = 0 then trim (String.mk v) else d)
      (if i = 0 then list else list ++ [trim (String.mk v)])
      (fun u hmem => hu u (List.mem_cons_of_mem _ hmem))
      (by simp only [List.length_cons] at hfuel; omega)
    rw [← hrest, hlen] at hrec
    simp only [comboLoop, List.drop_left, hvar, hfind, hsub, trim_blank, hv.2,
      Bool.false_eq_true, if_false]
    rw [hrec]
    simp

theorem find_isSome_of_occurrence (pat : List Char) :
    ∀ (l : List Char) (i : Nat), pat <:+: l → (strFindFrom pat l i).isSome = true := by
  intro l
  induction l with
  | nil =>
    intro i h
    have hp : pat = [] := List.eq_nil_of_infix_nil h
    subst hp
    rfl
  | cons c cs ih =>
    intro i h
    rw [strFindFrom]
    by_cases hp : pat.isPrefixOf (c :: cs) = true
    · rw [if_pos hp]; rfl
    · rw [if_neg hp]
      apply ih
      obtain ⟨s, t, hst⟩ := h
      cases s with
      | nil =>
        exfalso
        apply hp
        rw [List.isPrefixOf_iff_prefix]
        exact ⟨t, by simpa using hst⟩
      | cons a s =>
        simp only [List.cons_append, List.cons.injEq] at hst
        exact ⟨s, t, hst.2⟩

theorem comboText_length (vs : List (List Char)) (v : List Char) :
    vs.length ≤ (comboText (v :: vs)).length := by
  induction vs generalizing v with
  | nil => simp
  | cons w ws ih =>
    have h := ih w
    have htext : comboText (v :: w :: ws)
        = v ++ ' ' :: 'v' :: 'a' :: 'r' :: ' ' :: comboText (w :: ws) := rfl
    rw [htext]
    simp only [List.length_append, List.length_cons]
    omega

theorem comboText_var (v w : List Char) (ws : List (List Char)) :
    ['v', 'a', 'r'] <:+: comboText (v :: w :: ws) :=
  ⟨v ++ [' '], ' ' :: comboText (w :: ws), by simp [comboText]⟩

theorem reStar_all (t : List Char) (ht : ∀ c ∈ t, isLineEnd c = false) :
    reStar (reMatch []) t = some [t] := by
  induction t with
  | nil => rfl
  | cons c cs ih =>
    have hc := ht c (List.mem_cons_self _ _)
    have hcs := ih (fun a ha => ht a (List.mem_cons_of_mem _ ha))
    simp [reStar, hc, hcs]

theorem reStar_none (cont : List Char → Option (List (List Char))) (t : List Char)
    (h : ∀ u, u <:+ t → cont u = none) : reStar cont t = none := by
  induction t with
  | nil => simp [reStar, h [] (List.suffix_refl _)]
  | cons c cs ih =>
    have hcs := ih (fun u hu => h u (hu.trans (List.suffix_cons c cs)))
    have hc := h (c :: cs) (List.suffix_refl _)
    by_cases hl : isLineEnd c = true <;> simp [reStar, hl, hcs, hc]

theorem reStar_prepend (cont : List Char → Option (List (List Char))) (n t g : List Char)
    (caps : List (List Char)) (hn : ∀ c ∈ n, isLineEnd c = false)
    (h : reStar cont t = some (g :: caps)) :
    reStar cont (n ++ t) = some ((n ++ g) :: caps) := by
  induction n with
  | nil => simpa using h
  | cons c cs ih =>
    have hc := hn c (List.mem_cons_self _ _)
    have hcs := ih (fun a ha => hn a (List.mem_cons_of_mem _ ha))
    simp [reStar, hc, hcs]

theorem type_not_prefix (u rest : List Char) (hrest : ¬ " type ".toList <:+: rest)
    (hu : u <:+ 't' :: 'y' :: 'p' :: 'e' :: ' ' :: 'c' :: 'o' :: 'm' :: 'b' :: 'o' :: rest) :
    List.isPrefixOf " type ".toList u = false := by
  have htype : " type ".toList = [' ', 't', 'y', 'p', 'e', ' '] := rfl
  rw [htype] at hrest ⊢
  simp only [List.suffix_cons_iff] at hu
  rcases hu with h | h | h | h | h | h | h | h | h | h | h
  any_goals (subst h; simp [List.isPrefixOf])
  rw [Bool.eq_false_iff]
  intro hp
  apply hrest
  rw [List.isPrefixOf_iff_prefix] at hp
  exact hp.isInfix.trans h.isInfix

theorem reMatch_lit (s : String) (ps : List RePiece) (t : List Char) :
    reMatch (RePiece.lit s :: ps) t
      = if s.toList.isPrefixOf t then reMatch ps (t.drop s.length) else none := by
  rw [reMatch]

theorem reMatch_alt (l : List String) (ps : List RePiece) (t : List Char) :
    reMatch (RePiece.alt l :: ps) t = reAlt (reMatch ps) t l := by
  rw [reMatch]

theorem reMatch_star (ps : List RePiece) (t : List Char) :
    reMatch (RePiece.star :: ps) t = reStar (reMatch ps) t := by
  rw [reMatch]

theorem reOption_tail (rest : List Char) (hr : ∀ c ∈ rest, isLineEnd c = false) :
    reMatch [RePiece.lit " type ",
      RePiece.alt ["combo", "spin", "button", "check", "string"], RePiece.star]
      (' ' :: 't' :: 'y' :: 'p' :: 'e' :: ' ' :: 'c' :: 'o' :: 'm' :: 'b' :: 'o' :: rest)
      = some ["combo".toList, rest] := by
  have hall := reStar_all rest hr
  have htype : " type ".toList = [' ', 't', 'y', 'p', 'e', ' '] := rfl
  have hcombo : "combo".toList = ['c', 'o', 'm', 'b', 'o'] := rfl
  have hl1 : " type ".length = 6 := rfl
  have hl2 : "combo".length = 5 := rfl
  have hp1 : " type ".toList.isPrefixOf
      (' ' :: 't' :: 'y' :: 'p' :: 'e' :: ' ' :: 'c' :: 'o' :: 'm' :: 'b' :: 'o' :: rest)
      = true := by rw [htype]; simp [List.isPrefixOf]
  have hd1 : List.drop " type ".length
      (' ' :: 't' :: 'y' :: 'p' :: 'e' :: ' ' :: 'c' :: 'o' :: 'm' :: 'b' :: 'o' :: rest)
      = 'c' :: 'o' :: 'm' :: 'b' :: 'o' :: rest := by rw [hl1]; rfl
  have hp2 : "combo".toList.isPrefixOf ('c' :: 'o' :: 'm' :: 'b' :: 'o' :: rest) = true := by
    rw [hcombo]; simp [List.isPrefixOf]
  have hd2 : List.drop "combo".length ('c' :: 'o' :: 'm' :: 'b' :: 'o' :: rest) = rest := by
    rw [hl2]; rfl
  rw [reMatch_lit, if_pos hp1, hd1, reMatch_alt, reAlt, if_pos hp2, hd2, reMatch_star, hall]

theorem reOption_match (n rest : List Char) (hn : ∀ c ∈ n, isLineEnd c = false)
    (hr : ∀ c ∈ rest, isLineEnd c = false) (hrest : ¬ " type ".toList <:+: rest) :
    regexSearch reOption ("option name ".toList ++ n ++ " type combo".toList ++ rest)
      = some [n, "combo".toList, rest] := by
  have hstar : reStar (reMatch [RePiece.lit " type ",
      RePiece.alt ["combo", "spin", "button", "check", "string"], RePiece.star])
      (' ' :: 't' :: 'y' :: 'p' :: 'e' :: ' ' :: 'c' :: 'o' :: 'm' :: 'b' :: 'o' :: rest)
      = some ([] :: ["combo".toList, rest]) := by
    have hnone := reStar_none (reMatch [RePiece.lit " type ",
      RePiece.alt ["combo", "spin", "button", "check", "string"], RePiece.star])
      ('t' :: 'y' :: 'p' :: 'e' :: ' ' :: 'c' :: 'o' :: 'm' :: 'b' :: 'o' :: rest)
      (fun u hu => by
        have hp := type_not_prefix u rest hrest hu
        rw [reMatch_lit, if_neg (by rw [hp]; decide)])
    rw [reStar, if_neg (by decide), hnone, reOption_tail rest hr]
    rfl
  have hmatch := reStar_prepend _ n _ [] _ hn hstar
  rw [List.append_nil] at hmatch
  have hname : "option name ".toList
      = ['o', 'p', 't', 'i', 'o', 'n', ' ', 'n', 'a', 'm', 'e', ' '] := rfl
  have htc : " type combo".toList
      = [' ', 't', 'y', 'p', 'e', ' ', 'c', 'o', 'm', 'b', 'o'] := rfl
  have hlen : "option name ".length = 12 := rfl
  have hline : "option name ".toList ++ n ++ " type combo".toList ++ rest
      = 'o' :: 'p' :: 't' :: 'i' :: 'o' :: 'n' :: ' ' :: 'n' :: 'a' :: 'm' :: 'e' :: ' ' ::
        (n ++ ' ' :: 't' :: 'y' :: 'p' :: 'e' :: ' ' :: 'c' :: 'o' :: 'm' :: 'b' :: 'o' :: rest) := by
    rw [hname, htc]
    simp
  have hp : "option name ".toList.isPrefixOf
      ('o' :: 'p' :: 't' :: 'i' :: 'o' :: 'n' :: ' ' :: 'n' :: 'a' :: 'm' :: 'e' :: ' ' ::
        (n ++ ' ' :: 't' :: 'y' :: 'p' :: 'e' :: ' ' :: 'c' :: 'o' :: 'm' :: 'b' :: 'o' :: rest))
      = true := by rw [hname]; simp [List.isPrefixOf]
  have hd : List.drop "option name ".length
      ('o' :: 'p' :: 't' :: 'i' :: 'o' :: 'n' :: ' ' :: 'n' :: 'a' :: 'm' :: 'e' :: ' ' ::
        (n ++ ' ' :: 't' :: 'y' :: 'p' :: 'e' :: ' ' :: 'c' :: 'o' :: 'm' :: 'b' :: 'o' :: rest))
      = n ++ ' ' :: 't' :: 'y' :: 'p' :: 'e' :: ' ' :: 'c' :: 'o' :: 'm' :: 'b' :: 'o' :: rest := by
    rw [hlen]; rfl
  rw [hline, regexSearch, reOption, reMatch_lit, if_pos hp, hd, reMatch_star, hmatch]

/-- Counterexample to claim C26: in the line below the choice `y type spin z` holds neither
`var` nor `default`, yet the expression takes `A type combo default x var y` as the name and
`spin` as the type, and parseOption rejects the line. -/
theorem parseOption_combo_type_in_choice :
    UciEngine.parseOption demoOptionEnv
        "option name A type combo default x var y type spin z" demoConfig
      = some (false, demoConfig)
    ∧ regexSearch reOption "option name A type combo default x var y type spin z".toList
      = some ["A type combo default x var y".toList, "spin".toList, " z".toList] := by
  constructor <;> decide

theorem parseOption_line (N : String) (rest : List Char) :
    ("option name " ++ N ++ " type combo" ++ String.mk rest).toList
      = "option name ".toList ++ N.toList ++ " type combo".toList ++ rest := by
  simp [String.toList]

/-- Claim C26, amended: for every line `option name N type combo` followed by a text without
line terminators and without ` type `, when N holds no line terminator: if the text is
` default D var V1 ... var Vk` with k ≥ 1, where D and the Vi hold no `var` and are not blank,
parseOption builds the option named N of type combo with the trimmed D as default and the
trimmed V1, ..., Vk in order as choices, stores it and returns true when it is valid, and
returns false with the configuration unchanged when it is not; and if the text holds no `var`,
parseOption returns false and leaves the configuration unchanged. -/
theorem parseOption_combo (o : OptionEnv) (config : Config) (N : String)
    (hN : ∀ c ∈ N.toList, isLineEnd c = false) :
    (∀ (D : String) (Vs : List String) (rest : List Char),
      rest = " default ".toList ++ comboText ((D :: Vs).map String.toList) →
      Vs ≠ [] →
      (∀ u ∈ D :: Vs, ¬ "var".toList <:+: u.toList ∧ trim u ≠ "") →
      (∀ c ∈ rest, isLineEnd c = false) →
      ¬ " type ".toList <:+: rest →
      UciEngine.parseOption o ("option name " ++ N ++ " type combo" ++ String.mk rest) config
        = some
            (if o.isValid (o.setDefaultCombo
                  { o.newOption with name := N, type := OptionType.combo }
                  (trim D) (Vs.map trim))
              then (true, o.updateOption config (o.setDefaultCombo
                  { o.newOption with name := N, type := OptionType.combo }
                  (trim D) (Vs.map trim)))
              else (false, config)))
    ∧ (∀ rest : List Char,
      (∀ c ∈ rest, isLineEnd c = false) →
      ¬ " type ".toList <:+: rest →
      ¬ "var".toList <:+: rest →
      UciEngine.parseOption o ("option name " ++ N ++ " type combo" ++ String.mk rest) config
        = some (false, config)) := by
  have hvar : "var".toList = ['v', 'a', 'r'] := rfl
  have hc1 : ¬ (String.mk "combo".toList = "button") := by decide
  have hc2 : ¬ (String.mk "combo".toList = "string" ∨ String.mk "combo".toList = "check") := by
    decide
  have hc3 : ¬ (String.mk "combo".toList = "spin") := by decide
  have hc4 : String.mk "combo".toList = "combo" := rfl
  constructor
  · intro D Vs rest hrestdef hVs hpieces hr hrest
    have hre := reOption_match N.toList rest hN hr hrest
    obtain ⟨w, ws, rfl⟩ : ∃ w ws, Vs = w :: ws := by
      cases Vs with
      | nil => exact absurd rfl hVs
      | cons w ws => exact ⟨w, ws, rfl⟩
    have hdef : strFindFrom "default".toList rest 0 = some 1 := by
      have hd : "default".toList = ['d', 'e', 'f', 'a', 'u', 'l', 't'] := rfl
      have hsp : " default ".toList = [' ', 'd', 'e', 'f', 'a', 'u', 'l', 't', ' '] := rfl
      rw [hrestdef, hd, hsp]
      simp [strFindFrom, List.isPrefixOf]
    have hvarsome : (strFindFrom "var".toList rest 0).isSome = true := by
      apply find_isSome_of_occurrence
      rw [hrestdef, hvar]
      exact ⟨" default ".toList ++ D.toList ++ [' '],
        ' ' :: comboText (w.toList :: ws.map String.toList), by simp [comboText]⟩
    have hloop := comboLoop_pieces ((w :: ws).map String.toList) D.toList " default ".toList
      (rest.length + 1) 0 "" []
      (fun u hu => by
        have hu2 : u ∈ (D :: w :: ws).map String.toList := by simpa using hu
        obtain ⟨s, hs, rfl⟩ := List.mem_map.mp hu2
        have h := hpieces s hs
        rw [hvar] at h
        refine ⟨h.1, ?_⟩
        exact isEmpty_eq_false_of_ne h.2)
      (by
        have h := comboText_length ((w :: ws).map String.toList) D.toList
        have hl : rest.length = 9 + (comboText (D.toList :: (w :: ws).map String.toList)).length := by
          rw [hrestdef]
          simp
          omega
        omega)
    have hrest2 : " default ".toList ++ comboText (D.toList :: (w :: ws).map String.toList)
        = rest := by rw [hrestdef]; rfl
    rw [hrest2] at hloop
    have h9 : " default ".toList.length = 1 + 8 := rfl
    rw [h9] at hloop
    simp only [if_true] at hloop
    unfold UciEngine.parseOption
    rw [parseOption_line, hre]
    have hne : rest ≠ [] := by rw [hrestdef]; simp
    simp only [hc1, hc2, hc3, hc4, if_false, if_true, hdef, hvarsome, hloop]
    simp [hne]
    exact (apply_ite some _ _ _).symm
  · intro rest hr hrest hnovar
    have hre := reOption_match N.toList rest hN hr hrest
    rw [hvar] at hnovar
    have hfind := find_var_none rest 0 hnovar
    unfold UciEngine.parseOption
    rw [parseOption_line, hre]
    simp only [hc1, hc2, hc3, hc4, if_false, if_true, hvar, hfind]
    cases hd : strFindFrom "default".toList rest 0 <;> simp

/-- Claim C26, amended, at the line of a combo option `Style` with the default `Solid` and the
choices `Solid` and `Risky`: the option is stored. -/
theorem parseOption_combo_witness :
    UciEngine.parseOption demoOptionEnv
        "option name Style type combo default Solid var Solid var Risky" demoConfig
      = some (true, { demoConfig with
          optionList :=
            [⟨"Style", OptionType.combo, "Solid", "Solid", 0, 0, ["Solid", "Risky"]⟩] }) :=
  (parseOption_combo demoOptionEnv demoConfig "Style" (by decide)).1 "Solid" ["Solid", "Risky"]
    " default Solid var Solid var Risky".toList rfl (by decide) (by decide) (by decide)
    (by decide)

/-! ### The count of moves to go -/

/-- Claim C35: in standard mode with moves = n > 0 and a board history of h plies, the time part
of the go string is the wtime, btime, winc, binc text followed by ` movestogo K` with
K = n - ((h / 2) mod n), and 1 ≤ K ≤ n; with n = 0 the time part is the wtime, btime, winc, binc
text alone. -/
theorem timeControlString_movestogo {P T : Type} (x : Env P T) (board : Board P) (tc : T)
    (hmode : x.tcMode tc = TimeControlMode.standard) :
    (0 < x.tcMoves tc →
      1 ≤ x.tcMoves tc - ((board.histList.length : Int) / 2) % x.tcMoves tc
      ∧ x.tcMoves tc - ((board.histList.length : Int) / 2) % x.tcMoves tc ≤ x.tcMoves tc
      ∧ timeControlString x board tc
        = "wtime " ++ toString (x.tcTimeLeftMs tc Side.white)
          ++ " btime " ++ toString (x.tcTimeLeftMs tc Side.black)
          ++ " winc " ++ toString (x.tcIncrementMs tc)
          ++ " binc " ++ toString (x.tcIncrementMs tc)
          ++ (" movestogo "
            ++ toString (x.tcMoves tc - ((board.histList.length : Int) / 2) % x.tcMoves tc)))
    ∧ (x.tcMoves tc = 0 →
      timeControlString x board tc
        = "wtime " ++ toString (x.tcTimeLeftMs tc Side.white)
          ++ " btime " ++ toString (x.tcTimeLeftMs tc Side.black)
          ++ " winc " ++ toString (x.tcIncrementMs tc)
          ++ " binc " ++ toString (x.tcIncrementMs tc)) := by
  constructor
  · intro hn
    have h1 := Int.emod_nonneg ((board.histList.length : Int) / 2) (ne_of_gt hn)
    have h2 := Int.emod_lt_of_pos ((board.histList.length : Int) / 2) hn
    refine ⟨by omega, by omega, ?_⟩
    have hk : x.tcMoves tc - ((board.histList.length : Int) / 2) % x.tcMoves tc > 0 := by omega
    simp only [timeControlString, hmode, Env.tcTimeLeftMs, Env.tcIncrementMs]
    rw [if_pos hn, if_pos hk]
  · intro hn
    simp only [timeControlString, hmode, hn, Env.tcTimeLeftMs, Env.tcIncrementMs]
    simp

/-- Claim C35 at a clock of 40 moves after 3 plies: 39 moves to go. -/
theorem timeControlString_movestogo_witness :
    (1 : Int) ≤ 40 - ((3 : Nat) : Int) / 2 % 40
    ∧ timeControlString demoClockEnv demoBoardE4E5C4 false
        = "wtime 60000 btime 59000 winc 1000 binc 1000 movestogo 39" :=
  ⟨((timeControlString_movestogo demoClockEnv demoBoardE4E5C4 false rfl).1 (by decide)).1,
    by decide!⟩

/-! ### A stopped game -/

/-- Claim C36: once the state of a game is stopped, every later tickWork call and every later
moveFromPlayer call, with any arguments, returns and leaves the game as it is; after any
sequence of such calls, of changes of a player object and of changes of the clock, the state is
stopped and the board, with its result and its history, is the one the game had. -/
theorem stopped_absorbing {Pl P T : Type} (x : Env P T) (ops : PlayerOps Pl P T)
    (g g1 : Game Pl P T) (hstop : g.state = GameState.stopped) (hrun : Game.Runs x ops g g1) :
    g1.state = GameState.stopped
    ∧ g1.board.result = g.board.result
    ∧ g1.board.histList = g.board.histList
    ∧ g1.board = g.board
    ∧ g1.tickWork x ops = some g1
    ∧ ∀ (moveString ponderMoveString : String) (timeConsumed : Int) (side : Side)
        (oldState : EngineComputingState),
        g1.moveFromPlayer x ops moveString ponderMoveString timeConsumed side oldState
          = some g1 := by
  have hkeep : g1.state = GameState.stopped ∧ g1.board = g.board := by
    induction hrun with
    | start => exact ⟨hstop, rfl⟩
    | tick g1 g2 _ htick ih =>
      have h : g1.tickWork x ops = some g1 := by simp [Game.tickWork, ih.1]
      rw [h] at htick
      cases htick
      exact ih
    | bestmove g1 g2 ms pms t sd os _ hmove ih =>
      have h : g1.moveFromPlayer x ops ms pms t sd os = some g1 := by
        simp [Game.moveFromPlayer, ih.1]
      rw [h] at hmove
      cases hmove
      exact ih
    | player g1 sd p _ ih =>
      cases sd <;> exact ⟨ih.1, ih.2⟩
    | clock g1 tc _ ih => exact ⟨ih.1, ih.2⟩
  refine ⟨hkeep.1, by rw [hkeep.2], by rw [hkeep.2], hkeep.2, ?_, ?_⟩
  · simp [Game.tickWork, hkeep.1]
  · intro ms pms t sd os
    simp [Game.moveFromPlayer, hkeep.1]

/-- Claim C36 at the game that stopped when white crashed: after a tick and a bestmove event the
game is still stopped, with the result and the history it had. -/
theorem stopped_absorbing_witness :
    demoWhiteCrashedOver.state = GameState.stopped
    ∧ (demoWhiteCrashedOver.moveFromPlayer demoEnv (uciPlayerOps demoEnv) "e2e4" "e7e5" 5
        Side.white EngineComputingState.thinking) = some demoWhiteCrashedOver
    ∧ demoWhiteCrashedOver.board.result
        = { result := ResultType.loss, reason := ReasonType.crash } :=
  ⟨rfl,
    (stopped_absorbing demoEnv (uciPlayerOps demoEnv) demoWhiteCrashedOver demoWhiteCrashedOver
      rfl
      (Game.Runs.bestmove _ _ _ "e2e4" "e7e5" 5 Side.white EngineComputingState.thinking
        (Game.Runs.tick _ _ _ (Game.Runs.start _) rfl) rfl)).2.2.2.2.2
      "e2e4" "e7e5" 5 Side.white EngineComputingState.thinking,
    rfl⟩

/-! ### Info lines that end early -/

/-- Claim C37: parseInfo is not total on info lines.  On the bare line `info` the call
`line.substr(5)` is out of range, whatever the collaborators, and so parseLine fails on it
while the engine thinks; on a line whose text after `info ` splits into `score` and `cp` the
second read after the key `score` is out of range; a line whose text splits into the single
key `depth` is parsed, without a change of the engine. -/
theorem parseInfo_out_of_range {P T : Type} (x : Env P T) (tc : T) (e : UciEngine) :
    e.parseInfo x "info" = none
    ∧ (e.computingState = EngineComputingState.thinking →
        e.parseLine x tc (some UciEngineCmd.info) "info" = none)
    ∧ (x.splitString "score cp" ' ' = ["score", "cp"] →
        e.parseInfo x "info score cp" = none)
    ∧ (x.splitString "depth" ' ' = ["depth"] → e.parseInfo x "info depth" = some e) := by
  have h1 : e.parseInfo x "info" = none := rfl
  refine ⟨h1, ?_, ?_, ?_⟩
  · intro hth
    simp [UciEngine.parseLine, hth, h1]
  · intro hsplit
    have hsub : strSubstr "info score cp".toList 5
        (strFindFrom " pv ".toList "info score cp".toList 0) = some "score cp".toList := by
      decide
    unfold UciEngine.parseInfo
    simp only []
    rw [hsub]
    have hs : String.mk "score cp".toList = "score cp" := rfl
    simp only [hs, hsplit]
    simp [parseInfoLoop]
  · intro hsplit
    have hsub : strSubstr "info depth".toList 5
        (strFindFrom " pv ".toList "info depth".toList 0) = some "depth".toList := by
      decide
    unfold UciEngine.parseInfo
    simp only []
    rw [hsub]
    have hs : String.mk "depth".toList = "depth" := rfl
    simp only [hs, hsplit]
    simp [parseInfoLoop]

/-- Claim C37 at the demonstration engine while it thinks: the lines `info` and
`info score cp` make parseLine and parseInfo fail. -/
theorem parseInfo_out_of_range_witness :
    demoThinking.parseLine demoEnv false (some UciEngineCmd.info) "info" = none
    ∧ demoThinking.parseInfo demoEnv "info score cp" = none :=
  ⟨(parseInfo_out_of_range demoEnv false demoThinking).2.1 rfl,
    (parseInfo_out_of_range demoEnv false demoThinking).2.2.1 (by decide)⟩

/-! ### The binary search on any array -/

/-- The loop of the binary search on any array, sorted or not: it answers within the rounds
given, without a read outside the array, with `-1` or with the index of a record with the
key. -/
theorem binarySearchLoop_total (items : List BookPolyglotItem) (key : Nat) :
    ∀ (fuel : Nat) (first last : Int), 0 ≤ first → last < items.length →
      first ≤ last + 1 → last - first + 1 < fuel →
      ∃ r, binarySearchLoop items key fuel first last = some r
        ∧ (r = -1
          ∨ (0 ≤ r ∧ r < items.length ∧ ∃ a, items[r.toNat]? = some a ∧ a.key = key)) := by
  intro fuel
  induction fuel with
  | zero =>
    intro first last h0 hn hr hf
    omega
  | succ fuel ih =>
    intro first last h0 hn hr hf
    unfold binarySearchLoop
    by_cases hle : first ≤ last
    · have hm0 : 0 ≤ (first + last) / 2 := by omega
      have hm1 : first ≤ (first + last) / 2 := by omega
      have hm2 : (first + last) / 2 ≤ last := by omega
      have hmn : ((first + last) / 2).toNat < items.length := by omega
      have hget : items[((first + last) / 2).toNat]? = some items[((first + last) / 2).toNat] :=
        List.getElem?_eq_getElem hmn
      simp only [hle, if_true, not_lt.mpr hm0, if_false, List.get?_eq_getElem?, hget]
      by_cases hk : items[((first + last) / 2).toNat].key = key
      · simp only [hk, if_true]
        exact ⟨_, rfl, Or.inr ⟨hm0, by omega, _, hget, hk⟩⟩
      · simp only [hk, if_false]
        by_cases hgt : items[((first + last) / 2).toNat].key > key
        · simp only [hgt, if_true]
          exact ih first ((first + last) / 2 - 1) h0 (by omega) (by omega) (by omega)
        · simp only [hgt, if_false]
          exact ih ((first + last) / 2 + 1) last (by omega) hn (by omega) (by omega)
    · simp only [hle, if_false]
      exact ⟨-1, rfl, Or.inl rfl⟩

theorem binarySearch_returns (items : List BookPolyglotItem) (key : Nat) :
    ∃ r, binarySearch items key = some r
      ∧ (r = -1
        ∨ (0 ≤ r ∧ r < items.length ∧ ∃ a, items[r.toNat]? = some a ∧ a.key = key)) :=
  binarySearchLoop_total items key (items.length + 1) 0 ((items.length : Int) - 1)
    (le_refl _) (by omega) (by omega) (by push_cast; omega)

/-- Claim C38: for every array of records, sorted or not, and every key, binarySearch ends
within itemCnt + 1 rounds without a read outside the array, and its result is -1 or an index
in 0..itemCnt-1 of a record with the searched key; on an array sorted by key the result is -1
exactly when no record has the key. -/
theorem binarySearch_total (items : List BookPolyglotItem) (key : Nat) :
    (∃ r, binarySearch items key = some r
      ∧ (r = -1
        ∨ (0 ≤ r ∧ r < items.length ∧ ∃ a, items[r.toNat]? = some a ∧ a.key = key)))
    ∧ (items.Pairwise (fun a b => a.key ≤ b.key) →
        ∀ r, binarySearch items key = some r → (r = -1 ↔ ∀ a ∈ items, a.key ≠ key)) := by
  refine ⟨binarySearch_returns items key, ?_⟩
  intro hs r hr
  obtain ⟨r1, hr1, hcase⟩ := binarySearchLoop_sorted items key hs (items.length + 1) 0
    ((items.length : Int) - 1) (le_refl _) (by omega) (by omega) (by push_cast; omega)
    (fun i a hi _ => absurd hi (by omega))
    (fun i a hi ha => absurd (List.getElem?_eq_some.mp ha).1 (by omega))
  have heq : r1 = r := by
    unfold binarySearch at hr
    rw [hr1] at hr
    exact Option.some.inj hr
  subst heq
  rcases hcase with ⟨hneg, hnone⟩ | ⟨hpos, a, ha, hk⟩
  · exact ⟨fun _ => hnone, fun _ => hneg⟩
  · constructor
    · intro hneg
      omega
    · intro hnone
      exact absurd hk (hnone a (List.getElem?_mem ha))

/-- Claim C38 at the demo book: the search for key 3 answers the index 2. -/
theorem binarySearch_total_witness :
    binarySearch demoItems 3 = some 2
    ∧ ((2 : Int) = -1 ↔ ∀ a ∈ demoItems, a.key ≠ 3) :=
  ⟨rfl, (binarySearch_total demoItems 3).2 (by decide) 2 rfl⟩

/-! ### The Polyglot book: the moves of a draw -/

theorem searchCollect_mem (items : List BookPolyglotItem) (key : Nat) :
    ∀ (fuel k : Nat) (vec : List BookPolyglotItem),
      (∀ a ∈ vec, a ∈ items ∧ a.key = key) →
      ∀ a ∈ searchCollect items key fuel k vec, a ∈ items ∧ a.key = key := by
  intro fuel
  induction fuel with
  | zero => intro k vec h; exact h
  | succ fuel ih =>
    intro k vec h
    unfold searchCollect
    cases hget : items.get? k with
    | none => exact h
    | some item =>
      simp only []
      by_cases hk : item.key = key
      · rw [if_pos hk]
        apply ih
        intro a ha
        rcases List.mem_append.mp ha with h1 | h1
        · exact h a h1
        · rw [List.mem_singleton] at h1
          subst h1
          exact ⟨List.get?_mem hget, hk⟩
      · rw [if_neg hk]
        exact h

theorem search_returns (items : List BookPolyglotItem) (key : Nat) :
    ∃ vec, search items key = some vec ∧ ∀ a ∈ vec, a ∈ items ∧ a.key = key := by
  obtain ⟨r, hr, _⟩ := binarySearch_returns items key
  unfold search
  rw [hr]
  by_cases h : r ≥ 0
  · simp only [h, if_true]
    exact ⟨_, rfl, searchCollect_mem items key _ _ [] (fun a ha => absurd ha (List.not_mem_nil a))⟩
  · simp only [h, if_false]
    exact ⟨[], rfl, fun a ha => absurd ha (List.not_mem_nil a)⟩

theorem pick_in_range (top100 : Int) (n : Nat) (r : Rng) (hn : 0 < n) (h0 : 0 ≤ top100)
    (h100 : top100 ≤ 100) :
    (BookPolyglot.pick top100 n r).1.toNat < n := by
  have hnn : (0 : Int) ≤ (n : Int) * top100 := by positivity
  have hk : Int.tdiv ((n : Int) * top100) 100 = (n : Int) * top100 / 100 :=
    Int.tdiv_eq_ediv hnn (by decide)
  have hle : (n : Int) * top100 / 100 ≤ (n : Int) := by
    have : (n : Int) * top100 ≤ (n : Int) * 100 := by nlinarith
    omega
  have hk0 : 0 ≤ (n : Int) * top100 / 100 := by omega
  unfold BookPolyglot.pick
  simp only [hk]
  by_cases hz : (n : Int) * top100 / 100 = 0
  · simp only [hz, if_true]
    omega
  · simp only [hz, if_false]
    have hpos : 0 < (n : Int) * top100 / 100 := by omega
    have hm := Int.tmod_lt_of_pos (r.rand.1 : Int) hpos
    have hm0 := Int.tmod_nonneg ((n : Int) * top100 / 100) (Int.ofNat_nonneg r.rand.1)
    omega

theorem choose_returns {P : Type} (env : BookEnv P) (b : BookPolyglot) (board : Board P)
    (r : Rng) (h0 : 0 ≤ b.top100) (h100 : b.top100 ≤ 100) :
    ∃ res, b.choose env board r = some res
      ∧ ∀ item r1, res = some (item, r1) → item ∈ b.items ∧ item.key = env.key board := by
  obtain ⟨vec, hvec, hmem⟩ := search_returns b.items (env.key board)
  unfold BookPolyglot.choose
  rw [hvec]
  cases hv : vec with
  | nil =>
    refine ⟨none, rfl, ?_⟩
    intro item r1 h
    cases h
  | cons a t =>
    have hn : 0 < (a :: t).length := by simp
    have hlt := pick_in_range b.top100 (a :: t).length r hn h0 h100
    have hget : (a :: t).get? (BookPolyglot.pick b.top100 (a :: t).length r).1.toNat
        = some ((a :: t).get ⟨_, hlt⟩) := List.get?_eq_get hlt
    simp only [List.isEmpty_cons, Bool.false_eq_true, if_false, hget]
    refine ⟨_, rfl, ?_⟩
    intro item r1 h
    simp only [Option.some.injEq, Prod.mk.injEq] at h
    rw [← h.1]
    apply hmem
    rw [hv]
    exact List.get_mem _ _ _

theorem getRandomBookLoop_spec {P : Type} (env : BookEnv P) (b : BookPolyglot)
    (h0 : 0 ≤ b.top100) (h100 : b.top100 ≤ 100) :
    ∀ (n : Nat) (board : Board P) (moveList : List Move) (r : Rng),
      ∃ tail r1, BookPolyglot.getRandomBookLoop env b n board moveList r
          = some (moveList ++ tail, r1)
        ∧ tail.length ≤ n ∧ bookLine env b.items board tail = true := by
  intro n
  induction n with
  | zero =>
    intro board moveList r
    exact ⟨[], r, by simp [BookPolyglot.getRandomBookLoop], le_refl _, rfl⟩
  | succ n ih =>
    intro board moveList r
    obtain ⟨res, hres, hitem⟩ := choose_returns env b board r h0 h100
    unfold BookPolyglot.getRandomBookLoop
    rw [hres]
    match res, hitem with
    | none, _ => exact ⟨[], r, by simp, Nat.zero_le _, rfl⟩
    | some (item, r1), hitem =>
      obtain ⟨hmem, hkey⟩ := hitem item r1 rfl
      simp only []
      by_cases hmade : (env.checkMake board item.getMove.src item.getMove.dest
          item.getMove.promotion).1 = true
      · simp only [hmade, Bool.not_true, Bool.false_eq_true, if_false]
        obtain ⟨tail, r2, hloop, hlen, hline⟩ := ih
          (env.checkMake board item.getMove.src item.getMove.dest item.getMove.promotion).2
          (moveList ++ [item.getMove]) r1
        refine ⟨item.getMove :: tail, r2, ?_, by simp; omega, ?_⟩
        · rw [hloop]
          simp
        · simp only [bookLine, hmade, hline, Bool.and_true, List.any_eq_true,
            Bool.and_eq_true, decide_eq_true_eq]
          exact ⟨item, hmem, hkey, rfl⟩
      · simp only [hmade, Bool.not_false, if_true]
        exact ⟨[], r1, by simp, Nat.zero_le _, rfl⟩

/-- Claim C31: called with an empty move list, for every book, sorted or not, every maxPly and
every top100 in 0..100, getRandomBook returns true with a move list of at most max(maxPly, 0)
moves in which each move is the decoded move of a book record whose key is the key of the
position reached from the standard start by the moves before it, and was accepted by checkMake
in that position. -/
theorem getRandomBook_polyglot {P : Type} (env : BookEnv P) (b : BookPolyglot)
    (fenString : String) (r : Rng) (h0 : 0 ≤ b.top100) (h100 : b.top100 ≤ 100) :
    ∃ moves r1, b.getRandomBook env fenString [] r = some ⟨true, fenString, moves, r1⟩
      ∧ (moves.length : Int) ≤ max b.maxPly 0
      ∧ bookLine env b.items env.newGame moves = true := by
  obtain ⟨tail, r1, hloop, hlen, hline⟩ := getRandomBookLoop_spec env b h0 h100
    (b.maxPly - (([] : List Move).length : Int)).toNat env.newGame [] r
  refine ⟨tail, r1, ?_, ?_, hline⟩
  · unfold BookPolyglot.getRandomBook
    simp only []
    rw [hloop]
    simp
  · simp only [List.length_nil, Int.Nat.cast_ofNat_Int, sub_zero] at hlen
    omega

/-- Claim C31 at the demo book with maxPly = 2 and top100 = 50: the draw has two moves. -/
theorem getRandomBook_polyglot_witness :
    (∃ moves r1, demoPolyglot.getRandomBook demoBookEnv "" [] demoRng
        = some ⟨true, "", moves, r1⟩
      ∧ (moves.length : Int) ≤ max demoPolyglot.maxPly 0
      ∧ bookLine demoBookEnv demoPolyglot.items demoBookEnv.newGame moves = true)
    ∧ (demoPolyglot.getRandomBook demoBookEnv "" [] demoRng).map (fun d => d.moves)
      = some [⟨56, 44, PieceType.empty⟩, ⟨56, 38, PieceType.empty⟩] :=
  ⟨getRandomBook_polyglot demoBookEnv demoPolyglot "" demoRng (by decide) (by decide),
    by decide⟩

/-! ### The promotion field of a Polyglot move -/

theorem and_three (v : Nat) : v &&& 3 = v % 4 :=
  Nat.and_pow_two_sub_one_eq_mod v 2

theorem and_seven (v : Nat) : v &&& 7 = v % 8 :=
  Nat.and_pow_two_sub_one_eq_mod v 3

/-- Claim C32: for every move word, the decoded promotion is none, knight, bishop or rook when
bits 12-14 of the word hold 0, 1, 2 or 3, but it is none, not queen, when they hold 4: the code
keeps bits 12-13 only. -/
theorem getMove_promotion (item : BookPolyglotItem) :
    ((item.move >>> 12) &&& 7 = 0 → item.getMove.promotion = PieceType.empty)
    ∧ ((item.move >>> 12) &&& 7 = 1 → item.getMove.promotion = PieceType.knight)
    ∧ ((item.move >>> 12) &&& 7 = 2 → item.getMove.promotion = PieceType.bishop)
    ∧ ((item.move >>> 12) &&& 7 = 3 → item.getMove.promotion = PieceType.rook)
    ∧ ((item.move >>> 12) &&& 7 = 4 → item.getMove.promotion = PieceType.empty) := by
  have hp : item.getMove.promotion
      = if (item.move >>> 12) &&& 3 = 0 then PieceType.empty
        else pieceTypeOfNat (6 - ((item.move >>> 12) &&& 3)) := rfl
  rw [hp, and_three, and_seven]
  refine ⟨?_, ?_, ?_, ?_, ?_⟩ <;> intro h
  · have h4 : (item.move >>> 12) % 4 = 0 := by omega
    simp [h4]
  · have h4 : (item.move >>> 12) % 4 = 1 := by omega
    simp [h4, pieceTypeOfNat]
  · have h4 : (item.move >>> 12) % 4 = 2 := by omega
    simp [h4, pieceTypeOfNat]
  · have h4 : (item.move >>> 12) % 4 = 3 := by omega
    simp [h4, pieceTypeOfNat]
  · have h4 : (item.move >>> 12) % 4 = 0 := by omega
    simp [h4]

/-- Claim C32 at the word of `e7e8q`, whose promotion field is 4: the decoded move goes from
square 12 to square 4 without a promotion. -/
theorem getMove_promotion_witness :
    ((19772 >>> 12) &&& 7 = 4)
    ∧ (⟨0, 19772, 1, 0⟩ : BookPolyglotItem).getMove.promotion = PieceType.empty
    ∧ (⟨0, 19772, 1, 0⟩ : BookPolyglotItem).getMove = ⟨12, 4, PieceType.empty⟩ :=
  ⟨by decide, (getMove_promotion ⟨0, 19772, 1, 0⟩).2.2.2.2 (by decide), by decide⟩

/-! ### The book manager: calls after the first -/

theorem getRandomBook_fallthrough {P : Type} (env : BookEnv P) (now : Nat) (pairId : Int)
    (m : BookMng) (r : Rng)
    (hallone : m.bookSelectType = BookSelectType.allone →
      m.alloneFenString = "" ∧ m.alloneMoves = []) :
    m.getRandomBook env now pairId r
      = BookMng.drawOrRepeat env pairId { m with queryCnt := m.queryCnt + 1 }
          (if m.queryCnt + 1 = 1
            then Rng.srand env (if m.seed ≥ 0 then m.seed.toNat else now) else r) "" [] := by
  by_cases hsel : m.bookSelectType = BookSelectType.allone
  · obtain ⟨hf, hm⟩ := hallone hsel
    have he : m.alloneFenString.isEmpty = true := by rw [hf]; rfl
    simp only [BookMng.getRandomBook, hsel, he, hm, if_true, Bool.not_true, Bool.false_eq_true,
      if_false, List.isEmpty_nil]
  · exact getRandomBook_not_allone env now pairId m r hsel

theorem getRandomBook_settled {P : Type} (env : BookEnv P) (now : Nat) (pairId : Int)
    (m : BookMng) (r : Rng)
    (hnew : m.bookSelectType ≠ BookSelectType.allnew)
    (hpair : m.bookSelectType ≠ BookSelectType.samepair)
    (hallone : m.bookSelectType = BookSelectType.allone →
      m.alloneFenString = "" ∧ m.alloneMoves = [])
    (hbooks : m.bookList ≠ []) (hcnt : 1 ≤ m.queryCnt) :
    m.getRandomBook env now pairId r
      = some ⟨true, m.theFenString, m.theMoves,
          { m with queryCnt := m.queryCnt + 1, lastPairIdx := pairId }, r⟩ := by
  have hne : ¬ (m.queryCnt + 1 = 1) := by omega
  rw [getRandomBook_fallthrough env now pairId m r hallone, if_neg hne,
    drawOrRepeat_repeat env pairId { m with queryCnt := m.queryCnt + 1 } r "" [] hbooks
      (by simp [hne, hnew, hpair])]

/-- Claim C39: for every book manager with at least one book whose select type is neither
allnew nor samepair (and, if it is allone, without a configured FEN and without configured
moves), every call after the first returns, and returns true with exactly the text and the
moves of the first call, whatever the pair id, the time and the state of the generator; and
string2BookSelectType gives neither allnew nor samepair for any other name. -/
theorem getRandomBook_no_redraw {P : Type} (env : BookEnv P) (now : Nat) (pairId : Int)
    (m : BookMng) (r : Rng) (a1 : BookAnswer)
    (hnew : m.bookSelectType ≠ BookSelectType.allnew)
    (hpair : m.bookSelectType ≠ BookSelectType.samepair)
    (hallone : m.bookSelectType = BookSelectType.allone →
      m.alloneFenString = "" ∧ m.alloneMoves = [])
    (hbooks : m.bookList ≠ []) (hcnt : m.queryCnt = 0)
    (hfirst : m.getRandomBook env now pairId r = some a1) :
    (∀ (now2 : Nat) (pairId2 : Int) (r2 : Rng),
      ∃ a2, a1.mng.getRandomBook env now2 pairId2 r2 = some a2)
    ∧ (∀ a, BookMng.Later env a1 a →
        a.ok = true ∧ a.fenString = a1.fenString ∧ a.moves = a1.moves
        ∧ ∀ (now2 : Nat) (pairId2 : Int) (r2 : Rng),
            ∃ a2, a.mng.getRandomBook env now2 pairId2 r2 = some a2)
    ∧ (∀ name : String, name ≠ "allnew" → name ≠ "samepair" →
        string2BookSelectType name ≠ BookSelectType.allnew
        ∧ string2BookSelectType name ≠ BookSelectType.samepair) := by
  have hinv1 : a1.mng.bookSelectType = m.bookSelectType
      ∧ a1.mng.alloneFenString = m.alloneFenString ∧ a1.mng.alloneMoves = m.alloneMoves
      ∧ a1.mng.bookList = m.bookList ∧ 1 ≤ a1.mng.queryCnt
      ∧ a1.mng.theFenString = a1.fenString ∧ a1.mng.theMoves = a1.moves := by
    rw [getRandomBook_fallthrough env now pairId m r hallone] at hfirst
    obtain ⟨book, _, hd⟩ := drawOrRepeat_draw env pairId
      { m with queryCnt := m.queryCnt + 1 }
      (if m.queryCnt + 1 = 1
        then Rng.srand env (if m.seed ≥ 0 then m.seed.toNat else now) else r)
      "" [] hbooks (Or.inl (by simp [hcnt]))
    rw [hd] at hfirst
    cases hdraw : book.getRandomBook env "" [] _ with
    | none => rw [hdraw] at hfirst; simp at hfirst
    | some d =>
      rw [hdraw] at hfirst
      simp only [Option.map_some', Option.some.injEq] at hfirst
      subst hfirst
      simp [hcnt]
  have hkeep : ∀ a, BookMng.Later env a1 a →
      (a.mng.bookSelectType = m.bookSelectType
        ∧ a.mng.alloneFenString = m.alloneFenString ∧ a.mng.alloneMoves = m.alloneMoves
        ∧ a.mng.bookList = m.bookList ∧ 1 ≤ a.mng.queryCnt
        ∧ a.mng.theFenString = a1.fenString ∧ a.mng.theMoves = a1.moves)
      ∧ a.ok = true ∧ a.fenString = a1.fenString ∧ a.moves = a1.moves := by
    have hstep : ∀ (a a2 : BookAnswer) (now2 : Nat) (pairId2 : Int) (r2 : Rng),
        (a.mng.bookSelectType = m.bookSelectType
          ∧ a.mng.alloneFenString = m.alloneFenString ∧ a.mng.alloneMoves = m.alloneMoves
          ∧ a.mng.bookList = m.bookList ∧ 1 ≤ a.mng.queryCnt
          ∧ a.mng.theFenString = a1.fenString ∧ a.mng.theMoves = a1.moves) →
        a.mng.getRandomBook env now2 pairId2 r2 = some a2 →
        (a2.mng.bookSelectType = m.bookSelectType
          ∧ a2.mng.alloneFenString = m.alloneFenString ∧ a2.mng.alloneMoves = m.alloneMoves
          ∧ a2.mng.bookList = m.bookList ∧ 1 ≤ a2.mng.queryCnt
          ∧ a2.mng.theFenString = a1.fenString ∧ a2.mng.theMoves = a1.moves)
        ∧ a2.ok = true ∧ a2.fenString = a1.fenString ∧ a2.moves = a1.moves := by
      intro a a2 now2 pairId2 r2 ⟨h1, h2, h3, h4, h5, h6, h7⟩ hcall
      rw [getRandomBook_settled env now2 pairId2 a.mng r2 (by rw [h1]; exact hnew)
        (by rw [h1]; exact hpair) (by rw [h1, h2, h3]; exact hallone)
        (by rw [h4]; exact hbooks) h5] at hcall
      simp only [Option.some.injEq] at hcall
      subst hcall
      refine ⟨⟨h1, h2, h3, h4, ?_, h6, h7⟩, rfl, h6, h7⟩
      show 1 ≤ a.mng.queryCnt + 1
      omega
    intro a hlater
    induction hlater with
    | next a2 now2 pairId2 r2 hcall => exact hstep a1 a2 now2 pairId2 r2 hinv1 hcall
    | step a a2 now2 pairId2 r2 _ hcall ih => exact hstep a a2 now2 pairId2 r2 ih.1 hcall
  have hreturns : ∀ a : BookAnswer,
      (a.mng.bookSelectType = m.bookSelectType
        ∧ a.mng.alloneFenString = m.alloneFenString ∧ a.mng.alloneMoves = m.alloneMoves
        ∧ a.mng.bookList = m.bookList ∧ 1 ≤ a.mng.queryCnt
        ∧ a.mng.theFenString = a1.fenString ∧ a.mng.theMoves = a1.moves) →
      ∀ (now2 : Nat) (pairId2 : Int) (r2 : Rng),
        ∃ a2, a.mng.getRandomBook env now2 pairId2 r2 = some a2 := by
    intro a ⟨h1, h2, h3, h4, h5, _, _⟩ now2 pairId2 r2
    exact ⟨_, getRandomBook_settled env now2 pairId2 a.mng r2 (by rw [h1]; exact hnew)
      (by rw [h1]; exact hpair) (by rw [h1, h2, h3]; exact hallone)
      (by rw [h4]; exact hbooks) h5⟩
  refine ⟨hreturns a1 hinv1, ?_, ?_⟩
  · intro a hlater
    obtain ⟨hinv, hok, hfen, hmoves⟩ := hkeep a hlater
    exact ⟨hok, hfen, hmoves, hreturns a hinv⟩
  · intro name h1 h2
    unfold string2BookSelectType bookSelectTypeNames
    simp only [string2BookSelectTypeLoop, h1, h2, if_false]
    constructor <;> split <;> (try split) <;> simp [bookSelectTypeOfNat]

/-- Claim C39 at the manager of the EPD book with select type none: the first call, for pair 4,
draws the position `8/8/k7 w`, and the second call, for pair 7, returns it again. -/
theorem getRandomBook_no_redraw_witness :
    demoNoneMng.getRandomBook demoBookEnv 0 4 demoRng = some demoNoneFirst
    ∧ demoNoneFirst.mng.getRandomBook demoBookEnv 9 7 demoRng = some demoNoneSecond
    ∧ demoNoneFirst.fenString = "8/8/k7 w"
    ∧ demoNoneSecond.ok = true ∧ demoNoneSecond.fenString = demoNoneFirst.fenString
    ∧ demoNoneSecond.moves = demoNoneFirst.moves :=
  ⟨rfl, rfl, by decide,
    ((getRandomBook_no_redraw demoBookEnv 0 4 demoNoneMng demoRng demoNoneFirst (by decide)
      (by decide) (by decide) (List.cons_ne_nil _ _) rfl rfl).2.1 demoNoneSecond
      (BookMng.Later.next _ _ 9 7 demoRng rfl)).1,
    ((getRandomBook_no_redraw demoBookEnv 0 4 demoNoneMng demoRng demoNoneFirst (by decide)
      (by decide) (by decide) (List.cons_ne_nil _ _) rfl rfl).2.1 demoNoneSecond
      (BookMng.Later.next _ _ 9 7 demoRng rfl)).2.1,
    ((getRandomBook_no_redraw demoBookEnv 0 4 demoNoneMng demoRng demoNoneFirst (by decide)
      (by decide) (by decide) (List.cons_ne_nil _ _) rfl rfl).2.1 demoNoneSecond
      (BookMng.Later.next _ _ 9 7 demoRng rfl)).2.2.1⟩

/-! ### The PGN book and maxPly -/

theorem addPgnMoves_spec {P : Type} (env : BookEnv P)
    (san : Board P → String → Bool × Board P) (str : String) (b : BookPgn) :
    (b.addPgnMoves env san str).2.maxPly = b.maxPly
    ∧ (b.addPgnMoves env san str).2.moves
        = b.moves ++ (if BookPgn.moveString2Moves env san str = [] then []
            else [BookPgn.moveString2Moves env san str]) := by
  unfold BookPgn.addPgnMoves
  by_cases hs : str.isEmpty = true
  · have hm : BookPgn.moveString2Moves env san str = [] := by
      simp [BookPgn.moveString2Moves, hs]
    simp [hs, hm]
  · by_cases hl : BookPgn.moveString2Moves env san str = []
    · simp [hs, hl]
    · have hl2 : (BookPgn.moveString2Moves env san str).isEmpty = false := by
        cases hm : BookPgn.moveString2Moves env san str with
        | nil => exact absurd hm hl
        | cons a t => rfl
      simp [hs, hl, hl2]

/-- The move lists the loop of `load` adds after the text `moveText` and the lines `vec`. -/
theorem loadLoop_spec {P : Type} (env : BookEnv P)
    (san : Board P → String → Bool × Board P) :
    ∀ (vec : List String) (moveText : String) (b : BookPgn),
      ∃ (added : List (List Move)),
        (∀ b1 : BookPgn,
          (BookPgn.loadLoop env san vec moveText b1).2.maxPly = b1.maxPly
          ∧ (BookPgn.loadLoop env san vec moveText b1).1
              = (BookPgn.loadLoop env san vec moveText b).1
          ∧ (BookPgn.loadLoop env san vec moveText b1).2.moves = b1.moves ++ added)
        ∧ ∀ l ∈ added, l ≠ [] ∧ ∃ text, l = BookPgn.moveString2Moves env san text := by
  intro vec
  induction vec with
  | nil =>
    intro moveText b
    exact ⟨[], fun b1 => ⟨rfl, rfl, by simp [BookPgn.loadLoop]⟩,
      fun l hl => absurd hl (List.not_mem_nil l)⟩
  | cons s vec ih =>
    intro moveText b
    by_cases h1 : (strFindFrom "[".toList s.toList 0).isSome = true
    · by_cases h2 : (strFindFrom "[Event".toList s.toList 0).isSome = true
      · obtain ⟨added, hadd, hmem⟩ := ih "" (b.addPgnMoves env san moveText).2
        refine ⟨(if BookPgn.moveString2Moves env san moveText = [] then []
            else [BookPgn.moveString2Moves env san moveText]) ++ added, ?_, ?_⟩
        · intro b1
          obtain ⟨ha, hb, hc⟩ := hadd (b1.addPgnMoves env san moveText).2
          obtain ⟨hp1, hp2⟩ := addPgnMoves_spec env san moveText b1
          simp only [BookPgn.loadLoop, h1, h2, if_true]
          refine ⟨by rw [ha, hp1], hb, ?_⟩
          rw [hc, hp2, List.append_assoc]
        · intro l hl
          rcases List.mem_append.mp hl with h | h
          · by_cases hm : BookPgn.moveString2Moves env san moveText = []
            · simp [hm] at h
            · simp only [hm, if_false, List.mem_singleton] at h
              subst h
              exact ⟨hm, moveText, rfl⟩
          · exact hmem l h
      · obtain ⟨added, hadd, hmem⟩ := ih moveText b
        refine ⟨added, ?_, hmem⟩
        intro b1
        simp only [BookPgn.loadLoop, h1, h2, if_true, Bool.false_eq_true, if_false]
        exact hadd b1
    · obtain ⟨added, hadd, hmem⟩ := ih (moveText ++ (" " ++ s)) b
      refine ⟨added, ?_, hmem⟩
      intro b1
      simp only [BookPgn.loadLoop, h1, Bool.false_eq_true, if_false]
      exact hadd b1

/-- Claim C34: a PGN book keeps maxPly and never reads it.  For every file and every maxPly n
the loaded book has maxPly = n and the same move lists as under any other maxPly, each of them
the whole, non-empty move list read from one move text; and getRandomBook on a book with a
game returns true with one of these lists as it is, whatever its length. -/
theorem pgn_ignores_maxPly {P : Type} (env : BookEnv P)
    (san : Board P → String → Bool × Board P) (vec : List String) (n top100 : Int)
    (b0 : BookPgn) :
    (BookPgn.load env san vec n top100 b0).maxPly = n
    ∧ (∀ (n2 t2 : Int) (b2 : BookPgn),
        (BookPgn.load env san vec n2 t2 b2).moves = (BookPgn.load env san vec n top100 b0).moves)
    ∧ (∀ l ∈ (BookPgn.load env san vec n top100 b0).moves,
        l ≠ [] ∧ ∃ text, l = BookPgn.moveString2Moves env san text)
    ∧ (∀ (b : BookPgn) (fenString : String) (moveList : List Move) (r : Rng),
        b.moves ≠ [] → (∀ l ∈ b.moves, l ≠ []) →
        ∃ l, b.moves.get? (r.rand.1 % b.moves.length) = some l
          ∧ b.getRandomBook fenString moveList r = some ⟨true, fenString, l, r.rand.2⟩) := by
  have hload : ∀ (n1 t1 : Int) (b1 : BookPgn),
        (BookPgn.load env san vec n1 t1 b1).maxPly = n1
        ∧ (∀ (n2 t2 : Int) (b2 : BookPgn),
            (BookPgn.load env san vec n2 t2 b2).moves = (BookPgn.load env san vec n1 t1 b1).moves)
        ∧ ∀ l ∈ (BookPgn.load env san vec n1 t1 b1).moves,
            l ≠ [] ∧ ∃ text, l = BookPgn.moveString2Moves env san text := by
    intro n1 t1 b1
    obtain ⟨added, hadd, hmem⟩ := loadLoop_spec env san vec ""
      { maxPly := n1, top100 := t1, moves := [] }
    have hform : ∀ (n2 t2 : Int) (b2 : BookPgn),
        (BookPgn.load env san vec n2 t2 b2).maxPly = n2
        ∧ (BookPgn.load env san vec n2 t2 b2).moves
          = added ++ (if BookPgn.moveString2Moves env san
                (BookPgn.loadLoop env san vec ""
                  { maxPly := n1, top100 := t1, moves := [] }).1 = [] then []
              else [BookPgn.moveString2Moves env san
                (BookPgn.loadLoop env san vec ""
                  { maxPly := n1, top100 := t1, moves := [] }).1]) := by
      intro n2 t2 b2
      obtain ⟨ha, hb, hc⟩ := hadd { maxPly := n2, top100 := t2, moves := [] }
      obtain ⟨hp1, hp2⟩ := addPgnMoves_spec env san
        (BookPgn.loadLoop env san vec "" { maxPly := n2, top100 := t2, moves := [] }).1
        (BookPgn.loadLoop env san vec "" { maxPly := n2, top100 := t2, moves := [] }).2
      unfold BookPgn.load
      simp only []
      rw [hp1, hp2, ha, hc, hb]
      simp
    refine ⟨(hform n1 t1 b1).1, ?_, ?_⟩
    · intro n2 t2 b2
      rw [(hform n2 t2 b2).2, (hform n1 t1 b1).2]
    · intro l hl
      rw [(hform n1 t1 b1).2] at hl
      rcases List.mem_append.mp hl with h | h
      · exact hmem l h
      · by_cases hm : BookPgn.moveString2Moves env san
            (BookPgn.loadLoop env san vec "" { maxPly := n1, top100 := t1, moves := [] }).1 = []
        · simp [hm] at h
        · simp only [hm, if_false, List.mem_singleton] at h
          subst h
          exact ⟨hm, _, rfl⟩
  obtain ⟨h1, h2, h3⟩ := hload n top100 b0
  refine ⟨h1, h2, h3, ?_⟩
  intro b fenString moveList r hne hall
  have hlt : r.rand.1 % b.moves.length < b.moves.length :=
    Nat.mod_lt _ (List.length_pos.mpr hne)
  have hget : b.moves.get? (r.rand.1 % b.moves.length) = some (b.moves.get ⟨_, hlt⟩) :=
    List.get?_eq_get hlt
  have hemp : b.moves.isEmpty = false := by
    cases hm : b.moves with
    | nil => exact absurd hm hne
    | cons a t => rfl
  have hl : (b.moves.get ⟨_, hlt⟩).isEmpty = false := by
    have := hall _ (List.get_mem b.moves _ hlt)
    cases hm : b.moves.get ⟨_, hlt⟩ with
    | nil => exact absurd hm this
    | cons a t => rfl
  refine ⟨_, hget, ?_⟩
  simp only [BookPgn.getRandomBook, hemp, Bool.false_eq_true, if_false, hget, hl, Bool.not_false]

/-- Claim C34 at a file with one game of three plies, loaded with maxPly = 2: the book has
maxPly 2 and getRandomBook returns the three moves of the game. -/
theorem pgn_ignores_maxPly_witness :
    demoPgn.maxPly = 2
    ∧ demoPgn.moves = [[⟨52, 36, PieceType.empty⟩, ⟨12, 28, PieceType.empty⟩,
        ⟨62, 45, PieceType.empty⟩]]
    ∧ (demoPgn.getRandomBook "" [] demoRng).map (fun d => d.moves.length) = some 3 :=
  ⟨(pgn_ignores_maxPly demoBookEnv demoFromSanMoveList demoPgnLines 2 100 ⟨0, 0, []⟩).1,
    by decide, by decide⟩

/-! ### Byte order of a Polyglot record -/

theorem or_add (a b s : Nat) (hb : b < 2 ^ s) : (a * 2 ^ s) ||| b = a * 2 ^ s + b := by
  rw [Nat.mul_comm]
  exact (Nat.mul_add_lt_is_or hb a).symm

theorem and_byte_mask (v s : Nat) : v &&& (255 * 2 ^ s) = (v / 2 ^ s % 256) * 2 ^ s := by
  have h255 : (255 : Nat) = 2 ^ 8 - 1 := rfl
  have h256 : (256 : Nat) = 2 ^ 8 := rfl
  rw [← Nat.shiftLeft_eq, ← Nat.shiftLeft_eq, ← Nat.shiftRight_eq_div_pow, h255, h256]
  apply Nat.eq_of_testBit_eq
  intro i
  simp only [Nat.testBit_and, Nat.testBit_shiftLeft, Nat.testBit_two_pow_sub_one,
    Nat.testBit_mod_two_pow, Nat.testBit_shiftRight]
  by_cases hi : i ≥ s
  · have : s + (i - s) = i := by omega
    simp [hi, this, Bool.and_comm]
  · simp [hi]

theorem swap16 (v : Nat) (hv : v < 2 ^ 16) :
    ((v >>> 8) ||| (v <<< 8)) % 2 ^ 16 = (v % 256) * 256 + v / 256 := by
  have hb : v / 2 ^ 8 < 2 ^ 8 := by omega
  rw [Nat.shiftRight_eq_div_pow, Nat.shiftLeft_eq, Nat.or_comm, or_add v (v / 2 ^ 8) 8 hb]
  omega

theorem or_chain4 (t0 t1 t2 t3 : Nat) :
    t0 ||| t1 ||| t2 ||| t3 = t3 ||| (t1 ||| (t2 ||| t0)) := by
  apply Nat.eq_of_testBit_eq
  intro i
  simp only [Nat.testBit_or]
  ac_rfl

theorem swap32 (v : Nat) (hv : v < 2 ^ 32) :
    (v >>> 24) ||| (((v <<< 8) % 2 ^ 32) &&& 0x00FF0000) ||| ((v >>> 8) &&& 0x0000FF00)
        ||| ((v <<< 24) % 2 ^ 32)
      = (v % 256) * 2 ^ 24 + (v / 2 ^ 8 % 256) * 2 ^ 16 + (v / 2 ^ 16 % 256) * 2 ^ 8
        + v / 2 ^ 24 := by
  have hm1 : (0x00FF0000 : Nat) = 255 * 2 ^ 16 := by norm_num
  have hm2 : (0x0000FF00 : Nat) = 255 * 2 ^ 8 := by norm_num
  have h3 : v <<< 24 % 2 ^ 32 = (v % 256) * 2 ^ 24 := by
    rw [Nat.shiftLeft_eq]; omega
  have h1 : (v <<< 8 % 2 ^ 32) / 2 ^ 16 % 256 = v / 2 ^ 8 % 256 := by
    rw [Nat.shiftLeft_eq]; omega
  have h2 : (v >>> 8) / 2 ^ 8 % 256 = v / 2 ^ 16 % 256 := by
    rw [Nat.shiftRight_eq_div_pow]; omega
  have h0 : v >>> 24 = v / 2 ^ 24 := Nat.shiftRight_eq_div_pow v 24
  rw [hm1, hm2, and_byte_mask, and_byte_mask, h3, h1, h2, h0, or_chain4]
  have b0 : v / 2 ^ 24 < 2 ^ 8 := by omega
  have b2 : v / 2 ^ 16 % 256 < 256 := Nat.mod_lt _ (by decide)
  have b1 : v / 2 ^ 8 % 256 < 256 := Nat.mod_lt _ (by decide)
  rw [or_add _ _ 8 b0, or_add _ _ 16 (by omega), or_add _ _ 24 (by omega)]
  omega

theorem or_chain8 (t0 t1 t2 t3 t4 t5 t6 t7 : Nat) :
    t0 ||| t1 ||| t2 ||| t3 ||| t4 ||| t5 ||| t6 ||| t7
      = t7 ||| (t1 ||| (t2 ||| (t3 ||| (t4 ||| (t5 ||| (t6 ||| t0)))))) := by
  apply Nat.eq_of_testBit_eq
  intro i
  simp only [Nat.testBit_or]
  ac_rfl

theorem swap64 (v : Nat) (hv : v < 2 ^ 64) :
    (v >>> 56)
        ||| (((v <<< 40) % 2 ^ 64) &&& 0x00FF000000000000)
        ||| (((v <<< 24) % 2 ^ 64) &&& 0x0000FF0000000000)
        ||| (((v <<< 8) % 2 ^ 64) &&& 0x000000FF00000000)
        ||| ((v >>> 8) &&& 0x00000000FF000000)
        ||| ((v >>> 24) &&& 0x0000000000FF0000)
        ||| ((v >>> 40) &&& 0x000000000000FF00)
        ||| ((v <<< 56) % 2 ^ 64)
      = (v % 256) * 2 ^ 56 + (v / 2 ^ 8 % 256) * 2 ^ 48 + (v / 2 ^ 16 % 256) * 2 ^ 40
        + (v / 2 ^ 24 % 256) * 2 ^ 32 + (v / 2 ^ 32 % 256) * 2 ^ 24
        + (v / 2 ^ 40 % 256) * 2 ^ 16 + (v / 2 ^ 48 % 256) * 2 ^ 8 + v / 2 ^ 56 := by
  have hm1 : (0x00FF000000000000 : Nat) = 255 * 2 ^ 48 := by norm_num
  have hm2 : (0x0000FF0000000000 : Nat) = 255 * 2 ^ 40 := by norm_num
  have hm3 : (0x000000FF00000000 : Nat) = 255 * 2 ^ 32 := by norm_num
  have hm4 : (0x00000000FF000000 : Nat) = 255 * 2 ^ 24 := by norm_num
  have hm5 : (0x0000000000FF0000 : Nat) = 255 * 2 ^ 16 := by norm_num
  have hm6 : (0x000000000000FF00 : Nat) = 255 * 2 ^ 8 := by norm_num
  have h7 : v <<< 56 % 2 ^ 64 = (v % 256) * 2 ^ 56 := by
    rw [Nat.shiftLeft_eq]; omega
  have h1 : (v <<< 40 % 2 ^ 64) / 2 ^ 48 % 256 = v / 2 ^ 8 % 256 := by
    rw [Nat.shiftLeft_eq]; omega
  have h2 : (v <<< 24 % 2 ^ 64) / 2 ^ 40 % 256 = v / 2 ^ 16 % 256 := by
    rw [Nat.shiftLeft_eq]; omega
  have h3 : (v <<< 8 % 2 ^ 64) / 2 ^ 32 % 256 = v / 2 ^ 24 % 256 := by
    rw [Nat.shiftLeft_eq]; omega
  have h4 : (v >>> 8) / 2 ^ 24 % 256 = v / 2 ^ 32 % 256 := by
    rw [Nat.shiftRight_eq_div_pow]; omega
  have h5 : (v >>> 24) / 2 ^ 16 % 256 = v / 2 ^ 40 % 256 := by
    rw [Nat.shiftRight_eq_div_pow]; omega
  have h6 : (v >>> 40) / 2 ^ 8 % 256 = v / 2 ^ 48 % 256 := by
    rw [Nat.shiftRight_eq_div_pow]; omega
  have h0 : v >>> 56 = v / 2 ^ 56 := Nat.shiftRight_eq_div_pow v 56
  rw [hm1, hm2, hm3, hm4, hm5, hm6, and_byte_mask, and_byte_mask, and_byte_mask, and_byte_mask,
    and_byte_mask, and_byte_mask, h7, h1, h2, h3, h4, h5, h6, h0, or_chain8]
  have b0 : v / 2 ^ 56 < 2 ^ 8 := by omega
  have b1 : v / 2 ^ 8 % 256 < 256 := Nat.mod_lt _ (by decide)
  have b2 : v / 2 ^ 16 % 256 < 256 := Nat.mod_lt _ (by decide)
  have b3 : v / 2 ^ 24 % 256 < 256 := Nat.mod_lt _ (by decide)
  have b4 : v / 2 ^ 32 % 256 < 256 := Nat.mod_lt _ (by decide)
  have b5 : v / 2 ^ 40 % 256 < 256 := Nat.mod_lt _ (by decide)
  have b6 : v / 2 ^ 48 % 256 < 256 := Nat.mod_lt _ (by decide)
  rw [or_add _ _ 8 b0, or_add _ _ 16 (by omega), or_add _ _ 24 (by omega),
    or_add _ _ 32 (by omega), or_add _ _ 40 (by omega), or_add _ _ 48 (by omega),
    or_add _ _ 56 (by omega)]
  omega

theorem leBytes_spec (w : Nat) :
    ∀ v : Nat, (leBytes w v).length = w ∧ ∀ b ∈ leBytes w v, b < 256 := by
  induction w with
  | zero => intro v; simp [leBytes]
  | succ w ih =>
    intro v
    obtain ⟨h1, h2⟩ := ih (v / 256)
    refine ⟨by simp [leBytes, h1], ?_⟩
    intro b hb
    simp only [leBytes, List.mem_cons] at hb
    rcases hb with hb | hb
    · omega
    · exact h2 b hb

theorem ofLeBytes_leBytes (w : Nat) : ∀ v : Nat, v < 256 ^ w → ofLeBytes (leBytes w v) = v := by
  induction w with
  | zero => intro v hv; simp at hv; simp [leBytes, ofLeBytes, hv]
  | succ w ih =>
    intro v hv
    have h : v / 256 < 256 ^ w := by
      rw [Nat.pow_succ] at hv
      exact Nat.div_lt_of_lt_mul (by rw [Nat.mul_comm]; exact hv)
    simp only [leBytes, ofLeBytes, ih (v / 256) h]
    omega

theorem leBytes_ofLeBytes (l : List Nat) (hl : ∀ b ∈ l, b < 256) :
    leBytes l.length (ofLeBytes l) = l ∧ ofLeBytes l < 256 ^ l.length := by
  induction l with
  | nil => simp [leBytes, ofLeBytes]
  | cons b bs ih =>
    have hb := hl b (List.mem_cons_self _ _)
    obtain ⟨h1, h2⟩ := ih (fun c hc => hl c (List.mem_cons_of_mem _ hc))
    have hmod : (b + 256 * ofLeBytes bs) % 256 = b := by omega
    have hdiv : (b + 256 * ofLeBytes bs) / 256 = ofLeBytes bs := by omega
    refine ⟨by simp only [List.length_cons, leBytes, ofLeBytes, hmod, hdiv, h1], ?_⟩
    simp only [List.length_cons, ofLeBytes, Nat.pow_succ]
    omega

theorem byteSwap_bytes (l : List Nat) (hl : ∀ b ∈ l, b < 256) :
    byteSwap l.length (ofLeBytes l) = ofBeBytes l := by
  unfold byteSwap ofBeBytes
  rw [(leBytes_ofLeBytes l hl).1]

theorem byteSwap_byteSwap (w v : Nat) (hv : v < 256 ^ w) :
    byteSwap w v < 256 ^ w ∧ byteSwap w (byteSwap w v) = v := by
  obtain ⟨hlen, hb⟩ := leBytes_spec w v
  have hrev : ∀ b ∈ (leBytes w v).reverse, b < 256 := fun b h => hb b (List.mem_reverse.mp h)
  have hlen2 : (leBytes w v).reverse.length = w := by rw [List.length_reverse, hlen]
  obtain ⟨h1, h2⟩ := leBytes_ofLeBytes (leBytes w v).reverse hrev
  rw [hlen2] at h1 h2
  refine ⟨h2, ?_⟩
  unfold byteSwap
  rw [h1, List.reverse_reverse, ofLeBytes_leBytes w v hv]

theorem byteSwap_eight (v : Nat) :
    byteSwap 8 v
      = (v % 256) * 2 ^ 56 + (v / 2 ^ 8 % 256) * 2 ^ 48 + (v / 2 ^ 16 % 256) * 2 ^ 40
        + (v / 2 ^ 24 % 256) * 2 ^ 32 + (v / 2 ^ 32 % 256) * 2 ^ 24
        + (v / 2 ^ 40 % 256) * 2 ^ 16 + (v / 2 ^ 48 % 256) * 2 ^ 8 + v / 2 ^ 56 % 256 := by
  simp only [byteSwap, leBytes, ofLeBytes, List.reverse_cons, List.reverse_nil,
    List.nil_append, List.cons_append, Nat.div_div_eq_div_mul]
  norm_num
  ring

theorem byteSwap_four (v : Nat) :
    byteSwap 4 v
      = (v % 256) * 2 ^ 24 + (v / 2 ^ 8 % 256) * 2 ^ 16 + (v / 2 ^ 16 % 256) * 2 ^ 8
        + v / 2 ^ 24 % 256 := by
  simp only [byteSwap, leBytes, ofLeBytes, List.reverse_cons, List.reverse_nil,
    List.nil_append, List.cons_append, Nat.div_div_eq_div_mul]
  norm_num
  ring

theorem byteSwap_two (v : Nat) : byteSwap 2 v = (v % 256) * 256 + v / 256 % 256 := by
  simp only [byteSwap, leBytes, ofLeBytes, List.reverse_cons, List.reverse_nil,
    List.nil_append, List.cons_append]
  ring

theorem convert_eq_byteSwap (item : BookPolyglotItem) (hk : item.key < 2 ^ 64)
    (hm : item.move < 2 ^ 16) (hw : item.weight < 2 ^ 16) (hl : item.learn < 2 ^ 32) :
    item.convertToLittleEndian
      = ⟨byteSwap 8 item.key, byteSwap 2 item.move, byteSwap 2 item.weight,
          byteSwap 4 item.learn⟩ := by
  have e8 : item.key / 2 ^ 56 % 256 = item.key / 2 ^ 56 := by omega
  have e4 : item.learn / 2 ^ 24 % 256 = item.learn / 2 ^ 24 := by omega
  have em : item.move / 256 % 256 = item.move / 256 := by omega
  have ew : item.weight / 256 % 256 = item.weight / 256 := by omega
  unfold BookPolyglotItem.convertToLittleEndian
  simp only []
  rw [swap64 item.key hk, swap16 item.move hm, swap16 item.weight hw, swap32 item.learn hl,
    byteSwap_eight, byteSwap_four, byteSwap_two, byteSwap_two, e8, e4, em, ew]

/-- Claim C33: for every record whose fields fit their types, convertToLittleEndian replaces
each field by the value with the order of its bytes reversed (8 bytes of key, 2 of move, 2 of
weight, 4 of learn); applying it twice gives the record back; and a record read raw by a
little-endian host from the 16 bytes of a file ends with the big-endian integers composed
from these bytes. -/
theorem convertToLittleEndian_spec (item : BookPolyglotItem) (hk : item.key < 2 ^ 64)
    (hm : item.move < 2 ^ 16) (hw : item.weight < 2 ^ 16) (hl : item.learn < 2 ^ 32) :
    item.convertToLittleEndian
      = ⟨byteSwap 8 item.key, byteSwap 2 item.move, byteSwap 2 item.weight,
          byteSwap 4 item.learn⟩
    ∧ item.convertToLittleEndian.convertToLittleEndian = item
    ∧ ∀ (k m w l : List Nat), k.length = 8 → m.length = 2 → w.length = 2 → l.length = 4 →
        (∀ b ∈ k ++ m ++ w ++ l, b < 256) →
        item = ⟨ofLeBytes k, ofLeBytes m, ofLeBytes w, ofLeBytes l⟩ →
        item.convertToLittleEndian = ⟨ofBeBytes k, ofBeBytes m, ofBeBytes w, ofBeBytes l⟩ := by
  have p8 : (256 : Nat) ^ 8 = 2 ^ 64 := by norm_num
  have p2 : (256 : Nat) ^ 2 = 2 ^ 16 := by norm_num
  have p4 : (256 : Nat) ^ 4 = 2 ^ 32 := by norm_num
  have h1 := convert_eq_byteSwap item hk hm hw hl
  refine ⟨h1, ?_, ?_⟩
  · obtain ⟨rk, sk⟩ := byteSwap_byteSwap 8 item.key (by rw [p8]; exact hk)
    obtain ⟨rm, sm⟩ := byteSwap_byteSwap 2 item.move (by rw [p2]; exact hm)
    obtain ⟨rw2, sw⟩ := byteSwap_byteSwap 2 item.weight (by rw [p2]; exact hw)
    obtain ⟨rl, sl⟩ := byteSwap_byteSwap 4 item.learn (by rw [p4]; exact hl)
    rw [p8] at rk
    rw [p2] at rm rw2
    rw [p4] at rl
    rw [h1, convert_eq_byteSwap
      ⟨byteSwap 8 item.key, byteSwap 2 item.move, byteSwap 2 item.weight, byteSwap 4 item.learn⟩
      rk rm rw2 rl]
    simp only [sk, sm, sw, sl]
  · intro k m w l hk8 hm2 hw2 hl4 hbytes hitem
    have bk : ∀ b ∈ k, b < 256 := fun b hb => hbytes b (by simp [hb])
    have bm : ∀ b ∈ m, b < 256 := fun b hb => hbytes b (by simp [hb])
    have bw : ∀ b ∈ w, b < 256 := fun b hb => hbytes b (by simp [hb])
    have bl : ∀ b ∈ l, b < 256 := fun b hb => hbytes b (by simp [hb])
    have ek := byteSwap_bytes k bk
    have em := byteSwap_bytes m bm
    have ew := byteSwap_bytes w bw
    have el := byteSwap_bytes l bl
    rw [hk8] at ek
    rw [hm2] at em
    rw [hw2] at ew
    rw [hl4] at el
    rw [h1, hitem]
    simp only [ek, em, ew, el]

/-- Claim C33 at the record read raw from the file bytes 01 02 ... 08, 01 02, 03 04 and
01 02 03 04. -/
theorem convertToLittleEndian_spec_witness :
    (⟨0x0807060504030201, 0x0201, 0x0403, 0x04030201⟩ : BookPolyglotItem).convertToLittleEndian
      = ⟨0x0102030405060708, 0x0102, 0x0304, 0x01020304⟩
    ∧ (⟨0x0807060504030201, 0x0201, 0x0403, 0x04030201⟩ : BookPolyglotItem).convertToLittleEndian
      = ⟨ofBeBytes [1, 2, 3, 4, 5, 6, 7, 8], ofBeBytes [1, 2], ofBeBytes [3, 4],
          ofBeBytes [1, 2, 3, 4]⟩ :=
  ⟨by decide,
    (convertToLittleEndian_spec ⟨0x0807060504030201, 0x0201, 0x0403, 0x04030201⟩
      (by decide) (by decide) (by decide) (by decide)).2.2
      [1, 2, 3, 4, 5, 6, 7, 8] [1, 2] [3, 4] [1, 2, 3, 4] rfl rfl rfl rfl (by decide)
      (by decide)⟩

end Banksia
